import Mathlib

/-! odfgrep: a verification development

Shallow embedding of the search core of `odfgrep` (`src/unicode.cpp`,
`src/odfgrep.cpp`, `src/action.cpp`) and theorems about it.

Conventions of the embedding
* a `std::string` / byte buffer is a `List Nat`, one element per byte;
* `size_t` and `long` values are `Nat` / `Int`;
* C++ control flow that leaves a function other than by `return`
  (`throw`, `std::exit`, a failed `assert`, a read outside an array) is an
  explicit constructor of the result type.
-/

namespace Odfgrep

/-! ## `unicode.cpp` : `utf8_to_utf32` -/

/-- A `std::string`, as its sequence of bytes. -/
abbrev std_string := List Nat

/-- A `std::wstring`, as its sequence of `wchar_t` values. -/
abbrev std_wstring := List Nat

/-- The bytes of an ASCII string literal of the source. -/
def lit (s : String) : std_string := s.data.map Char.toNat

/-- The ways a call of `utf8_to_utf32` can end. -/
inductive Decode where
  /-- the function returns: `return result;` -/
  | ok (result : std_wstring)
  /-- it throws: `throw std::runtime_error(what)` -/
  | runtime_error (what : String)
  /-- the `assert` of the four-byte branch fails -/
  | assertion_failed
  /-- the byte `*p` is read with `p` outside the array -/
  | out_of_bounds
  deriving DecidableEq, Repr

/-- Put `pre` in front of the wide string of a successful result. -/
def Decode.prepend (pre : std_wstring) : Decode → Decode
  | .ok result => .ok (pre ++ result)
  | d => d

/-- The message of every `throw` in `utf8_to_utf32`. -/
def invalid_utf8 : Decode := Decode.runtime_error "invalid utf-8 encoding"

/-- The decrement `--size` of a `std::size_t` (64 bits): decrementing zero wraps around. -/
def dec_size (size : Nat) : Nat := if size = 0 then 2 ^ 64 - 1 else size - 1

/-- The `for` loop of `utf8_to_utf32(unsigned char const*, std::size_t)`
(unicode.cpp:45-102).  `mem` is the array from `p` onwards, so `*p` is the head
of `mem` and `++p` drops it; `size` is the loop counter; `result` is the wide
string built so far.  An iteration starts with the test `size != 0`; the
final `++p, --size` of the `for` header is done together with the recursive
call. -/
def utf8_loop : List Nat → Nat → std_wstring → Decode
  | [], size, result => if size = 0 then .ok result else .out_of_bounds
  | p0 :: m1, size, result =>
    if size = 0 then .ok result
    else if p0 &&& 0x80 = 0 then
      utf8_loop m1 (dec_size size) (result ++ [p0])
    else if p0 &&& 0xc0 = 0x80 then invalid_utf8
    else if p0 &&& 0xe0 = 0xc0 then
      -- two-byte encoding
      match m1 with
      | [] => .out_of_bounds
      | p1 :: m2 =>
        if p1 &&& 0xc0 ≠ 0x80 then invalid_utf8
        else
          utf8_loop m2 (dec_size (dec_size size))
            (result ++ [((p0 &&& 0x1f) <<< 6) ||| (p1 &&& 0x3f)])
    else if p0 &&& 0xf0 = 0xe0 then
      -- three-byte encoding
      match m1 with
      | [] => .out_of_bounds
      | p1 :: m2 =>
        if p1 &&& 0xc0 ≠ 0x80 then invalid_utf8
        else
          match m2 with
          | [] => .out_of_bounds
          | p2 :: m3 =>
            if p2 &&& 0xc0 ≠ 0x80 then invalid_utf8
            else
              utf8_loop m3 (dec_size (dec_size (dec_size size)))
                (result ++ [((p0 &&& 0x0f) <<< 12) ||| ((p1 &&& 0x3f) <<< 6) ||| (p2 &&& 0x3f)])
    else
      -- four-byte encoding
      if p0 &&& 0xf0 ≠ 0xf0 then .assertion_failed
      else
        match m1 with
        | [] => .out_of_bounds
        | p1 :: m2 =>
          if p1 &&& 0xc0 ≠ 0x80 then invalid_utf8
          else
            match m2 with
            | [] => .out_of_bounds
            | p2 :: m3 =>
              if p2 &&& 0xc0 ≠ 0x80 then invalid_utf8
              else
                match m3 with
                | [] => .out_of_bounds
                | p3 :: m4 =>
                  if p3 &&& 0xc0 ≠ 0x80 then invalid_utf8
                  else
                    utf8_loop m4 (dec_size (dec_size (dec_size (dec_size size))))
                      (result ++ [((p0 &&& 0x07) <<< 16) ||| ((p1 &&& 0x3f) <<< 12)
                        ||| ((p2 &&& 0x3f) <<< 6) ||| (p3 &&& 0x3f)])

/-- The pointer overload `utf8_to_utf32(inbuf, size)` (unicode.cpp:41-105):
`mem` is the array `inbuf` points into. -/
def utf8_to_utf32_ptr (mem : List Nat) (size : Nat) : Decode :=
  utf8_loop mem size []

/-- The overload `utf8_to_utf32(std::string const& inbuf)` (unicode.hpp:45-48),
the one `match` and `main` call: it passes `inbuf.c_str()`, the bytes of the
string followed by the terminating NUL, and `inbuf.size()`. -/
def utf8_to_utf32 (inbuf : std_string) : Decode :=
  utf8_to_utf32_ptr (inbuf ++ [0]) inbuf.length

/-- Standard UTF-8 (RFC 3629) encoding of one code point, written from the
definition of the encoding and not from the source: the decoder is compared
with it. -/
def utf8_encode_scalar (c : Nat) : List Nat :=
  if c < 0x80 then [c]
  else if c < 0x800 then [0xC0 ||| (c >>> 6), 0x80 ||| (c &&& 0x3F)]
  else if c < 0x10000 then
    [0xE0 ||| (c >>> 12), 0x80 ||| ((c >>> 6) &&& 0x3F), 0x80 ||| (c &&& 0x3F)]
  else
    [0xF0 ||| (c >>> 18), 0x80 ||| ((c >>> 12) &&& 0x3F), 0x80 ||| ((c >>> 6) &&& 0x3F),
      0x80 ||| (c &&& 0x3F)]

/-- Standard UTF-8 encoding of a sequence of code points. -/
def utf8_encode : List Nat → List Nat
  | [] => []
  | c :: cs => utf8_encode_scalar c ++ utf8_encode cs

/-- A Unicode scalar value: at most U+10FFFF and not a surrogate. -/
def is_scalar (c : Nat) : Prop := c ≤ 0x10FFFF ∧ ¬ (0xD800 ≤ c ∧ c ≤ 0xDFFF)

instance (c : Nat) : Decidable (is_scalar c) := by unfold is_scalar; infer_instance

/-- The number of bytes the encoding grammar requires after a lead byte: one
after `110xxxxx`, two after `1110xxxx`, three after `11110xxx`. -/
def required_after (lead : Nat) : Nat :=
  if lead &&& 0xe0 = 0xc0 then 1 else if lead &&& 0xf0 = 0xe0 then 2 else 3

/-! ## `odfgrep.cpp`, `action.cpp` : control flow and program state -/

/-- The C++ exceptions that travel through the search. -/
inductive exception where
  /-- a `std::runtime_error` that is not a `Zip::Exception` (thrown by
  `utf8_to_utf32`) -/
  | runtime_error (what : String)
  /-- a `Zip::Exception` (zip.hpp:45), thrown when an archive or one of its
  members cannot be opened or read -/
  | zip_exception (what : std_string)
  deriving DecidableEq, Repr

/-- How a call ends, with the state `σ` it leaves behind. -/
inductive Ctl (σ α : Type) where
  /-- normal return of the value `a` -/
  | ret (a : α) (s : σ)
  /-- an exception leaves the function -/
  | throw (e : exception) (s : σ)
  /-- the process exits: `std::exit(code)` -/
  | exit (code : Nat) (s : σ)
  /-- the process is aborted: failed `assert`, or access through an invalid
  pointer -/
  | abort (s : σ)
  deriving DecidableEq, Repr

/-- The state a call leaves behind. -/
def Ctl.state {σ α : Type} : Ctl σ α → σ
  | .ret _ s => s
  | .throw _ s => s
  | .exit _ s => s
  | .abort s => s

/-- Sequencing: `k` runs only after a normal return. -/
def Ctl.bind {σ α β : Type} (r : Ctl σ α) (k : α → σ → Ctl σ β) : Ctl σ β :=
  match r with
  | .ret a s => k a s
  | .throw e s => .throw e s
  | .exit code s => .exit code s
  | .abort s => .abort s

/-- The same outcome over a larger state. -/
def Ctl.lift {σ τ α : Type} (f : σ → τ) : Ctl σ α → Ctl τ α
  | .ret a s => .ret a (f s)
  | .throw e s => .throw e (f s)
  | .exit code s => .exit code (f s)
  | .abort s => .abort (f s)

/-- The enumeration `enum exit_status { success, nomatch, io_error, cmdline_error }`
(odfgrep.cpp:66). -/
inductive exit_status where
  | success
  | nomatch
  | io_error
  | cmdline_error
  deriving DecidableEq, Repr

/-- The integer value of an `exit_status`, which `main` returns. -/
def exit_status.code : exit_status → Nat
  | .success => 0
  | .nomatch => 1
  | .io_error => 2
  | .cmdline_error => 3

/-- The enumeration `enum when { never, always, multiple }` (odfgrep.cpp:68). -/
inductive when where
  | never
  | always
  | multiple
  deriving DecidableEq, Repr

/-- The value of a `when` used as a condition (`print_filename ? a : b`):
`never` is 0, the others are nonzero. -/
def when.to_bool : when → Bool
  | .never => false
  | .always => true
  | .multiple => true

/-- What has been written to `std::cout` and `std::cerr`. -/
structure Console where
  cout : std_string
  cerr : std_string
  deriving DecidableEq, Repr

/-- The class `struct action` (action.hpp:31-52): the four virtual functions.  An action
only touches the standard streams; the globals of odfgrep.cpp are in an
unnamed namespace and out of its reach.  (`initialise` is the source's
`initialize`.) -/
structure action where
  initialise : Console → Ctl Console Unit
  perform : std_string → std_string → Console → Ctl Console Bool
  finish_file : std_string → Int → Console → Ctl Console Unit
  finish_all : Console → Ctl Console Unit

/-- Output `std::cout << s`. -/
def Console.put (c : Console) (s : std_string) : Console := { c with cout := c.cout ++ s }

/-- Output `std::cout << n` of a `long`: its decimal digits. -/
def fmt_long (n : Int) : std_string := lit (toString n)

/-- The default `action::initialize` (action.cpp:34-35). -/
def action.base_initialise : Console → Ctl Console Unit := fun c => .ret () c

/-- The default `action::finish_file` (action.cpp:28-29). -/
def action.base_finish_file : std_string → Int → Console → Ctl Console Unit :=
  fun _ _ c => .ret () c

/-- The default `action::finish_all` (action.cpp:31-32). -/
def action.base_finish_all : Console → Ctl Console Unit := fun c => .ret () c

/-- The action `struct count` (action.cpp:38-48). -/
def count : action where
  initialise := action.base_initialise
  perform := fun _ _ c => .ret true c
  finish_file := fun filename count c =>
    let c := if filename ≠ [] then c.put (filename ++ lit ": ") else c
    .ret () (c.put (fmt_long count ++ lit "\n"))
  finish_all := action.base_finish_all

/-- The action `struct echo_text` (action.cpp:51-57). -/
def echo_text : action where
  initialise := action.base_initialise
  perform := fun text filename c =>
    let c := if filename ≠ [] then c.put (filename ++ lit ": ") else c
    .ret true (c.put (text ++ lit "\n"))
  finish_file := action.base_finish_file
  finish_all := action.base_finish_all

/-- The action `struct echo_file` (action.cpp:60-64). -/
def echo_file : action where
  initialise := action.base_initialise
  perform := fun _ filename c => .ret false (c.put (filename ++ lit "\n"))
  finish_file := action.base_finish_file
  finish_all := action.base_finish_all

/-- The action `struct echo_nomatch` (action.cpp:67-76). -/
def echo_nomatch : action where
  initialise := action.base_initialise
  perform := fun _ _ c => .ret false c
  finish_file := fun filename count c =>
    if count = 0 then .ret () (c.put (filename ++ lit "\n")) else .ret () c
  finish_all := action.base_finish_all

/-- The value of `EXIT_SUCCESS` of `<cstdlib>`. -/
def EXIT_SUCCESS : Nat := 0

/-- The value of `EXIT_FAILURE` of `<cstdlib>`. -/
def EXIT_FAILURE : Nat := 1

/-- The action `struct quiet` (action.cpp:79-87). -/
def quiet : action where
  initialise := action.base_initialise
  perform := fun _ _ c => .exit EXIT_SUCCESS c
  finish_file := action.base_finish_file
  finish_all := fun c => .exit EXIT_FAILURE c

/-- The globals of odfgrep.cpp that the search reads and never writes
(odfgrep.cpp:69-86): they are set while the command line is processed.
`regex_search wide` is `boost::regex_search(wide, pattern, boost::match_any)`,
the pattern engine being an external library. -/
structure Config where
  print_filename : when
  search_meta : Bool
  invert : Bool
  search_deleted : Bool
  max_count : Int
  regex_search : std_wstring → Bool
  act : action

/-- The globals the search writes (`match_count`, `status`, odfgrep.cpp:76,80)
and the standard streams.  `match_count` is a `long`; a document cannot hold
`2^63` text units, so `++match_count` is taken in `Int`. -/
structure World where
  match_count : Int
  status : exit_status
  console : Console
  deriving DecidableEq, Repr

/-- Run an operation of the action on the streams of `w`. -/
def World.with_console {α : Type} (w : World) (r : Ctl Console α) : Ctl World α :=
  r.lift (fun c => { w with console := c })

/-- The function `bool match(std::string const& text, std::string const& filename)`
(odfgrep.cpp:115-128). -/
def match_ (cfg : Config) (text filename : std_string) (w : World) : Ctl World Bool :=
  match utf8_to_utf32 text with
  | .runtime_error what => .throw (.runtime_error what) w
  | .assertion_failed => .abort w
  | .out_of_bounds => .abort w
  | .ok wide =>
    if cfg.regex_search wide != cfg.invert then
      if cfg.max_count = 0 ∨ w.match_count ≠ cfg.max_count then
        (w.with_console (cfg.act.perform text filename w.console)).bind fun result w1 =>
          .ret result { w1 with status := .success, match_count := w1.match_count + 1 }
      else .ret true w
    else .ret true w

/-! ## The document tree -/

/-- An `xmlNode*` of libxml2, restricted to what the search reads: a null
pointer, or a node with its `name`, its `children` (first child) and `next`
(next sibling) pointers, and `content`, the string `xml::get_content` (that is
`xmlNodeGetContent`) returns for it. -/
inductive xmlNode where
  | null
  | node (name : std_string) (content : std_string) (children next : xmlNode)
  deriving DecidableEq, Repr

/-- The function `xml::get_content(node)` (xml.cpp:231-242). -/
def get_content : xmlNode → std_string
  | .null => []
  | .node _ content _ _ => content

/-- The `for` loop of `grep_node` (odfgrep.cpp:174-190), entered with the loop
variable `node`.  The callee `match` (line 179) is the parameter `m`, over any
state `σ`; the program passes `match_ cfg`.  The recursive call
`grep_node(node, filename)` of line 186 is the loop over `node->children`. -/
def grep_node_loop {σ : Type} (m : std_string → std_string → σ → Ctl σ Bool)
    (search_deleted : Bool) (filename : std_string) : xmlNode → σ → Ctl σ Bool
  | .null, s => .ret true s
  | .node name content children next, s =>
    if name = lit "p" ∨ name = lit "h" then
      match m content filename s with
      | .ret true s1 => grep_node_loop m search_deleted filename next s1
      | .ret false s1 => .ret false s1
      | .throw e s1 => .throw e s1
      | .exit code s1 => .exit code s1
      | .abort s1 => .abort s1
    else if search_deleted ∨ name ≠ lit "deletion" then
      match grep_node_loop m search_deleted filename children s with
      | .ret true s1 => grep_node_loop m search_deleted filename next s1
      | .ret false s1 => .ret false s1
      | .throw e s1 => .throw e s1
      | .exit code s1 => .exit code s1
      | .abort s1 => .abort s1
    else grep_node_loop m search_deleted filename next s

/-- The function `bool grep_node(xmlNode* parent, std::string const& filename)`
(odfgrep.cpp:172-191). -/
def grep_node {σ : Type} (m : std_string → std_string → σ → Ctl σ Bool)
    (search_deleted : Bool) (parent : xmlNode) (filename : std_string) (s : σ) : Ctl σ Bool :=
  match parent with
  | .null => .abort s
  | .node _ _ children _ => grep_node_loop m search_deleted filename children s

/-- The children of a node, as the first node of their sibling chain. -/
def xmlNode.children : xmlNode → xmlNode
  | .null => .null
  | .node _ _ children _ => children

/-- The nodes of the claim on the content walk, written from its words: going
through a sibling chain in document order, a node named `p` or `h` is listed
(and not entered); any other node is entered, its own list coming before its
later siblings, unless it is named `deletion` and deleted text is not
searched. -/
def unit_nodes (search_deleted : Bool) : xmlNode → List xmlNode
  | .null => []
  | .node name content children next =>
    (if name = lit "p" ∨ name = lit "h" then [.node name content children next]
     else if name = lit "deletion" ∧ search_deleted = false then []
     else unit_nodes search_deleted children)
    ++ unit_nodes search_deleted next

/-- The text units of a sibling chain: the flattened text of each listed node. -/
def text_units (search_deleted : Bool) (first : xmlNode) : List std_string :=
  (unit_nodes search_deleted first).map get_content

/-- Offer the texts of a list to `m` one after the other, stopping as soon as
an offer does not return `true`. -/
def offer_all {σ : Type} (m : std_string → std_string → σ → Ctl σ Bool)
    (filename : std_string) : List std_string → σ → Ctl σ Bool
  | [], s => .ret true s
  | t :: ts, s =>
    match m t filename s with
    | .ret true s1 => offer_all m filename ts s1
    | r => r

/-- A match engine for observing the walk: it appends each text offered to the
list of the texts offered so far, and answers with `answer`. -/
def recorder (answer : std_string → Bool) :
    std_string → std_string → List std_string → Ctl (List std_string) Bool :=
  fun text _ offered => .ret (answer text) (offered ++ [text])

/-- The tree of the worked example of the content walk: a `text` element
holding a paragraph, a heading, a `section` with one paragraph, and a
`deletion` wrapping one paragraph. -/
def example_text : xmlNode :=
  .node (lit "text") (lit "onetwothreefour")
    (.node (lit "p") (lit "one") .null
      (.node (lit "h") (lit "two") .null
        (.node (lit "section") (lit "three") (.node (lit "p") (lit "three") .null .null)
          (.node (lit "deletion") (lit "four") (.node (lit "p") (lit "four") .null .null)
            .null))))
    .null

/-- Acceptance of a decoded text unit, in the words of the specification: the
pattern matches somewhere in the decoded sequence, XOR the inversion flag. -/
def is_accepted (cfg : Config) (wide : std_wstring) : Bool :=
  xor (cfg.regex_search wide) cfg.invert

/-- A text unit is accepted when it decodes and its decoded form is accepted. -/
def accepts (cfg : Config) (text : std_string) : Bool :=
  match utf8_to_utf32 text with
  | .ok wide => is_accepted cfg wide
  | _ => false

/-! ## Documents -/

/-- A `Zip::File` opened on a member stream, as what the search gets out of
it: either `file.read()` throws a `Zip::Exception`, or the text it returns is
given to `doc.parse` and `doc.get_root_element()` returns `root` (null when
the text does not parse).  The zip library and libxml2 are external. -/
inductive ZipFile where
  | read_fails (what : std_string)
  | root (root : xmlNode)
  deriving DecidableEq, Repr

/-- A `Zip::Archive` that has been opened: `member name` is what the
constructor `Zip::File(zip, name)` does, throwing a `Zip::Exception` with
message `what` (`.error what`) or giving the opened member. -/
structure ZipArchive where
  member : String → Except std_string ZipFile

/-- A document named on the command line: its path and what the constructor
`Zip::Archive zip(document)` does with it (`.error what`: it throws a
`Zip::Exception`). -/
structure Document where
  path : std_string
  zip : Except std_string ZipArchive

/-- The global `emptystr` (odfgrep.cpp:88). -/
def emptystr : std_string := []

/-- The loop of `grep_body` (odfgrep.cpp:200-207), entered with the loop
variable `node`: the first node named `text` is searched and the loop is
left; the result of `grep_node` is dropped. -/
def grep_body_loop (cfg : Config) (filename : std_string) : xmlNode → World → Ctl World Unit
  | .null, w => .ret () w
  | .node name content children next, w =>
    if name = lit "text" then
      (grep_node (match_ cfg) cfg.search_deleted (.node name content children next)
        filename w).bind fun _ w1 => .ret () w1
    else grep_body_loop cfg filename next w

/-- The function `void grep_body(xmlNode* parent, std::string const& filename)`
(odfgrep.cpp:198-208). -/
def grep_body (cfg : Config) (parent : xmlNode) (filename : std_string) (w : World) :
    Ctl World Unit :=
  match parent with
  | .null => .abort w
  | .node _ _ children _ => grep_body_loop cfg filename children w

/-- The loop of `grep_content` (odfgrep.cpp:226-231), entered with the loop
variable `node`: the first node named `body` is searched and the loop is left. -/
def grep_content_loop (cfg : Config) (filename : std_string) :
    xmlNode → World → Ctl World Unit
  | .null, w => .ret () w
  | .node name content children next, w =>
    if name = lit "body" then
      grep_body cfg (.node name content children next) filename w
    else grep_content_loop cfg filename next w

/-- The function `void grep_content(Zip::File& file, std::string filename)`
(odfgrep.cpp:221-232).  The result of `doc.parse` is not looked at; with a
null root element `->children` goes through a null pointer. -/
def grep_content (cfg : Config) (file : ZipFile) (filename : std_string) (w : World) :
    Ctl World Unit :=
  match file with
  | .read_fails what => .throw (.zip_exception what) w
  | .root .null => .abort w
  | .root (.node _ _ children _) => grep_content_loop cfg filename children w

/-- The `try` block of `grep_document` (odfgrep.cpp:243-256). -/
def grep_document_try (cfg : Config) (document : Document) (w : World) : Ctl World Unit :=
  match document.zip with
  | .error what => .throw (.zip_exception what) w
  | .ok zip =>
    let w0 : World := { w with match_count := 0 }
    let filename := if cfg.print_filename.to_bool then document.path else emptystr
    let searched_meta : Ctl World Unit :=
      if cfg.search_meta then
        match zip.member "meta.xml" with
        | .error what => .throw (.zip_exception what) w0
        | .ok meta_xml => grep_content cfg meta_xml filename w0
      else .ret () w0
    searched_meta.bind fun _ w1 =>
      match zip.member "content.xml" with
      | .error what => .throw (.zip_exception what) w1
      | .ok content => grep_content cfg content filename w1

/-- The function `void grep_document(std::string const& document)` (odfgrep.cpp:239-267):
`act->initialize()`, the `try` block, the handler of `Zip::Exception` (message
and newline to `std::cerr`, `status = io_error`), any other exception thrown
again, and then `act->finish_file(document, match_count)`. -/
def grep_document (cfg : Config) (document : Document) (w : World) : Ctl World Unit :=
  (w.with_console (cfg.act.initialise w.console)).bind fun _ wi =>
    let finish : World → Ctl World Unit := fun w2 =>
      w2.with_console (cfg.act.finish_file document.path w2.match_count w2.console)
    match grep_document_try cfg document wi with
    | .ret _ w1 => finish w1
    | .throw (.zip_exception what) w1 =>
      finish { w1 with
        console := { w1.console with cerr := w1.console.cerr ++ what ++ lit "\n" },
        status := .io_error }
    | .throw e w1 => .throw e w1
    | .exit code w1 => .exit code w1
    | .abort w1 => .abort w1

/-- The first node named `name` in a sibling chain (null when there is none). -/
def first_named (name : std_string) : xmlNode → xmlNode
  | .null => .null
  | .node n content children next =>
    if n = name then .node n content children next else first_named name next

/-- The text units the content walk reaches in a parsed stream with root
element `root`: those under the first `text` child of the first `body` child
of the root. -/
def stream_units (search_deleted : Bool) (root : xmlNode) : List std_string :=
  text_units search_deleted
    (first_named (lit "text") (first_named (lit "body") root.children).children).children

/-- A configuration for worked examples: the pattern `a` (a decoded text
matches when it holds the code point U+0061), file names not printed, the
meta stream and deleted text not searched. -/
def example_config (invert : Bool) (max_count : Int) (act : action) : Config where
  print_filename := .never
  search_meta := false
  invert := invert
  search_deleted := false
  max_count := max_count
  regex_search := fun wide => decide (0x61 ∈ wide)
  act := act

/-- The program state when the first document is reached: `status` still
`nomatch`, nothing written; `n` is the value of `match_count`. -/
def example_world (n : Int) : World where
  match_count := n
  status := .nomatch
  console := { cout := [], cerr := [] }

/-- The output after `perform` has been called on each text of a list, in
order, each call returning. -/
def perform_all (act : action) (filename : std_string) (texts : List std_string)
    (c : Console) : Console :=
  texts.foldl (fun c1 t => (act.perform t filename c1).state) c

/-- A text unit decodes: `utf8_to_utf32` returns for it. -/
def decodes (text : std_string) : Bool :=
  match utf8_to_utf32 text with
  | .ok _ => true
  | _ => false

/-- The root element of the member stream `name` of an archive; null when the
member cannot be opened or read, or does not parse. -/
def member_root (zip : ZipArchive) (name : String) : xmlNode :=
  match zip.member name with
  | .ok (.root r) => r
  | _ => .null

/-- The text units of a document, in the order the search reaches them: those
of `meta.xml` when the meta stream is searched, then those of `content.xml`. -/
def document_units (cfg : Config) (zip : ZipArchive) : List std_string :=
  (if cfg.search_meta then stream_units cfg.search_deleted (member_root zip "meta.xml") else [])
    ++ stream_units cfg.search_deleted (member_root zip "content.xml")

/-- The accepted text units of a document, in order. -/
def accepted_units (cfg : Config) (zip : ZipArchive) : List std_string :=
  (document_units cfg zip).filter (accepts cfg)

/-- The bound of the specification on the matches acted on in one document:
`n` when `max_count` is 0, the smaller of `n` and `max_count` otherwise. -/
def capped (max_count : Int) (n : Nat) : Nat :=
  if max_count = 0 then n else min n max_count.toNat

/-- A document for worked examples: `content.xml` holds a `body` whose `text`
element has the paragraphs `a1`, `a2`, `b`, `a3`; there is no `meta.xml`. -/
def example_document : Document where
  path := lit "x.odt"
  zip := .ok
    { member := fun name =>
        if name = "content.xml" then
          .ok (.root
            (.node (lit "document-content") [] 
              (.node (lit "body") []
                (.node (lit "text") []
                  (.node (lit "p") (lit "a1") .null
                    (.node (lit "p") (lit "a2") .null
                      (.node (lit "p") (lit "b") .null
                        (.node (lit "p") (lit "a3") .null .null))))
                  .null)
                .null)
              .null))
        else .error (lit "x.odt: no such file") }

/-- The number of matches still acted on, among `n` accepted units, when the
match count is `j` and the bound is `M` (0: no bound). -/
def quota (M j n : Nat) : Nat := if M = 0 then n else min n (M - j)

/-- The archive of `example_document`. -/
def example_archive : ZipArchive :=
  match example_document.zip with
  | .ok zip => zip
  | .error _ => { member := fun _ => .error [] }

/-! ## The meta stream, the loop over the documents, and `main` -/

/-- The loop of `grep_meta` (odfgrep.cpp:158-164), entered with the loop
variable `node`: the content of each node of the chain is given to `match`,
labelled, when file names are printed, with the file name followed by the
node name between `<` and `>`. -/
def grep_meta_loop (cfg : Config) (filename : std_string) : xmlNode → World → Ctl World Bool
  | .null, w => .ret true w
  | .node name content _ next, w =>
    let file := if cfg.print_filename.to_bool then filename ++ lit "<" ++ name ++ lit ">"
      else emptystr
    match match_ cfg content file w with
    | .ret true w1 => grep_meta_loop cfg filename next w1
    | .ret false w1 => .ret false w1
    | .throw e w1 => .throw e w1
    | .exit code w1 => .exit code w1
    | .abort w1 => .abort w1

/-- The function `bool grep_meta(Zip::File& file, std::string filename)`
(odfgrep.cpp:151-166): the loop starts at
`doc.get_root_element()->children->children`. -/
def grep_meta (cfg : Config) (file : ZipFile) (filename : std_string) (w : World) :
    Ctl World Bool :=
  match file with
  | .read_fails what => .throw (.zip_exception what) w
  | .root .null => .abort w
  | .root (.node _ _ .null _) => .abort w
  | .root (.node _ _ (.node _ _ first _) _) => grep_meta_loop cfg filename first w

/-- The message `ex.what()` of an exception, as bytes. -/
def exception.what : exception → std_string
  | .runtime_error what => lit what
  | .zip_exception what => what

/-- The call `std::for_each(documents.begin(), documents.end(), grep_document)`
(odfgrep.cpp:427): the documents are searched in order; an exception, an exit
or an abort ends the loop. -/
def for_each_grep_document (cfg : Config) : List Document → World → Ctl World Unit
  | [], w => .ret () w
  | d :: ds, w => (grep_document cfg d w).bind fun _ w1 => for_each_grep_document cfg ds w1

/-- The last two statements of the `try` block of `main` (odfgrep.cpp:427-428):
the loop over the documents, then `act->finish_all()`. -/
def search_documents (cfg : Config) (docs : List Document) (w : World) : Ctl World Unit :=
  (for_each_grep_document cfg docs w).bind fun _ w1 =>
    w1.with_console (cfg.act.finish_all w1.console)

/-- The end of `main` (odfgrep.cpp:429-433) after its `try` block ended as
`r`: the handler of `std::exception` writes the message and a newline to
`std::cerr` and sets `status = io_error`; then `return status`.  The value
returned is the exit code of the process. -/
def main_handler (r : Ctl World Unit) : Ctl World Nat :=
  match r with
  | .ret _ w => .ret w.status.code w
  | .throw e w =>
    .ret exit_status.io_error.code
      { w with
        console := { w.console with cerr := w.console.cerr ++ e.what ++ lit "\n" },
        status := .io_error }
  | .exit code w => .exit code w
  | .abort w => .abort w

/-- A run of `main` from the loop over the documents on, with the
configuration `cfg` in place. -/
def run (cfg : Config) (docs : List Document) (w : World) : Ctl World Nat :=
  main_handler (search_documents cfg docs w)

/-- The pattern flavours `flavor` ranges over (odfgrep.cpp:78, 293-321). -/
inductive regex_flavor where
  | grep
  | egrep
  | literal
  | perl
  deriving DecidableEq, Repr

/-- The globals of odfgrep.cpp that `parse_func` sets (odfgrep.cpp:69-86), as
they are when `argp_parse` has returned.  `icase` is the `icase` bit of
`flags`; `act` is `none` while the `auto_ptr` is null. -/
structure Globals where
  print_filename : when
  have_documents : Bool
  have_pattern : Bool
  search_meta : Bool
  invert : Bool
  search_deleted : Bool
  max_count : Int
  icase : Bool
  flavor : regex_flavor
  documents : List std_string
  pattern_text : std_string
  act : Option action

/-- The values the globals are defined with (odfgrep.cpp:69-86). -/
def Globals.initial : Globals where
  print_filename := .multiple
  have_documents := false
  have_pattern := false
  search_meta := false
  invert := false
  search_deleted := false
  max_count := 0
  icase := false
  flavor := .grep
  documents := []
  pattern_text := []
  act := none

/-- The external collaborators of `main`: `open_archive path` is what the
constructor `Zip::Archive zip(path)` does; `regex_assign wide flavor icase` is
`pattern.assign(wide, flavor | flags)` of Boost.Regex, which throws a
`boost::regex_error` (a `std::runtime_error`) with message `what` (`.error
what`) or leaves a pattern whose `regex_search` is the function given. -/
structure Env where
  open_archive : std_string → Except std_string ZipArchive
  regex_assign : std_wstring → regex_flavor → Bool → Except String (std_wstring → Bool)

/-- The value of `print_filename` after odfgrep.cpp:421-422. -/
def resolved_print_filename (g : Globals) : when :=
  if g.print_filename = .multiple then
    (if g.documents.length = 1 then .never else .always)
  else g.print_filename

/-- The configuration of the search once the pattern has been assigned and
the action chosen (odfgrep.cpp:421-426). -/
def Globals.config (g : Globals) (search : std_wstring → Bool) : Config where
  print_filename := resolved_print_filename g
  search_meta := g.search_meta
  invert := g.invert
  search_deleted := g.search_deleted
  max_count := g.max_count
  regex_search := search
  act := match g.act with
    | some a => a
    | none => echo_text

/-- The documents of the command line, each with what opening it gives. -/
def Globals.docs (env : Env) (g : Globals) : List Document :=
  g.documents.map fun path => { path := path, zip := env.open_archive path }

/-- The `try` block of `main` after `argp_parse` has returned
(odfgrep.cpp:421-428), `g` being the globals `parse_func` has set. -/
def main_try (env : Env) (g : Globals) (w : World) : Ctl World Unit :=
  if g.have_pattern = false then .abort w
  else
    match utf8_to_utf32 g.pattern_text with
    | .runtime_error what => .throw (.runtime_error what) w
    | .assertion_failed => .abort w
    | .out_of_bounds => .abort w
    | .ok wide =>
      match env.regex_assign wide g.flavor g.icase with
      | .error what => .throw (.runtime_error what) w
      | .ok search => search_documents (g.config search) (g.docs env) w

/-- The function `main` (odfgrep.cpp:377-434) after `argp_parse` has
returned. -/
def main (env : Env) (g : Globals) (w : World) : Ctl World Nat :=
  main_handler (main_try env g w)

/-- The exit code of the process, when it ends by `return` from `main` or by
`std::exit`. -/
def exit_code {σ : Type} : Ctl σ Nat → Option Nat
  | .ret code _ => some code
  | .exit code _ => some code
  | .throw _ _ => none
  | .abort _ => none

/-- The state of the globals and streams when `main` starts. -/
def World.initial : World where
  match_count := 0
  status := .nomatch
  console := { cout := [], cerr := [] }

/-! ## Properties of documents and actions used in the statements -/

/-- A member stream can be opened and read. -/
def readable : Except std_string ZipFile → Bool
  | .ok (.root _) => true
  | _ => false

/-- The document opens: its archive opens and every member stream the search
asks for (`meta.xml` when the meta stream is searched, `content.xml`) can be
opened and read. -/
def opens (cfg : Config) (d : Document) : Bool :=
  match d.zip with
  | .error _ => false
  | .ok zip =>
    (!cfg.search_meta || readable (zip.member "meta.xml")) && readable (zip.member "content.xml")

/-- Every member stream of the document that is read has a root element, so
that the search does not go through a null pointer. -/
def parses (cfg : Config) (d : Document) : Prop :=
  ∀ zip, d.zip = .ok zip →
    (cfg.search_meta = true → zip.member "meta.xml" ≠ .ok (.root .null)) ∧
    zip.member "content.xml" ≠ .ok (.root .null)

/-- Every text unit of the document decodes. -/
def units_decode (cfg : Config) (d : Document) : Prop :=
  ∀ zip, d.zip = .ok zip → ∀ u ∈ document_units cfg zip, decodes u = true

/-- No text unit of the document is accepted. -/
def none_accepted (cfg : Config) (d : Document) : Prop :=
  ∀ zip, d.zip = .ok zip → ∀ u ∈ document_units cfg zip, accepts cfg u = false

/-- The per-document operations of the action return (they do not end the
process): `initialize`, `perform` and `finish_file`. -/
def action.returns (a : action) : Prop :=
  (∀ c, ∃ c1, a.initialise c = .ret () c1) ∧
  (∀ t f c, ∃ b c1, a.perform t f c = .ret b c1) ∧
  (∀ f n c, ∃ c1, a.finish_file f n c = .ret () c1)

/-- The action is non-terminating: all its operations return. -/
def action.nonterminating (a : action) : Prop :=
  a.returns ∧ ∀ c, ∃ c1, a.finish_all c = .ret () c1

/-- The construction `Zip::File file(zip, name)` followed by
`grep_content(file, filename)`, as the `try` block of `grep_document` does it
for each member stream; `m` is what the construction gives. -/
def search_member (cfg : Config) (m : Except std_string ZipFile) (filename : std_string)
    (w : World) : Ctl World Unit :=
  match m with
  | .error what => .throw (.zip_exception what) w
  | .ok file => grep_content cfg file filename w

/-- The text units of a member stream (none when it cannot be opened or read). -/
def member_units (search_deleted : Bool) (m : Except std_string ZipFile) : List std_string :=
  match m with
  | .ok (.root r) => stream_units search_deleted r
  | _ => []

/-! ## Deciding the properties of documents, and worked examples -/

instance : DecidableEq (Except std_string ZipFile)
  | .ok a, .ok b =>
    if h : a = b then isTrue (by rw [h]) else isFalse (by intro e; cases e; exact h rfl)
  | .error a, .error b =>
    if h : a = b then isTrue (by rw [h]) else isFalse (by intro e; cases e; exact h rfl)
  | .ok _, .error _ => isFalse (by intro e; cases e)
  | .error _, .ok _ => isFalse (by intro e; cases e)

/-- A property of the archive of a document is decided on the archive, when
the document has one. -/
def decide_zip (d : Document) (P : ZipArchive → Prop) [∀ zip, Decidable (P zip)] :
    Decidable (∀ zip, d.zip = .ok zip → P zip) :=
  match d.zip with
  | .error _ => isTrue (fun zip hz => by cases hz)
  | .ok z =>
    if hp : P z then isTrue (fun zip hz => by cases hz; exact hp)
    else isFalse (fun hall => hp (hall z rfl))

instance (cfg : Config) (d : Document) : Decidable (parses cfg d) :=
  decide_zip d fun zip =>
    (cfg.search_meta = true → zip.member "meta.xml" ≠ .ok (.root .null)) ∧
    zip.member "content.xml" ≠ .ok (.root .null)

instance (cfg : Config) (d : Document) : Decidable (units_decode cfg d) :=
  decide_zip d fun zip => ∀ u ∈ document_units cfg zip, decodes u = true

instance (cfg : Config) (d : Document) : Decidable (none_accepted cfg d) :=
  decide_zip d fun zip => ∀ u ∈ document_units cfg zip, accepts cfg u = false

/-- A sibling chain of paragraphs with the given texts. -/
def paragraphs : List std_string → xmlNode
  | [] => .null
  | t :: ts => .node (lit "p") t .null (paragraphs ts)

/-- The root element of a `content.xml` whose `body` holds a `text` element
with the given children. -/
def content_root (children : xmlNode) : xmlNode :=
  .node (lit "document-content") []
    (.node (lit "body") [] (.node (lit "text") [] children .null) .null) .null

/-- An archive with the stream `content.xml` only. -/
def content_only (root : xmlNode) (path : String) : ZipArchive where
  member := fun name =>
    if name = "content.xml" then .ok (.root root)
    else .error (lit path ++ lit ": no such file")

/-- A document whose archive cannot be opened. -/
def bad_document : Document where
  path := lit "bad.odt"
  zip := .error (lit "bad.odt: not a zip archive")

/-- A document whose only paragraph is the lone byte `0x80`, which is not
UTF-8.  It exercises the path of the encoding error through the search; a
stream read from a file does not give this tree, `xmlParseDoc` giving no tree
at all for text that is not UTF-8. -/
def undecodable_document : Document where
  path := lit "u.odt"
  zip := .ok (content_only (content_root (paragraphs [[0x80]])) "u.odt")

/-- A document without a match for the pattern `a`: one paragraph `b`. -/
def nomatch_document : Document where
  path := lit "n.odt"
  zip := .ok (content_only (content_root (paragraphs [lit "b"])) "n.odt")

/-- The root element of a `meta.xml`: `document-meta` holding `meta`, which
holds the fields `title` (text `a title`) and `creator` (text `me`). -/
def meta_root : xmlNode :=
  .node (lit "document-meta") (lit "a titleme")
    (.node (lit "meta") (lit "a titleme")
      (.node (lit "title") (lit "a title") .null
        (.node (lit "creator") (lit "me") .null .null))
      .null)
    .null

/-- A document with the `meta.xml` of `meta_root` and a `content.xml` with
the one paragraph `b`. -/
def meta_document : Document where
  path := lit "m.odt"
  zip := .ok
    { member := fun name =>
        if name = "meta.xml" then .ok (.root meta_root)
        else if name = "content.xml" then .ok (.root (content_root (paragraphs [lit "b"])))
        else .error (lit "m.odt: no such file") }

/-- An action for observing the calls of the four operations: `initialize`
writes `I`, `perform` writes `P` and returns `true`, `finish_file` writes `F`,
the count and `;`, `finish_all` writes `A`. -/
def probe : action where
  initialise := fun c => .ret () (c.put (lit "I"))
  perform := fun _ _ c => .ret true (c.put (lit "P"))
  finish_file := fun _ count c => .ret () (c.put (lit "F" ++ fmt_long count ++ lit ";"))
  finish_all := fun c => .ret () (c.put (lit "A"))

/-- A pattern engine for worked examples: the pattern `(` is rejected; any
other pattern is found in a text when each of its code points occurs in it. -/
def example_regex_assign (wide : std_wstring) (_flavor : regex_flavor) (_icase : Bool) :
    Except String (std_wstring → Bool) :=
  if wide = lit "(" then .error "unmatched parenthesis"
  else .ok fun text => wide.all fun c => decide (c ∈ text)

/-- The surroundings of worked examples: the files `x.odt`, `u.odt`, `n.odt`
and `m.odt` are the example documents; no other file can be opened. -/
def example_env : Env where
  open_archive := fun path =>
    if path = lit "x.odt" then example_document.zip
    else if path = lit "u.odt" then undecodable_document.zip
    else if path = lit "n.odt" then nomatch_document.zip
    else if path = lit "m.odt" then meta_document.zip
    else .error (path ++ lit ": cannot open")
  regex_assign := example_regex_assign

/-- The globals after the command line `odfgrep [option] PATTERN DOCUMENTS...`
with at most one action option: pattern and documents stored, `act` as
given, everything else as defined. -/
def example_globals (act : Option action) (pattern_text : std_string)
    (documents : List std_string) : Globals :=
  { Globals.initial with
    have_pattern := true
    pattern_text := pattern_text
    documents := documents
    act := act }

/-- The globals after `odfgrep -M -H a m.odt`: the meta stream is searched
and file names are printed. -/
def meta_globals : Globals :=
  { example_globals none (lit "a") [lit "m.odt"] with
    search_meta := true
    print_filename := .always }

/-- The configuration of the search for `meta_globals`. -/
def meta_config : Config :=
  { example_config false 0 echo_text with
    search_meta := true
    print_filename := .always }

/-! ## Complete units of the encoding grammar -/

/-- A byte of the range `0x80..0xBF`. -/
def is_continuation (b : Nat) : Bool := decide (0x80 ≤ b ∧ b ≤ 0xBF)

/-- A complete unit, in the words of the claim on the structural check: a
byte `0x00..0x7F`, or a lead byte `0xC0..0xDF`, `0xE0..0xEF` or `0xF0..0xF7`
followed by exactly 1, 2 or 3 bytes of `0x80..0xBF`. -/
def is_complete_unit : List Nat → Bool
  | [b0] => decide (b0 ≤ 0x7F)
  | [b0, b1] => decide (0xC0 ≤ b0 ∧ b0 ≤ 0xDF) && is_continuation b1
  | [b0, b1, b2] => decide (0xE0 ≤ b0 ∧ b0 ≤ 0xEF) && is_continuation b1 && is_continuation b2
  | [b0, b1, b2, b3] =>
    decide (0xF0 ≤ b0 ∧ b0 ≤ 0xF7) && is_continuation b1 && is_continuation b2
      && is_continuation b3
  | _ => false

/-- The buffer made of the units of a list, one after the other. -/
def concat_units : List (List Nat) → List Nat
  | [] => []
  | u :: us => u ++ concat_units us

/-- Whether a sibling chain holds a node named `deletion` outside `p` and `h`
nodes: a `p` or `h` node is not looked into, any other node is, with its
descendants. -/
def has_deletion_outside : xmlNode → Bool
  | .null => false
  | .node name _ children next =>
    if name = lit "p" ∨ name = lit "h" then has_deletion_outside next
    else decide (name = lit "deletion") || has_deletion_outside children
      || has_deletion_outside next

/-! ## The command line -/

/-- The function `isspace` of `<cctype>` in the C locale. -/
def isspace (b : Nat) : Bool := decide (b = 0x20 ∨ (0x09 ≤ b ∧ b ≤ 0x0D))

/-- The function `isdigit` of `<cctype>`. -/
def isdigit (b : Nat) : Bool := decide (0x30 ≤ b ∧ b ≤ 0x39)

/-- The largest `long`. -/
def LONG_MAX : Int := 2 ^ 63 - 1

/-- The smallest `long`. -/
def LONG_MIN : Int := -(2 ^ 63)

/-- The digits `strtol` converts in base 10: the value so far and what is left
at the first byte that is not a digit. -/
def strtol_digits : std_string → Nat → Nat × std_string
  | [], value => (value, [])
  | b :: rest, value =>
    if isdigit b then strtol_digits rest (value * 10 + (b - 0x30)) else (value, b :: rest)

/-- The call `std::strtol(nptr, &end, 10)` of `<cstdlib>`: white space is
skipped, then an optional sign, then decimal digits are converted; the result
is the value, kept within the range of `long`, and the rest of the string from
`end` on.  Without a digit the value is 0 and `end` is `nptr`. -/
def strtol (nptr : std_string) : Int × std_string :=
  let s := nptr.dropWhile isspace
  let negative := decide (s.head? = some 0x2D)
  let digits := if s.head? = some 0x2D ∨ s.head? = some 0x2B then s.tail else s
  match digits with
  | [] => (0, nptr)
  | b :: _ =>
    if isdigit b then
      let value : Int := (strtol_digits digits 0).1
      let signed := if negative then -value else value
      (max LONG_MIN (min LONG_MAX signed), (strtol_digits digits 0).2)
    else (0, nptr)

/-- The values of `int key` that `parse_func` is called with: the character
of an option, or one of the `ARGP_KEY_` constants of `<argp.h>`.  The constants
`parse_func` has no case for are `ARGP_KEY_ARGS` and `ARGP_KEY_ERROR`. -/
inductive argp_key where
  | option (c : Char)
  | ARGP_KEY_ARG
  | ARGP_KEY_ARGS
  | ARGP_KEY_END
  | ARGP_KEY_NO_ARGS
  | ARGP_KEY_INIT
  | ARGP_KEY_SUCCESS
  | ARGP_KEY_ERROR
  | ARGP_KEY_FINI
  deriving DecidableEq, Repr

/-- The value of `ARGP_ERR_UNKNOWN` of `<argp.h>`, which is `E2BIG`. -/
def ARGP_ERR_UNKNOWN : Nat := 7

/-- The value of `argp_err_exit_status` of `<argp.h>`, with which `argp_usage`
exits: `EX_USAGE`. -/
def argp_err_exit_status : Nat := 64

/-- What `parse_func` takes from outside the program: `read_file name` is the
content of the file read by `read_pattern`, or the message `perror` writes
when it cannot be opened; `package_string` and `package_bugreport` are the
strings `PACKAGE_STRING` and `PACKAGE_BUGREPORT` of the build configuration;
`usage` is what `argp_usage` writes. -/
structure ParseEnv where
  read_file : std_string → Except std_string std_string
  package_string : std_string
  package_bugreport : std_string
  usage : std_string

/-- The state `parse_func` works on: the globals and the standard streams. -/
structure Parse where
  globals : Globals
  console : Console

/-- Output `std::cerr << s`. -/
def Console.err (c : Console) (s : std_string) : Console := { c with cerr := c.cerr ++ s }

/-- The function `std::string read_pattern(char const* filename)`
(odfgrep.cpp:94-105). -/
def read_pattern (penv : ParseEnv) (filename : std_string) (st : Parse) :
    Ctl Parse std_string :=
  match penv.read_file filename with
  | .error message =>
    .exit exit_status.cmdline_error.code { st with console := st.console.err message }
  | .ok text => .ret text st

/-- The function `error_t parse_func(int key, char *arg, struct argp_state *state)`
(odfgrep.cpp:276-367).  The `switch` on an option character is the chain of
conditions.  `case 'm'` (lines 326-332) has no `break`: when the number is
well formed, control goes on into `case 'M'` (lines 333-335). -/
def parse_func (penv : ParseEnv) (key : argp_key) (arg : std_string) (st : Parse) :
    Ctl Parse Nat :=
  let g := st.globals
  match key with
  | .option c =>
    if c = 'c' then .ret 0 { st with globals := { g with act := some count } }
    else if c = 'd' then .ret 0 { st with globals := { g with search_deleted := true } }
    else if c = 'e' then
      .ret 0 { st with globals := { g with pattern_text := arg, have_pattern := true } }
    else if c = 'E' then .ret 0 { st with globals := { g with flavor := .egrep } }
    else if c = 'f' then
      (read_pattern penv arg st).bind fun text st1 =>
        .ret 0 { st1 with
          globals := { st1.globals with pattern_text := text, have_pattern := true } }
    else if c = 'F' then .ret 0 { st with globals := { g with flavor := .literal } }
    else if c = 'G' then .ret 0 { st with globals := { g with flavor := .grep } }
    else if c = 'h' then .ret 0 { st with globals := { g with print_filename := .never } }
    else if c = 'H' then .ret 0 { st with globals := { g with print_filename := .always } }
    else if c = 'i' then .ret 0 { st with globals := { g with icase := true } }
    else if c = 'l' then .ret 0 { st with globals := { g with act := some echo_file } }
    else if c = 'L' then .ret 0 { st with globals := { g with act := some echo_nomatch } }
    else if c = 'P' then .ret 0 { st with globals := { g with flavor := .perl } }
    else if c = 'q' then .ret 0 { st with globals := { g with act := some quiet } }
    else if c = 'm' then
      let g1 := { g with max_count := (strtol arg).1 }
      if (strtol arg).2 ≠ [] then
        .exit exit_status.cmdline_error.code
          { globals := g1,
            console := st.console.err (lit "Not a number: " ++ arg ++ lit "\n") }
      else
        .ret 0 { st with globals := { g1 with search_meta := true } }
    else if c = 'M' then .ret 0 { st with globals := { g with search_meta := true } }
    else if c = 'v' then .ret 0 { st with globals := { g with invert := true } }
    else if c = 'V' then
      .exit EXIT_SUCCESS
        { st with
          console := st.console.put
            (penv.package_string ++ lit "\nCopyright (c) 2006 Ray Lischner <"
              ++ penv.package_bugreport
              ++ lit (">\nThis is free software; see the source for copying conditions.  "
                ++ "There is NO\nwarranty; not even for MERCHANTABILITY or FITNESS FOR A "
                ++ "PARTICULAR PURPOSE.\n")) }
    else .ret ARGP_ERR_UNKNOWN st
  | .ARGP_KEY_ARG =>
    if g.have_pattern then
      .ret 0 { st with globals := { g with documents := g.documents ++ [arg] } }
    else .ret 0 { st with globals := { g with pattern_text := arg, have_pattern := true } }
  | .ARGP_KEY_INIT => .ret 0 st
  | .ARGP_KEY_END => .ret 0 st
  | .ARGP_KEY_SUCCESS => .ret 0 st
  | .ARGP_KEY_NO_ARGS => .ret 0 st
  | .ARGP_KEY_FINI =>
    if g.documents = [] then
      .exit argp_err_exit_status { st with console := st.console.err penv.usage }
    else .ret 0 st
  | .ARGP_KEY_ARGS => .ret ARGP_ERR_UNKNOWN st
  | .ARGP_KEY_ERROR => .ret ARGP_ERR_UNKNOWN st

/-- The calls of `parse_func` that `argp_parse` makes for a command line, one
after the other; a call that does not return 0 ends them. -/
def parse_calls (penv : ParseEnv) : List (argp_key × std_string) → Parse → Ctl Parse Nat
  | [], st => .ret 0 st
  | (key, arg) :: calls, st =>
    (parse_func penv key arg st).bind fun err st1 =>
      if err = 0 then parse_calls penv calls st1 else .ret err st1

/-- A build configuration and file system for worked examples: no pattern
file can be read. -/
def example_parse_env : ParseEnv where
  read_file := fun filename => .error (filename ++ lit ": No such file or directory\n")
  package_string := lit "odfgrep"
  package_bugreport := lit "bugs"
  usage := lit "Usage: odfgrep [OPTION...] PATTERN DOCUMENTS...\n"

/-- The state in which `argp_parse` is called at program start. -/
def Parse.initial : Parse where
  globals := Globals.initial
  console := World.initial.console

/-! ## The states of a run -/

/-- The states reachable in a run with configuration `cfg`, in the words of
the claim on the match count: the count is 0 at program start; it is changed
by a call of `match` and by the reset in `grep_document`; everything else that
happens changes only the exit status and the standard streams. -/
inductive Reachable (cfg : Config) : World → Prop where
  /-- program start: the count is 0 -/
  | start (status : exit_status) (console : Console) :
    Reachable cfg { match_count := 0, status := status, console := console }
  /-- a call of `match`, however it ends -/
  | call_match (w : World) (text filename : std_string) :
    Reachable cfg w → Reachable cfg (match_ cfg text filename w).state
  /-- the reset `match_count = 0` in `grep_document` -/
  | reset (w : World) : Reachable cfg w → Reachable cfg { w with match_count := 0 }
  /-- any other step: the status and the streams change -/
  | other (w : World) (status : exit_status) (console : Console) :
    Reachable cfg w → Reachable cfg { w with status := status, console := console }

/-! ## Observing the action Quiet -/

/-- The call ends the process by `std::exit`. -/
def Ctl.exits {σ α : Type} : Ctl σ α → Bool
  | .exit _ _ => true
  | _ => false

/-- The action Quiet with another `perform` in the place of its own: a run
that comes out the same whatever `perform` is has not invoked it. -/
def quiet_with (perform : std_string → std_string → Console → Ctl Console Bool) : action :=
  { quiet with perform := perform }

/-! ## Theorems -/

@[simp] theorem dec_size_succ (n : Nat) : dec_size (n + 1) = n := by
  simp [dec_size]

theorem utf8_loop_zero (mem : List Nat) (acc : std_wstring) :
    utf8_loop mem 0 acc = .ok acc := by
  cases mem <;> (rw [utf8_loop.eq_def]; simp)

@[simp] theorem dec_size_succ_add (n k : Nat) : dec_size (n + 1 + k) = n + k := by
  have : n + 1 + k = (n + k) + 1 := by omega
  rw [this, dec_size_succ]

theorem utf8_loop_append_aux (n : Nat) :
    ∀ (a : List Nat), a.length ≤ n → ∀ (t1 m : List Nat) (k : Nat) (acc x : std_wstring),
      utf8_loop (a ++ 0 :: t1) a.length acc = .ok x →
      utf8_loop (a ++ m) (a.length + k) acc = utf8_loop m k x := by
  induction n with
  | zero =>
    intro a ha t1 m k acc x h
    have : a = [] := List.length_eq_zero.mp (Nat.le_zero.mp ha)
    subst this
    simp only [List.nil_append, List.length_nil, utf8_loop_zero, Decode.ok.injEq] at h
    simp [h]
  | succ n ih =>
    intro a ha t1 m k acc x h
    cases a with
    | nil =>
      simp only [List.nil_append, List.length_nil, utf8_loop_zero, Decode.ok.injEq] at h
      simp [h]
    | cons p0 r =>
      have hk : (p0 :: r).length + k = (r.length + k) + 1 := by simp; omega
      rw [hk]
      simp only [List.cons_append, List.length_cons] at h ha ⊢
      rw [utf8_loop.eq_def] at h ⊢
      simp only [Nat.add_one_ne_zero, if_false, dec_size_succ] at h ⊢
      by_cases h1 : p0 &&& 128 = 0
      · simp only [if_pos h1] at h ⊢
        exact ih r (by omega) t1 m k _ x h
      · simp only [if_neg h1] at h ⊢
        by_cases h2 : p0 &&& 192 = 128
        · simp [if_pos h2, invalid_utf8] at h
        · simp only [if_neg h2] at h ⊢
          rcases r with _ | ⟨p1, r⟩
          · simp [invalid_utf8] at h
            split_ifs at h
          · simp only [List.cons_append, List.length_cons, dec_size_succ,
              dec_size_succ_add] at h ha ⊢
            by_cases c1 : p1 &&& 192 = 128
            · simp only [c1, ne_eq, not_true_eq_false, if_false] at h ⊢
              by_cases h3 : p0 &&& 224 = 192
              · simp only [if_pos h3] at h ⊢
                exact ih r (by omega) t1 m k _ x h
              · simp only [if_neg h3] at h ⊢
                rcases r with _ | ⟨p2, r⟩
                · simp [invalid_utf8] at h
                  split_ifs at h
                · simp only [List.cons_append, List.length_cons, dec_size_succ,
                    dec_size_succ_add] at h ha ⊢
                  by_cases c2 : p2 &&& 192 = 128
                  · simp only [c2, not_true_eq_false, if_false] at h ⊢
                    by_cases h4 : p0 &&& 240 = 224
                    · simp only [if_pos h4] at h ⊢
                      exact ih r (by omega) t1 m k _ x h
                    · simp only [if_neg h4] at h ⊢
                      by_cases h5 : p0 &&& 240 = 240
                      · simp only [h5, not_true_eq_false, if_false] at h ⊢
                        rcases r with _ | ⟨p3, r⟩
                        · simp [invalid_utf8] at h
                        · simp only [List.cons_append, List.length_cons, dec_size_succ,
                            dec_size_succ_add] at h ha ⊢
                          by_cases c3 : p3 &&& 192 = 128
                          · simp only [c3, not_true_eq_false, if_false] at h ⊢
                            exact ih r (by omega) t1 m k _ x h
                          · simp [c3, invalid_utf8] at h
                      · simp [h5] at h
                  · simp [c2, invalid_utf8] at h
                    split_ifs at h
            · simp [c1, invalid_utf8] at h
              split_ifs at h

theorem utf8_loop_prepend (m : List Nat) (k : Nat) (acc : std_wstring) :
    ∀ pre : std_wstring, utf8_loop m k (pre ++ acc) = (utf8_loop m k acc).prepend pre := by
  induction m, k, acc using utf8_loop.induct <;> intro pre <;>
    (conv_lhs => rw [utf8_loop.eq_def]) <;>
    (conv_rhs => rw [utf8_loop.eq_def]) <;>
    simp_all [Decode.prepend, invalid_utf8]

theorem utf8_loop_acc (m : List Nat) (k : Nat) (acc : std_wstring) :
    utf8_loop m k acc = (utf8_loop m k []).prepend acc := by
  have h := utf8_loop_prepend m k [] acc
  simpa using h

theorem utf8_to_utf32_nil : utf8_to_utf32 [] = .ok [] := by
  simp [utf8_to_utf32, utf8_to_utf32_ptr, utf8_loop_zero]

/-- Decoding after a successfully decoded front part goes on with the rest. -/
theorem utf8_to_utf32_append_ok (a b : std_string) (x : std_wstring)
    (ha : utf8_to_utf32 a = .ok x) :
    utf8_to_utf32 (a ++ b) = (utf8_to_utf32 b).prepend x := by
  unfold utf8_to_utf32 utf8_to_utf32_ptr at ha ⊢
  have h := utf8_loop_append_aux a.length a (le_refl _) [] (b ++ [0]) b.length [] x ha
  rw [List.append_assoc, List.length_append, h, utf8_loop_acc]

/-- Facts on the bit tests of the loop for a byte in `0x80..0xBF`. -/
theorem continuation_byte_bits (b : Nat) (h1 : 0x80 ≤ b) (h2 : b ≤ 0xBF) :
    b &&& 0x80 ≠ 0 ∧ b &&& 0xc0 = 0x80 := by
  have key : ∀ c, c < 64 → (c + 0x80) &&& 0x80 ≠ 0 ∧ (c + 0x80) &&& 0xc0 = 0x80 := by decide
  have := key (b - 0x80) (by omega)
  rwa [Nat.sub_add_cancel h1] at this

theorem utf8_head_one (p0 : Nat) (r : std_string) (h : p0 &&& 0x80 = 0) :
    utf8_to_utf32 (p0 :: r) = (utf8_to_utf32 r).prepend [p0] := by
  unfold utf8_to_utf32 utf8_to_utf32_ptr
  simp only [List.cons_append, List.length_cons]
  rw [utf8_loop.eq_def]
  simp only [Nat.add_one_ne_zero, if_false, dec_size_succ, if_pos h, List.nil_append]
  rw [utf8_loop_acc]

theorem utf8_head_continuation (p0 : Nat) (r : std_string)
    (h1 : p0 &&& 0x80 ≠ 0) (h2 : p0 &&& 0xc0 = 0x80) :
    utf8_to_utf32 (p0 :: r) = invalid_utf8 := by
  unfold utf8_to_utf32 utf8_to_utf32_ptr
  simp only [List.cons_append, List.length_cons]
  rw [utf8_loop.eq_def]
  simp [h1, h2]

theorem utf8_head_two (p0 : Nat) (r : std_string)
    (h1 : p0 &&& 0x80 ≠ 0) (h2 : p0 &&& 0xc0 ≠ 0x80) (h3 : p0 &&& 0xe0 = 0xc0) :
    utf8_to_utf32 (p0 :: r) =
      match r with
      | [] => invalid_utf8
      | p1 :: r1 =>
        if p1 &&& 0xc0 = 0x80 then
          (utf8_to_utf32 r1).prepend [((p0 &&& 0x1f) <<< 6) ||| (p1 &&& 0x3f)]
        else invalid_utf8 := by
  unfold utf8_to_utf32 utf8_to_utf32_ptr
  simp only [List.cons_append, List.length_cons]
  rw [utf8_loop.eq_def]
  simp only [Nat.add_one_ne_zero, if_false, dec_size_succ, if_neg h1, if_neg h2, if_pos h3,
    List.nil_append]
  rcases r with _ | ⟨p1, r1⟩
  · simp
  · simp only [List.cons_append, List.length_cons, dec_size_succ]
    by_cases c1 : p1 &&& 192 = 128
    · simp only [c1, ne_eq, not_true_eq_false, if_false, if_true]
      rw [utf8_loop_acc]
    · simp [c1]

theorem utf8_head_three (p0 : Nat) (r : std_string)
    (h1 : p0 &&& 0x80 ≠ 0) (h2 : p0 &&& 0xc0 ≠ 0x80) (h3 : p0 &&& 0xe0 ≠ 0xc0)
    (h4 : p0 &&& 0xf0 = 0xe0) :
    utf8_to_utf32 (p0 :: r) =
      match r with
      | p1 :: p2 :: r2 =>
        if p1 &&& 0xc0 = 0x80 ∧ p2 &&& 0xc0 = 0x80 then
          (utf8_to_utf32 r2).prepend
            [((p0 &&& 0x0f) <<< 12) ||| ((p1 &&& 0x3f) <<< 6) ||| (p2 &&& 0x3f)]
        else invalid_utf8
      | _ => invalid_utf8 := by
  unfold utf8_to_utf32 utf8_to_utf32_ptr
  simp only [List.cons_append, List.length_cons]
  rw [utf8_loop.eq_def]
  simp only [Nat.add_one_ne_zero, if_false, dec_size_succ, if_neg h1, if_neg h2, if_neg h3,
    if_pos h4, List.nil_append]
  rcases r with _ | ⟨p1, _ | ⟨p2, r2⟩⟩
  · simp
  · by_cases c1 : p1 &&& 192 = 128 <;> simp [c1]
  · simp only [List.cons_append, List.length_cons, dec_size_succ]
    by_cases c1 : p1 &&& 192 = 128
    · by_cases c2 : p2 &&& 192 = 128
      · simp only [c1, c2, ne_eq, not_true_eq_false, if_false, and_self, if_true]
        rw [utf8_loop_acc]
      · simp [c1, c2]
    · simp [c1]

theorem utf8_head_four (p0 : Nat) (r : std_string)
    (h1 : p0 &&& 0x80 ≠ 0) (h2 : p0 &&& 0xc0 ≠ 0x80) (h3 : p0 &&& 0xe0 ≠ 0xc0)
    (h5 : p0 &&& 0xf0 = 0xf0) :
    utf8_to_utf32 (p0 :: r) =
      match r with
      | p1 :: p2 :: p3 :: r3 =>
        if p1 &&& 0xc0 = 0x80 ∧ p2 &&& 0xc0 = 0x80 ∧ p3 &&& 0xc0 = 0x80 then
          (utf8_to_utf32 r3).prepend
            [((p0 &&& 0x07) <<< 16) ||| ((p1 &&& 0x3f) <<< 12) ||| ((p2 &&& 0x3f) <<< 6)
              ||| (p3 &&& 0x3f)]
        else invalid_utf8
      | _ => invalid_utf8 := by
  unfold utf8_to_utf32 utf8_to_utf32_ptr
  simp only [List.cons_append, List.length_cons]
  rw [utf8_loop.eq_def]
  simp only [Nat.add_one_ne_zero, if_false, dec_size_succ, if_neg h1, if_neg h2, if_neg h3,
    h5, ne_eq, not_true_eq_false, List.nil_append]
  rcases r with _ | ⟨p1, _ | ⟨p2, _ | ⟨p3, r3⟩⟩⟩
  · simp
  · by_cases c1 : p1 &&& 192 = 128 <;> simp [c1]
  · by_cases c1 : p1 &&& 192 = 128 <;> by_cases c2 : p2 &&& 192 = 128 <;> simp [c1, c2]
  · simp only [List.cons_append, List.length_cons, dec_size_succ]
    by_cases c1 : p1 &&& 192 = 128
    · by_cases c2 : p2 &&& 192 = 128
      · by_cases c3 : p3 &&& 192 = 128
        · simp only [c1, c2, c3, not_true_eq_false, if_false, and_self, if_true]
          rw [if_neg (by decide : ¬ (240 : Nat) = 224), utf8_loop_acc]
        · simp [c1, c2, c3]
      · simp [c1, c2]
    · simp [c1]

/-- A mask below 256 only looks at the low eight bits. -/
theorem and_mod_256 (x m : Nat) (hm : m < 256) : x &&& m = (x % 256) &&& m := by
  have h1 : x % 256 = x &&& 255 := (Nat.and_pow_two_sub_one_eq_mod x 8).symm
  have h2 : 255 &&& m = m := by
    rw [Nat.and_comm]
    exact Nat.and_pow_two_sub_one_of_lt_two_pow (n := 8) hm
  rw [h1, Nat.and_assoc, h2]

set_option maxRecDepth 100000 in
/-- The `assert` of the four-byte branch (unicode.cpp:82) holds whenever the
branch is reached. -/
theorem four_byte_assert (p0 : Nat)
    (h1 : p0 &&& 0x80 ≠ 0) (h2 : p0 &&& 0xc0 ≠ 0x80) (h3 : p0 &&& 0xe0 ≠ 0xc0)
    (h4 : p0 &&& 0xf0 ≠ 0xe0) : p0 &&& 0xf0 = 0xf0 := by
  rw [and_mod_256 p0 _ (by decide)] at h1 h2 h3 h4 ⊢
  have hc : p0 % 256 < 256 := Nat.mod_lt _ (by decide)
  revert h1 h2 h3 h4
  generalize p0 % 256 = c at hc
  revert c
  decide

theorem prepend_invalid (pre : std_wstring) : invalid_utf8.prepend pre = invalid_utf8 := rfl

theorem prepend_ok (pre x : std_wstring) : (Decode.ok x).prepend pre = .ok (pre ++ x) := rfl

/-- The bit tests of the loop, for a lead byte given by its top bits. -/
theorem lead_two_bits (p0 : Nat) (h : p0 &&& 0xe0 = 0xc0) :
    p0 &&& 0x80 ≠ 0 ∧ p0 &&& 0xc0 ≠ 0x80 := by
  rw [and_mod_256 p0 _ (by decide)] at h ⊢
  rw [and_mod_256 p0 0xc0 (by decide)]
  have hc : p0 % 256 < 256 := Nat.mod_lt _ (by decide)
  revert h
  generalize p0 % 256 = c at hc
  revert c
  set_option maxRecDepth 100000 in decide

theorem lead_three_bits (p0 : Nat) (h : p0 &&& 0xf0 = 0xe0) :
    p0 &&& 0x80 ≠ 0 ∧ p0 &&& 0xc0 ≠ 0x80 ∧ p0 &&& 0xe0 ≠ 0xc0 := by
  rw [and_mod_256 p0 _ (by decide)] at h ⊢
  rw [and_mod_256 p0 0xc0 (by decide), and_mod_256 p0 0xe0 (by decide)]
  have hc : p0 % 256 < 256 := Nat.mod_lt _ (by decide)
  revert h
  generalize p0 % 256 = c at hc
  revert c
  set_option maxRecDepth 100000 in decide

theorem lead_four_bits (p0 : Nat) (h : p0 &&& 0xf0 = 0xf0) :
    p0 &&& 0x80 ≠ 0 ∧ p0 &&& 0xc0 ≠ 0x80 ∧ p0 &&& 0xe0 ≠ 0xc0 ∧ p0 &&& 0xf0 ≠ 0xe0 := by
  rw [and_mod_256 p0 0xf0 (by decide)] at h
  rw [and_mod_256 p0 0x80 (by decide), and_mod_256 p0 0xc0 (by decide),
    and_mod_256 p0 0xe0 (by decide), and_mod_256 p0 0xf0 (by decide)]
  have hc : p0 % 256 < 256 := Nat.mod_lt _ (by decide)
  revert h
  generalize p0 % 256 = c at hc
  revert c
  set_option maxRecDepth 100000 in decide

theorem lead_f8_bits (p0 : Nat) (h : p0 &&& 0xf8 = 0xf0) : p0 &&& 0xf0 = 0xf0 := by
  rw [and_mod_256 p0 _ (by decide)] at h ⊢
  have hc : p0 % 256 < 256 := Nat.mod_lt _ (by decide)
  revert h
  generalize p0 % 256 = c at hc
  revert c
  set_option maxRecDepth 100000 in decide

theorem prepend_ok_or_invalid (pre : std_wstring) (d : Decode)
    (h : (∃ x, d = .ok x) ∨ d = invalid_utf8) :
    (∃ x, d.prepend pre = .ok x) ∨ d.prepend pre = invalid_utf8 := by
  rcases h with ⟨x, rfl⟩ | rfl
  · exact Or.inl ⟨pre ++ x, rfl⟩
  · exact Or.inr rfl

theorem utf8_to_utf32_ok_or_invalid_aux (n : Nat) :
    ∀ s : std_string, s.length ≤ n →
      (∃ x, utf8_to_utf32 s = .ok x) ∨ utf8_to_utf32 s = invalid_utf8 := by
  induction n with
  | zero =>
    intro s hs
    have : s = [] := List.length_eq_zero.mp (Nat.le_zero.mp hs)
    subst this
    exact Or.inl ⟨[], utf8_to_utf32_nil⟩
  | succ n ih =>
    intro s hs
    rcases s with _ | ⟨p0, r⟩
    · exact Or.inl ⟨[], utf8_to_utf32_nil⟩
    · simp only [List.length_cons] at hs
      by_cases h1 : p0 &&& 0x80 = 0
      · rw [utf8_head_one p0 r h1]
        exact prepend_ok_or_invalid _ _ (ih r (by omega))
      · by_cases h2 : p0 &&& 0xc0 = 0x80
        · exact Or.inr (utf8_head_continuation p0 r h1 h2)
        · by_cases h3 : p0 &&& 0xe0 = 0xc0
          · rw [utf8_head_two p0 r h1 h2 h3]
            rcases r with _ | ⟨p1, r1⟩
            · exact Or.inr rfl
            · simp only [List.length_cons] at hs
              simp only
              split_ifs
              · exact prepend_ok_or_invalid _ _ (ih r1 (by omega))
              · exact Or.inr rfl
          · by_cases h4 : p0 &&& 0xf0 = 0xe0
            · rw [utf8_head_three p0 r h1 h2 h3 h4]
              rcases r with _ | ⟨p1, _ | ⟨p2, r2⟩⟩
              · exact Or.inr rfl
              · exact Or.inr rfl
              · simp only [List.length_cons] at hs
                simp only
                split_ifs
                · exact prepend_ok_or_invalid _ _ (ih r2 (by omega))
                · exact Or.inr rfl
            · rw [utf8_head_four p0 r h1 h2 h3 (four_byte_assert p0 h1 h2 h3 h4)]
              rcases r with _ | ⟨p1, _ | ⟨p2, _ | ⟨p3, r3⟩⟩⟩
              · exact Or.inr rfl
              · exact Or.inr rfl
              · exact Or.inr rfl
              · simp only [List.length_cons] at hs
                simp only
                split_ifs
                · exact prepend_ok_or_invalid _ _ (ih r3 (by omega))
                · exact Or.inr rfl

/-- The overload on `std::string` always returns or throws the encoding error:
it never reads outside the array and its assertion never fails. -/
theorem utf8_to_utf32_ok_or_invalid (s : std_string) :
    (∃ x, utf8_to_utf32 s = .ok x) ∨ utf8_to_utf32 s = invalid_utf8 :=
  utf8_to_utf32_ok_or_invalid_aux s.length s (le_refl _)

/-- The pointer overload on an array that ends right after a lead byte reads
one byte past the array; the terminating NUL of `c_str()` is what turns that
read into the encoding error in the `std::string` overload. -/
theorem utf8_to_utf32_ptr_truncated :
    utf8_to_utf32_ptr [0xC3] 1 = .out_of_bounds ∧ utf8_to_utf32 [0xC3] = invalid_utf8 := by
  decide

/-! ### The content walk as a sequence of offers -/

theorem offer_all_append {σ : Type} (m : std_string → std_string → σ → Ctl σ Bool)
    (filename : std_string) (a b : List std_string) (s : σ) :
    offer_all m filename (a ++ b) s =
      match offer_all m filename a s with
      | .ret true s1 => offer_all m filename b s1
      | r => r := by
  induction a generalizing s with
  | nil => simp [offer_all]
  | cons t ts ih =>
    simp only [List.cons_append, offer_all]
    rcases h : m t filename s with ⟨_ | _, s1⟩ | ⟨e, s1⟩ | ⟨code, s1⟩ | s1
    · simp
    · simp [ih]
    all_goals simp

/-- The loop of `grep_node` offers the text units of the chain in order and
stops at the first offer that does not return `true`. -/
theorem grep_node_loop_eq_offer_all {σ : Type}
    (m : std_string → std_string → σ → Ctl σ Bool) (sd : Bool) (filename : std_string)
    (first : xmlNode) (s : σ) :
    grep_node_loop m sd filename first s = offer_all m filename (text_units sd first) s := by
  induction first generalizing s with
  | null => simp [grep_node_loop, text_units, unit_nodes, offer_all]
  | node name content children next ihc ihn =>
    simp only [text_units] at ihc ihn
    simp only [grep_node_loop, text_units, unit_nodes, List.map_append]
    rw [offer_all_append]
    by_cases hp : name = lit "p" ∨ name = lit "h"
    · simp only [if_pos hp, List.map_cons, List.map_nil, get_content, offer_all]
      rcases h : m content filename s with ⟨_ | _, s1⟩ | ⟨e, s1⟩ | ⟨code, s1⟩ | s1
      all_goals simp [ihn]
    · simp only [if_neg hp]
      by_cases hd : name = lit "deletion"
      · cases sd
        · simp [hd, offer_all, ihn]
        · simp only [hd, true_or, if_true, ihc, ihn]
          simp
          rcases h : offer_all m filename (List.map get_content (unit_nodes true children)) s
            with ⟨_ | _, s1⟩ | ⟨e, s1⟩ | ⟨code, s1⟩ | s1
          all_goals simp
      · simp only [hd, ne_eq, not_false_eq_true, or_true, if_true, false_and, if_false, ihc, ihn]
        rcases h : offer_all m filename (List.map get_content (unit_nodes sd children)) s
          with ⟨_ | _, s1⟩ | ⟨e, s1⟩ | ⟨code, s1⟩ | s1
        all_goals simp

/-! ### Claims on `utf8_to_utf32` -/

/-- C1 (fails on the code): the four-byte branch shifts the lead bits by 16
instead of 18.  U+40000 is a scalar value, its standard encoding is
`F1 80 80 80`, and `utf8_to_utf32` returns U+10000 for it. -/
theorem utf8_four_byte_wrong_shift :
    is_scalar 0x40000 ∧ utf8_encode [0x40000] = [0xF1, 0x80, 0x80, 0x80] ∧
      utf8_to_utf32 (utf8_encode [0x40000]) = .ok [0x10000] := by
  decide

/-- C2: a byte `0x80..0xBF` standing where a lead byte is expected, after a
front part that decodes successfully, makes `utf8_to_utf32` throw the encoding
error, whatever follows. -/
theorem utf8_continuation_in_lead_position (pre rest : std_string) (b : Nat)
    (hpre : ∃ x, utf8_to_utf32 pre = .ok x) (hb : 0x80 ≤ b ∧ b ≤ 0xBF) :
    utf8_to_utf32 (pre ++ [b] ++ rest) = invalid_utf8 := by
  obtain ⟨x, hx⟩ := hpre
  obtain ⟨h1, h2⟩ := continuation_byte_bits b hb.1 hb.2
  rw [List.append_assoc, utf8_to_utf32_append_ok pre _ x hx, List.singleton_append,
    utf8_head_continuation b rest h1 h2, prepend_invalid]

theorem utf8_continuation_in_lead_position_witness :
    utf8_to_utf32 ([0x41, 0xC3, 0xA9] ++ [0xA9] ++ [0x42]) = invalid_utf8 :=
  utf8_continuation_in_lead_position [0x41, 0xC3, 0xA9] [0x42] 0xA9 ⟨[0x41, 0xE9], by decide⟩
    (by decide)

/-- C3: after a front part that decodes successfully, a lead byte with top
bits `110`, `1110` or `11110` one of whose required following bytes (position
`i` after it) is missing or lacks the top bits `10` makes `utf8_to_utf32`
throw the encoding error. -/
theorem utf8_lead_without_continuation (pre rest : std_string) (lead i : Nat)
    (hpre : ∃ x, utf8_to_utf32 pre = .ok x)
    (hlead : lead &&& 0xe0 = 0xc0 ∨ lead &&& 0xf0 = 0xe0 ∨ lead &&& 0xf8 = 0xf0)
    (hi : i < required_after lead)
    (hbad : rest[i]? = none ∨ ∃ c, rest[i]? = some c ∧ c &&& 0xc0 ≠ 0x80) :
    utf8_to_utf32 (pre ++ lead :: rest) = invalid_utf8 := by
  obtain ⟨x, hx⟩ := hpre
  rw [utf8_to_utf32_append_ok pre _ x hx]
  suffices h : utf8_to_utf32 (lead :: rest) = invalid_utf8 by rw [h, prepend_invalid]
  rcases hlead with h2 | h3 | h4
  · obtain ⟨a1, a2⟩ := lead_two_bits lead h2
    rw [utf8_head_two lead rest a1 a2 h2]
    simp only [required_after, if_pos h2] at hi
    have hi0 : i = 0 := by omega
    subst hi0
    rcases rest with _ | ⟨p1, r1⟩
    · rfl
    · simp_all
  · obtain ⟨a1, a2, a3⟩ := lead_three_bits lead h3
    rw [utf8_head_three lead rest a1 a2 a3 h3]
    simp only [required_after, if_neg a3, if_pos h3] at hi
    rcases rest with _ | ⟨p1, _ | ⟨p2, r2⟩⟩
    · rfl
    · rfl
    · have hi01 : i = 0 ∨ i = 1 := by omega
      rcases hi01 with rfl | rfl <;> simp_all
  · have h5 := lead_f8_bits lead h4
    obtain ⟨a1, a2, a3, a4⟩ := lead_four_bits lead h5
    rw [utf8_head_four lead rest a1 a2 a3 h5]
    simp only [required_after, if_neg a3, if_neg a4] at hi
    rcases rest with _ | ⟨p1, _ | ⟨p2, _ | ⟨p3, r3⟩⟩⟩
    · rfl
    · rfl
    · rfl
    · have hi012 : i = 0 ∨ i = 1 ∨ i = 2 := by omega
      rcases hi012 with rfl | rfl | rfl <;> simp_all

theorem utf8_lead_without_continuation_witness :
    utf8_to_utf32 ([0x41] ++ 0xE2 :: [0x82]) = invalid_utf8 :=
  utf8_lead_without_continuation [0x41] [0x82] 0xE2 1 ⟨[0x41], by decide⟩
    (Or.inr (Or.inl (by decide))) (by decide) (Or.inl (by decide))

/-- C4 as stated fails: the buffer `F8 80 80 80`, whose first byte is in
`0xF8..0xFF` and in lead position, is decoded without error. -/
theorem utf8_lead_f8_accepted :
    utf8_to_utf32 [0xF8, 0x80, 0x80, 0x80] = .ok [0] ∧
      utf8_to_utf32 [0xF8, 0x80, 0x80, 0x80] ≠ invalid_utf8 := by
  decide

/-- C4 (amended): a byte `0xF8..0xFF` in lead position, after a front part that
decodes to `x`, is taken as the lead of a four-byte unit like `0xF0..0xF7`: the
buffer fails with the encoding error when one of the three bytes after it is
missing or lacks the top bits `10`, and otherwise the four bytes give one code
point, built from the low three bits of the lead and the low six bits of each
following byte, and decoding goes on with the rest. -/
theorem utf8_lead_f8_to_ff_four_byte (pre rest : std_string) (b : Nat) (x : std_wstring)
    (hpre : utf8_to_utf32 pre = .ok x) (hb : 0xF8 ≤ b ∧ b ≤ 0xFF) :
    utf8_to_utf32 (pre ++ b :: rest) =
      match rest with
      | p1 :: p2 :: p3 :: r3 =>
        if p1 &&& 0xc0 = 0x80 ∧ p2 &&& 0xc0 = 0x80 ∧ p3 &&& 0xc0 = 0x80 then
          (utf8_to_utf32 r3).prepend
            (x ++ [((b &&& 0x07) <<< 16) ||| ((p1 &&& 0x3f) <<< 12) ||| ((p2 &&& 0x3f) <<< 6)
              ||| (p3 &&& 0x3f)])
        else invalid_utf8
      | _ => invalid_utf8 := by
  have key : ∀ c, c < 8 → (c + 0xF8) &&& 0xf0 = 0xf0 := by decide
  have h5 : b &&& 0xf0 = 0xf0 := by
    have := key (b - 0xF8) (by omega)
    rwa [Nat.sub_add_cancel hb.1] at this
  obtain ⟨a1, a2, a3, _⟩ := lead_four_bits b h5
  rw [utf8_to_utf32_append_ok pre _ x hpre, utf8_head_four b rest a1 a2 a3 h5]
  rcases rest with _ | ⟨p1, _ | ⟨p2, _ | ⟨p3, r3⟩⟩⟩
  · rfl
  · rfl
  · rfl
  · simp only
    split_ifs
    · cases h : utf8_to_utf32 r3 <;> simp [Decode.prepend]
    · rfl

theorem utf8_lead_f8_to_ff_four_byte_witness :
    utf8_to_utf32 ([0x41] ++ 0xFF :: [0x81, 0x82, 0x83, 0x42]) = .ok [0x41, 0x71083, 0x42] :=
  (utf8_lead_f8_to_ff_four_byte [0x41] [0x81, 0x82, 0x83, 0x42] 0xFF [0x41] (by decide)
    (by decide)).trans (by decide)

/-! ### Claims on `grep_node` -/

/-- When each offer made while going through a list returns `true`, all of
the list is offered and the state left is the one reached by the offers in
order. -/
theorem offer_all_all_continue {σ : Type} (m : std_string → std_string → σ → Ctl σ Bool)
    (filename : std_string) :
    ∀ (units : List std_string) (s : σ),
      (∀ pre t post s1, units = pre ++ t :: post →
        offer_all m filename pre s = .ret true s1 → ∃ s2, m t filename s1 = .ret true s2) →
      offer_all m filename units s =
        .ret true (units.foldl (fun st t => (m t filename st).state) s) := by
  intro units
  induction units with
  | nil => intro s _; rfl
  | cons t ts ih =>
    intro s h
    obtain ⟨s2, h2⟩ := h [] t ts s rfl rfl
    have hrest := ih s2 (fun pre t1 post s1 hts hpre =>
      h (t :: pre) t1 post s1 (by rw [hts]; rfl) (by simp only [offer_all, h2]; exact hpre))
    simp only [offer_all, h2, List.foldl_cons, Ctl.state, hrest]

/-- Under an action whose `perform` returns `true`, `match` returns `true` for
every text that decodes. -/
theorem match_continues (cfg : Config)
    (hperf : ∀ t f c, ∃ c1, cfg.act.perform t f c = .ret true c1)
    (text filename : std_string) (w : World) (hdec : decodes text = true) :
    ∃ w1, match_ cfg text filename w = .ret true w1 := by
  unfold decodes at hdec
  unfold match_
  cases hx : utf8_to_utf32 text with
  | runtime_error what => rw [hx] at hdec; simp at hdec
  | assertion_failed => rw [hx] at hdec; simp at hdec
  | out_of_bounds => rw [hx] at hdec; simp at hdec
  | ok wide =>
    simp only
    split
    · split
      · obtain ⟨c1, hc1⟩ := hperf text filename w.console
        exact ⟨{ match_count := w.match_count + 1, status := .success, console := c1 }, by
          simp only [hc1, World.with_console, Ctl.lift, Ctl.bind]⟩
      · exact ⟨w, rfl⟩
    · exact ⟨w, rfl⟩

/-- For a text that decodes and is not accepted, `match` returns `true` and
leaves the state as it was, whatever the action is. -/
theorem match_not_accepted (cfg : Config) (text filename : std_string) (w : World)
    (h : decodes text = true ∧ accepts cfg text = false) :
    match_ cfg text filename w = .ret true w := by
  obtain ⟨hdec, hacc⟩ := h
  unfold decodes at hdec
  unfold accepts at hacc
  unfold match_
  cases hx : utf8_to_utf32 text with
  | runtime_error what => rw [hx] at hdec; simp at hdec
  | assertion_failed => rw [hx] at hdec; simp at hdec
  | out_of_bounds => rw [hx] at hdec; simp at hdec
  | ok wide =>
    rw [hx] at hacc
    simp only [is_accepted] at hacc
    have hne : (cfg.regex_search wide != cfg.invert) = false := by
      cases h1 : cfg.regex_search wide <;> cases h2 : cfg.invert <;> simp_all
    simp only [hne, Bool.false_eq_true, if_false]

/-- C5: when every offer of the walk returns `true` (each text unit of the
list, offered in the state the offers before it have left), `grep_node`
returns `true` and has offered exactly the text units of the listed nodes, one
after the other in document order: the state it leaves is the one reached by
offering them in that order.  Nothing is asked of the engine on texts or
states the walk does not reach. -/
theorem grep_node_offers_units_in_order {σ : Type}
    (m : std_string → std_string → σ → Ctl σ Bool) (sd : Bool)
    (parent : xmlNode) (filename : std_string) (s : σ)
    (hparent : parent ≠ .null)
    (hcont : ∀ pre t post s1, text_units sd parent.children = pre ++ t :: post →
      offer_all m filename pre s = .ret true s1 → ∃ s2, m t filename s1 = .ret true s2) :
    grep_node m sd parent filename s =
      .ret true ((text_units sd parent.children).foldl
        (fun st t => (m t filename st).state) s) := by
  rcases parent with _ | ⟨name, content, children, next⟩
  · exact absurd rfl hparent
  · simp only [grep_node, xmlNode.children, grep_node_loop_eq_offer_all]
    exact offer_all_all_continue m filename _ s hcont

theorem grep_node_offers_units_in_order_witness :
    grep_node (recorder fun _ => true) false example_text (lit "a.odt") [] =
        .ret true [lit "one", lit "two", lit "three"] ∧
      grep_node (recorder fun _ => true) true example_text (lit "a.odt") [] =
        .ret true [lit "one", lit "two", lit "three", lit "four"] ∧
      grep_node (match_ (example_config true 0 echo_text)) false example_text emptystr
          World.initial =
        .ret true { match_count := 3, status := .success,
                    console := { cout := lit "one\ntwo\nthree\n", cerr := [] } } ∧
      grep_node (match_ (example_config false 0 echo_file)) true example_text emptystr
          World.initial =
        .ret true World.initial :=
  ⟨(grep_node_offers_units_in_order (recorder fun _ => true) false example_text (lit "a.odt") []
      (by decide) (fun _ _ _ _ _ _ => ⟨_, rfl⟩)).trans (by decide),
   (grep_node_offers_units_in_order (recorder fun _ => true) true example_text (lit "a.odt") []
      (by decide) (fun _ _ _ _ _ _ => ⟨_, rfl⟩)).trans (by decide),
   (grep_node_offers_units_in_order (match_ (example_config true 0 echo_text)) false
      example_text emptystr World.initial (by decide)
      (fun pre t post s1 hunits _ =>
        match_continues (example_config true 0 echo_text) (fun _ _ _ => ⟨_, rfl⟩) t emptystr s1
          ((by decide : ∀ u ∈ text_units false example_text.children, decodes u = true) t
            (by rw [hunits]; simp)))).trans (by decide),
   (grep_node_offers_units_in_order (match_ (example_config false 0 echo_file)) true
      example_text emptystr World.initial (by decide)
      (fun pre t post s1 hunits _ =>
        ⟨s1, match_not_accepted (example_config false 0 echo_file) t emptystr s1
          ((by decide : ∀ u ∈ text_units true example_text.children,
              decodes u = true ∧ accepts (example_config false 0 echo_file) u = false) t
            (by rw [hunits]; simp))⟩)).trans (by decide)⟩

/-- C6: if the text units of the walk are `pre ++ u :: post`, the offers of
`pre` all return `true` and the offer of `u` returns `false`, then `grep_node`
returns `false` in the state that offer of `u` left: nothing of `post` is
offered, at whatever depth `u` lies. -/
theorem grep_node_stops_at_first_false {σ : Type}
    (m : std_string → std_string → σ → Ctl σ Bool) (sd : Bool)
    (parent : xmlNode) (filename : std_string) (s s1 s2 : σ)
    (pre post : List std_string) (u : std_string)
    (hparent : parent ≠ .null)
    (hunits : text_units sd parent.children = pre ++ u :: post)
    (hpre : offer_all m filename pre s = .ret true s1)
    (hstop : m u filename s1 = .ret false s2) :
    grep_node m sd parent filename s = .ret false s2 := by
  rcases parent with _ | ⟨name, content, children, next⟩
  · exact absurd rfl hparent
  · simp only [xmlNode.children] at hunits
    simp only [grep_node, grep_node_loop_eq_offer_all, hunits, offer_all_append, hpre, offer_all,
      hstop]

theorem grep_node_stops_at_first_false_witness :
    grep_node (recorder fun t => t != lit "three") true example_text (lit "a.odt") [] =
      .ret false [lit "one", lit "two", lit "three"] :=
  grep_node_stops_at_first_false (recorder fun t => t != lit "three") true example_text
    (lit "a.odt") [] [lit "one", lit "two"] [lit "one", lit "two", lit "three"]
    [lit "one", lit "two"] [lit "four"] (lit "three") (by decide) (by decide) (by decide)
    (by decide)

/-! ### Claims on `match` -/

theorem is_accepted_eq (cfg : Config) (wide : std_wstring) :
    is_accepted cfg wide = (cfg.regex_search wide != cfg.invert) := by
  unfold is_accepted
  cases cfg.regex_search wide <;> cases cfg.invert <;> rfl

theorem match_of_decoded (cfg : Config) (text filename : std_string) (w : World)
    (wide : std_wstring) (hdec : utf8_to_utf32 text = .ok wide) :
    match_ cfg text filename w =
      if is_accepted cfg wide then
        if cfg.max_count = 0 ∨ w.match_count ≠ cfg.max_count then
          (w.with_console (cfg.act.perform text filename w.console)).bind fun result w1 =>
            .ret result { w1 with status := .success, match_count := w1.match_count + 1 }
        else .ret true w
      else .ret true w := by
  simp only [match_, hdec, is_accepted_eq]

/-- C7: for a text unit that decodes to `wide`, `match` takes the accepting
branch exactly when `regex_search wide` differs from `invert` (the XOR of the
two); when the unit is not accepted it returns `true` and leaves the whole
state (match count, status, output) as it was, whatever the action is.  With
`invert` set and a pattern that matches none of the units of a list, every
unit of the list is accepted. -/
theorem match_accepts_iff_search_differs_from_invert (cfg : Config)
    (text filename : std_string) (w : World) (wide : std_wstring)
    (hdec : utf8_to_utf32 text = .ok wide) :
    (match_ cfg text filename w =
      if cfg.regex_search wide ≠ cfg.invert then
        if cfg.max_count = 0 ∨ w.match_count ≠ cfg.max_count then
          (w.with_console (cfg.act.perform text filename w.console)).bind fun result w1 =>
            .ret result { w1 with status := .success, match_count := w1.match_count + 1 }
        else .ret true w
      else .ret true w) ∧
    (is_accepted cfg wide = true ↔ cfg.regex_search wide ≠ cfg.invert) ∧
    (is_accepted cfg wide = false → match_ cfg text filename w = .ret true w) ∧
    (∀ units : List std_string, cfg.invert = true →
      (∀ u ∈ units, ∃ wd, utf8_to_utf32 u = .ok wd ∧ cfg.regex_search wd = false) →
      ∀ u ∈ units, accepts cfg u = true) := by
  have hacc : is_accepted cfg wide = true ↔ cfg.regex_search wide ≠ cfg.invert := by
    rw [is_accepted_eq]; simp
  refine ⟨?_, hacc, ?_, ?_⟩
  · rw [match_of_decoded cfg text filename w wide hdec]
    by_cases h : cfg.regex_search wide ≠ cfg.invert
    · rw [if_pos h, if_pos (hacc.mpr h)]
    · rw [if_neg h, if_neg (fun h1 => h (hacc.mp h1))]
  · intro h
    rw [match_of_decoded cfg text filename w wide hdec, h]
    rfl
  · intro units hinv hall u hu
    obtain ⟨wd, h1, h2⟩ := hall u hu
    simp [accepts, h1, is_accepted, h2, hinv]

theorem match_accepts_iff_search_differs_from_invert_witness :
    match_ (example_config false 0 echo_text) (lit "b") (lit "f") (example_world 0) =
      .ret true (example_world 0) :=
  (match_accepts_iff_search_differs_from_invert (example_config false 0 echo_text) (lit "b")
    (lit "f") (example_world 0) (lit "b") (by decide)).2.2.1 (by decide)

/-- C8: for an accepted text unit offered while `max_count` is 0 or differs
from the match count, `match` is one call of `perform` on the undecoded text
and the label, followed, when `perform` returns, by `status = success`,
`++match_count` and the return of the value `perform` returned. -/
theorem match_performs_once_and_counts (cfg : Config) (text filename : std_string)
    (w : World) (wide : std_wstring)
    (hdec : utf8_to_utf32 text = .ok wide)
    (hacc : is_accepted cfg wide = true)
    (hcap : cfg.max_count = 0 ∨ w.match_count ≠ cfg.max_count) :
    (match_ cfg text filename w =
      (w.with_console (cfg.act.perform text filename w.console)).bind fun result w1 =>
        .ret result { w1 with status := .success, match_count := w1.match_count + 1 }) ∧
    (∀ (result : Bool) (c : Console),
      cfg.act.perform text filename w.console = .ret result c →
      match_ cfg text filename w =
        .ret result { match_count := w.match_count + 1, status := .success, console := c }) := by
  have h : match_ cfg text filename w =
      (w.with_console (cfg.act.perform text filename w.console)).bind fun result w1 =>
        .ret result { w1 with status := .success, match_count := w1.match_count + 1 } := by
    rw [match_of_decoded cfg text filename w wide hdec, if_pos hacc, if_pos hcap]
  refine ⟨h, ?_⟩
  intro result c hperf
  rw [h, hperf]
  rfl

theorem match_performs_once_and_counts_witness :
    match_ (example_config false 2 echo_text) (lit "a") (lit "f") (example_world 1) =
      .ret true { match_count := 2, status := .success,
                  console := { cout := lit "f: a\n", cerr := [] } } :=
  ((match_performs_once_and_counts (example_config false 2 echo_text) (lit "a") (lit "f")
    (example_world 1) (lit "a") (by decide) (by decide) (by decide)).2 true
    { cout := lit "f: a\n", cerr := [] } (by decide)).trans (by decide)

/-- C9: for an accepted text unit offered while `max_count` is nonzero and
equal to the match count, `match` returns `true` and leaves the whole state
(match count, status, output) as it was, whatever the action is. -/
theorem match_skips_at_cap (cfg : Config) (text filename : std_string) (w : World)
    (wide : std_wstring)
    (hdec : utf8_to_utf32 text = .ok wide)
    (hacc : is_accepted cfg wide = true)
    (hmax : cfg.max_count ≠ 0) (hcount : w.match_count = cfg.max_count) :
    match_ cfg text filename w = .ret true w := by
  rw [match_of_decoded cfg text filename w wide hdec, if_pos hacc, if_neg]
  rintro (h | h)
  · exact hmax h
  · exact h hcount

theorem match_skips_at_cap_witness :
    match_ (example_config false 2 quiet) (lit "a") (lit "f") (example_world 2) =
      .ret true (example_world 2) :=
  match_skips_at_cap (example_config false 2 quiet) (lit "a") (lit "f") (example_world 2)
    (lit "a") (by decide) (by decide) (by decide) (by decide)

/-! ### Claims on `grep_document` -/

/-- Dropping the result of a call, as `grep_body` does with `grep_node`. -/
theorem grep_body_loop_eq (cfg : Config) (filename : std_string) (first : xmlNode) (w : World) :
    grep_body_loop cfg filename first w =
      (offer_all (match_ cfg) filename
        (text_units cfg.search_deleted (first_named (lit "text") first).children) w).bind
        fun _ w1 => .ret () w1 := by
  induction first generalizing w with
  | null => rfl
  | node name content children next _ ihn =>
    simp only [grep_body_loop, first_named]
    by_cases h : name = lit "text"
    · simp only [if_pos h, grep_node, xmlNode.children, grep_node_loop_eq_offer_all]
    · simp only [if_neg h, ihn]

theorem grep_content_loop_eq (cfg : Config) (filename : std_string) (first : xmlNode)
    (w : World) :
    grep_content_loop cfg filename first w =
      (offer_all (match_ cfg) filename
        (text_units cfg.search_deleted
          (first_named (lit "text") (first_named (lit "body") first).children).children) w).bind
        fun _ w1 => .ret () w1 := by
  induction first generalizing w with
  | null => rfl
  | node name content children next _ ihn =>
    simp only [grep_content_loop, first_named]
    by_cases h : name = lit "body"
    · simp only [if_pos h, grep_body, xmlNode.children, grep_body_loop_eq]
    · simp only [if_neg h, ihn]

theorem grep_content_root (cfg : Config) (filename : std_string) (r : xmlNode) (w : World)
    (hr : r ≠ .null) :
    grep_content cfg (.root r) filename w =
      (offer_all (match_ cfg) filename (stream_units cfg.search_deleted r) w).bind
        fun _ w1 => .ret () w1 := by
  rcases r with _ | ⟨name, content, children, next⟩
  · exact absurd rfl hr
  · simp only [grep_content, grep_content_loop_eq, stream_units, xmlNode.children]

theorem decodes_ok (u : std_string) (h : decodes u = true) :
    ∃ wd, utf8_to_utf32 u = .ok wd := by
  unfold decodes at h
  cases hu : utf8_to_utf32 u with
  | ok wd => exact ⟨wd, rfl⟩
  | runtime_error what => rw [hu] at h; simp at h
  | assertion_failed => rw [hu] at h; simp at h
  | out_of_bounds => rw [hu] at h; simp at h

/-- Under an action whose `perform` always returns `true`, offering a list of
decodable units to `match` acts on the first `quota` accepted ones. -/
theorem offer_all_match_counts (cfg : Config) (label : std_string) (M : Nat)
    (hM : cfg.max_count = (M : Int))
    (hperf : ∀ t f c, ∃ c1, cfg.act.perform t f c = .ret true c1) :
    ∀ (units : List std_string) (j : Nat) (w : World),
      w.match_count = (j : Int) → (M = 0 ∨ j ≤ M) →
      (∀ u ∈ units, decodes u = true) →
      offer_all (match_ cfg) label units w =
        .ret true
          { match_count := ((j + quota M j (units.filter (accepts cfg)).length : Nat) : Int),
            status := if quota M j (units.filter (accepts cfg)).length = 0 then w.status
              else .success,
            console := perform_all cfg.act label
              ((units.filter (accepts cfg)).take
                (quota M j (units.filter (accepts cfg)).length)) w.console } := by
  intro units
  induction units with
  | nil =>
    intro j w hw _ _
    have hq : quota M j 0 = 0 := by unfold quota; split <;> simp
    rcases w with ⟨mc, st, c⟩
    simp only at hw
    simp [offer_all, hq, perform_all, hw]
  | cons u us ih =>
    intro j w hw hj hdec
    have hus : ∀ v ∈ us, decodes v = true := fun v hv => hdec v (List.mem_cons_of_mem _ hv)
    obtain ⟨wd, hwd⟩ := decodes_ok u (hdec u (List.mem_cons_self _ _))
    have hacc : accepts cfg u = is_accepted cfg wd := by simp [accepts, hwd]
    simp only [offer_all, match_of_decoded cfg u label w wd hwd, List.filter_cons, hacc]
    cases hA : is_accepted cfg wd
    · simp only [Bool.false_eq_true, if_false]
      exact ih j w hw hj hus
    · simp only [if_true]
      by_cases hcap : cfg.max_count = 0 ∨ w.match_count ≠ cfg.max_count
      · obtain ⟨c1, hc1⟩ := hperf u label w.console
        simp only [if_pos hcap, hc1, World.with_console, Ctl.lift, Ctl.bind]
        have hlt : M = 0 ∨ j < M := by
          rcases hcap with h | h
          · left; rw [hM] at h; exact_mod_cast h
          · rcases hj with h0 | hle
            · exact Or.inl h0
            · right
              rw [hw, hM] at h
              have : j ≠ M := fun e => h (by rw [e])
              omega
        have hq : ∀ n, quota M j (n + 1) = quota M (j + 1) n + 1 := by
          intro n
          unfold quota
          rcases hlt with h0 | hlt
          · simp [h0]
          · have hM0 : M ≠ 0 := by omega
            simp only [if_neg hM0]
            omega
        rw [ih (j + 1) _ (by simp [hw]) (by omega) hus, List.length_cons, hq]
        simp [perform_all, hc1, Ctl.state, Nat.add_assoc, Nat.add_comm 1]
      · simp only [if_neg hcap]
        have hMj : M ≠ 0 ∧ j = M := by
          constructor
          · intro h0
            exact hcap (Or.inl (by rw [hM, h0]; rfl))
          · by_contra hne
            exact hcap (Or.inr (by rw [hw, hM]; exact_mod_cast hne))
        have hq : ∀ n, quota M j n = 0 := by
          intro n
          unfold quota
          rw [if_neg hMj.1, hMj.2]
          simp
        rw [ih j w hw hj hus, hq, hq]
        simp only [List.take_zero]

theorem member_root_ne_null (zip : ZipArchive) (name : String)
    (h : member_root zip name ≠ .null) :
    zip.member name = .ok (.root (member_root zip name)) := by
  unfold member_root at h ⊢
  split at h
  · next r hr => simp [hr]
  · exact absurd rfl h

/-- The `try` block of `grep_document`, for a document that opens and parses
and an action whose `perform` always returns `true`: the units of the document
are offered in order, from a match count of zero. -/
theorem grep_document_try_eq (cfg : Config) (d : Document) (zip : ZipArchive) (w : World)
    (M : Nat) (hM : cfg.max_count = (M : Int))
    (hopen : d.zip = .ok zip)
    (hmeta : cfg.search_meta = true → member_root zip "meta.xml" ≠ .null)
    (hcontent : member_root zip "content.xml" ≠ .null)
    (hperf : ∀ t f c, ∃ c1, cfg.act.perform t f c = .ret true c1)
    (hdec : ∀ u ∈ document_units cfg zip, decodes u = true) :
    grep_document_try cfg d w =
      (offer_all (match_ cfg) (if cfg.print_filename.to_bool then d.path else emptystr)
        (document_units cfg zip) { w with match_count := 0 }).bind fun _ w1 => .ret () w1 := by
  have hc := member_root_ne_null zip "content.xml" hcontent
  simp only [grep_document_try, hopen, hc, grep_content_root cfg _ _ _ hcontent]
  by_cases hsm : cfg.search_meta = true
  · have hm := member_root_ne_null zip "meta.xml" (hmeta hsm)
    simp only [hsm, if_true, hm, grep_content_root cfg _ _ _ (hmeta hsm), document_units]
    have hdm : ∀ u ∈ stream_units cfg.search_deleted (member_root zip "meta.xml"),
        decodes u = true := by
      intro u hu
      apply hdec u
      simp only [document_units, hsm, if_true, List.mem_append]
      exact Or.inl hu
    have hA := offer_all_match_counts cfg (if cfg.print_filename.to_bool then d.path else emptystr)
      M hM hperf _ 0 { w with match_count := 0 } rfl (by omega) hdm
    rw [offer_all_append, hA]
    rfl
  · simp only [hsm, document_units]
    rfl

theorem quota_zero_eq_capped (max_count : Int) (h : 0 ≤ max_count) (n : Nat) :
    quota max_count.toNat 0 n = capped max_count n := by
  unfold quota capped
  by_cases h0 : max_count = 0
  · simp [h0]
  · have : max_count.toNat ≠ 0 := by omega
    simp [h0, this]

/-- C10: for a document that opens and parses, all of whose text units decode,
searched under an action whose `perform` always returns `true`, with `n`
accepted units: `grep_document` calls `perform` on exactly the first
`capped max_count n` accepted units, in order, and then `finish_file` with the
count `capped max_count n`, which is `n` when `max_count = 0` and
`min n max_count` when `max_count > 0`. -/
theorem grep_document_performs_capped (cfg : Config) (d : Document) (zip : ZipArchive)
    (w : World)
    (hopen : d.zip = .ok zip)
    (hmeta : cfg.search_meta = true → member_root zip "meta.xml" ≠ .null)
    (hcontent : member_root zip "content.xml" ≠ .null)
    (hinit : ∀ c, ∃ c1, cfg.act.initialise c = .ret () c1)
    (hperf : ∀ t f c, ∃ c1, cfg.act.perform t f c = .ret true c1)
    (hdec : ∀ u ∈ document_units cfg zip, decodes u = true)
    (hmax : 0 ≤ cfg.max_count) :
    (grep_document cfg d w =
      World.with_console
        { match_count := (capped cfg.max_count (accepted_units cfg zip).length : Nat),
          status := if capped cfg.max_count (accepted_units cfg zip).length = 0 then w.status
            else .success,
          console := perform_all cfg.act (if cfg.print_filename.to_bool then d.path else emptystr)
            ((accepted_units cfg zip).take (capped cfg.max_count (accepted_units cfg zip).length))
            (cfg.act.initialise w.console).state }
        (cfg.act.finish_file d.path
          (capped cfg.max_count (accepted_units cfg zip).length : Nat)
          (perform_all cfg.act (if cfg.print_filename.to_bool then d.path else emptystr)
            ((accepted_units cfg zip).take (capped cfg.max_count (accepted_units cfg zip).length))
            (cfg.act.initialise w.console).state))) ∧
    ((accepted_units cfg zip).take
      (capped cfg.max_count (accepted_units cfg zip).length)).length =
        capped cfg.max_count (accepted_units cfg zip).length ∧
    (cfg.max_count = 0 →
      capped cfg.max_count (accepted_units cfg zip).length = (accepted_units cfg zip).length) ∧
    (0 < cfg.max_count →
      ((capped cfg.max_count (accepted_units cfg zip).length : Nat) : Int) =
        min ((accepted_units cfg zip).length : Int) cfg.max_count) := by
  refine ⟨?_, ?_, ?_, ?_⟩
  · obtain ⟨ci, hci⟩ := hinit w.console
    have hM : cfg.max_count = (cfg.max_count.toNat : Int) := (Int.toNat_of_nonneg hmax).symm
    have htry := grep_document_try_eq cfg d zip { w with console := ci } cfg.max_count.toNat hM
      hopen hmeta hcontent hperf hdec
    have hcount := offer_all_match_counts cfg
      (if cfg.print_filename.to_bool then d.path else emptystr) cfg.max_count.toNat hM hperf
      (document_units cfg zip) 0 { w with console := ci, match_count := 0 } rfl
      (by omega) hdec
    rw [quota_zero_eq_capped cfg.max_count hmax] at hcount
    simp only [grep_document, hci, World.with_console, Ctl.lift, Ctl.bind, htry, hcount,
      Ctl.state, accepted_units]
    simp
  · rw [List.length_take]
    unfold capped
    split <;> omega
  · intro h0
    simp [capped, h0]
  · intro hpos
    unfold capped
    rw [if_neg (by omega)]
    omega

theorem grep_document_performs_capped_witness :
    grep_document (example_config false 2 count) example_document (example_world 7) =
        .ret () { match_count := 2, status := .success,
                  console := { cout := lit "x.odt: 2\n", cerr := [] } } ∧
      grep_document (example_config false 2 echo_text) example_document (example_world 7) =
        .ret () { match_count := 2, status := .success,
                  console := { cout := lit "a1\na2\n", cerr := [] } } :=
  ⟨(grep_document_performs_capped (example_config false 2 count) example_document
      example_archive (example_world 7) rfl (by decide) (by decide) (fun c => ⟨c, rfl⟩)
      (fun _ _ c => ⟨c, rfl⟩) (by decide) (by decide)).1.trans (by decide),
   (grep_document_performs_capped (example_config false 2 echo_text) example_document
      example_archive (example_world 7) rfl (by decide) (by decide) (fun c => ⟨c, rfl⟩)
      (fun _ _ c => ⟨_, rfl⟩) (by decide) (by decide)).1.trans (by decide)⟩

/-! ### How `match`, the walk and `grep_document` can end -/

theorem match_of_undecodable (cfg : Config) (text filename : std_string) (w : World)
    (h : decodes text = false) :
    match_ cfg text filename w = .throw (.runtime_error "invalid utf-8 encoding") w := by
  rcases utf8_to_utf32_ok_or_invalid text with ⟨x, hx⟩ | hinv
  · simp [decodes, hx] at h
  · simp [match_, hinv, invalid_utf8]

theorem accepts_of_decoded (cfg : Config) (text : std_string) (wide : std_wstring)
    (h : utf8_to_utf32 text = .ok wide) : accepts cfg text = is_accepted cfg wide := by
  simp [accepts, h]

theorem decodes_or_not (text : std_string) :
    (∃ wide, utf8_to_utf32 text = .ok wide ∧ decodes text = true) ∨ decodes text = false := by
  rcases utf8_to_utf32_ok_or_invalid text with ⟨x, hx⟩ | hinv
  · exact Or.inl ⟨x, hx, by simp [decodes, hx]⟩
  · exact Or.inr (by simp [decodes, hinv, invalid_utf8])

/-- One call of `match` under an action whose `perform` returns: it returns,
with the status unchanged or `success` (and the whole state unchanged when the
unit is not accepted), or it throws the encoding error of an undecodable
unit, the state unchanged. -/
theorem match_cases (cfg : Config)
    (hperf : ∀ t f c, ∃ b c1, cfg.act.perform t f c = .ret b c1)
    (text filename : std_string) (w : World) :
    (∃ b w1, match_ cfg text filename w = .ret b w1 ∧ decodes text = true ∧
        (w1.status = w.status ∨ w1.status = .success) ∧
        (accepts cfg text = false → b = true ∧ w1 = w) ∧
        (accepts cfg text = true → w1 = w ∨ w1.status = .success) ∧
        (accepts cfg text = true → w.match_count = 0 → w1.status = .success)) ∨
    (∃ what, match_ cfg text filename w = .throw (.runtime_error what) w ∧
        decodes text = false) := by
  rcases decodes_or_not text with ⟨wide, hwide, hdec⟩ | hno
  · left
    rw [match_of_decoded cfg text filename w wide hwide, accepts_of_decoded cfg text wide hwide]
    cases hA : is_accepted cfg wide
    · exact ⟨true, w, by simp, hdec, Or.inl rfl, fun _ => ⟨rfl, rfl⟩, by simp, by simp⟩
    · by_cases hcap : cfg.max_count = 0 ∨ w.match_count ≠ cfg.max_count
      · obtain ⟨b, c1, hc1⟩ := hperf text filename w.console
        refine ⟨b, { match_count := w.match_count + 1, status := .success, console := c1 },
          ?_, hdec, Or.inr rfl, by simp, fun _ => Or.inr rfl, fun _ _ => rfl⟩
        simp [hcap, hc1, World.with_console, Ctl.lift, Ctl.bind]
      · refine ⟨true, w, by simp [hcap], hdec, Or.inl rfl, by simp, fun _ => Or.inl rfl, ?_⟩
        intro _ h0
        exfalso
        apply hcap
        by_cases hm : cfg.max_count = 0
        · exact Or.inl hm
        · right
          rw [h0]
          exact fun h => hm h.symm
  · right
    exact ⟨_, match_of_undecodable cfg text filename w hno, hno⟩

/-- Offering a list of units to `match` under an action whose `perform`
returns: the offers return, with the status unchanged or `success`, or an
undecodable unit makes `match` throw. -/
theorem offer_all_cases (cfg : Config)
    (hperf : ∀ t f c, ∃ b c1, cfg.act.perform t f c = .ret b c1) (filename : std_string) :
    ∀ (units : List std_string) (w : World),
    (∃ b w1, offer_all (match_ cfg) filename units w = .ret b w1 ∧
        (w1.status = w.status ∨ w1.status = .success) ∧
        ((∀ u ∈ units, accepts cfg u = false) → b = true ∧ w1 = w) ∧
        ((∃ u ∈ units, accepts cfg u = true) →
          (w.match_count = 0 ∨ w.status = .success) → w1.status = .success)) ∨
    (∃ what w1, offer_all (match_ cfg) filename units w = .throw (.runtime_error what) w1 ∧
        ∃ u ∈ units, decodes u = false) := by
  intro units
  induction units with
  | nil =>
    intro w
    left
    exact ⟨true, w, rfl, Or.inl rfl, fun _ => ⟨rfl, rfl⟩, by simp⟩
  | cons u us ih =>
    intro w
    rcases match_cases cfg hperf u filename w with
      ⟨b, w1, hm, _, hst, hno, hyes, hzero⟩ | ⟨what, hm, hdec⟩
    · have hacc_status : accepts cfg u = true →
          (w.match_count = 0 ∨ w.status = .success) → w1.status = .success := by
        intro ha h0
        rcases h0 with h0 | h0
        · exact hzero ha h0
        · rcases hst with h | h
          · rw [h, h0]
          · exact h
      cases b with
      | false =>
        left
        refine ⟨false, w1, by simp [offer_all, hm], hst, ?_, ?_⟩
        · intro hall
          have := (hno (hall u (List.mem_cons_self _ _))).1
          simp at this
        · intro _ h0
          cases ha : accepts cfg u with
          | false =>
            have := (hno ha).1
            simp at this
          | true => exact hacc_status ha h0
      | true =>
        rcases ih w1 with ⟨b2, w2, h2, hst2, hno2, hyes2⟩ | ⟨what, w2, h2, hdec2⟩
        · left
          refine ⟨b2, w2, by simp [offer_all, hm, h2], ?_, ?_, ?_⟩
          · rcases hst2 with h | h
            · rw [h]; exact hst
            · exact Or.inr h
          · intro hall
            have h1 := (hno (hall u (List.mem_cons_self _ _))).2
            have h3 := hno2 (fun v hv => hall v (List.mem_cons_of_mem _ hv))
            exact ⟨h3.1, h3.2.trans h1⟩
          · intro hex h0
            cases ha : accepts cfg u with
            | true =>
              have hs1 := hacc_status ha h0
              rcases hst2 with h | h
              · rw [h, hs1]
              · exact h
            | false =>
              have h1 := (hno ha).2
              obtain ⟨v, hv, hva⟩ := hex
              rcases List.mem_cons.mp hv with rfl | hv
              · rw [ha] at hva; simp at hva
              · exact hyes2 ⟨v, hv, hva⟩ (by rw [h1]; exact h0)
        · right
          exact ⟨what, w2, by simp [offer_all, hm, h2], by
            obtain ⟨v, hv, hvd⟩ := hdec2
            exact ⟨v, List.mem_cons_of_mem _ hv, hvd⟩⟩
    · right
      exact ⟨what, w, by simp [offer_all, hm], u, List.mem_cons_self _ _, hdec⟩

theorem grep_document_try_ok (cfg : Config) (d : Document) (zip : ZipArchive) (w : World)
    (h : d.zip = .ok zip) :
    grep_document_try cfg d w =
      (if cfg.search_meta then
          search_member cfg (zip.member "meta.xml")
            (if cfg.print_filename.to_bool then d.path else emptystr) { w with match_count := 0 }
        else .ret () { w with match_count := 0 }).bind fun _ w1 =>
        search_member cfg (zip.member "content.xml")
          (if cfg.print_filename.to_bool then d.path else emptystr) w1 := by
  simp only [grep_document_try, h]
  rfl

theorem document_units_eq (cfg : Config) (zip : ZipArchive) :
    document_units cfg zip =
      (if cfg.search_meta then member_units cfg.search_deleted (zip.member "meta.xml") else [])
        ++ member_units cfg.search_deleted (zip.member "content.xml") := by
  have h : ∀ name, stream_units cfg.search_deleted (member_root zip name) =
      member_units cfg.search_deleted (zip.member name) := by
    intro name
    unfold member_root member_units
    rcases zip.member name with what | (what | r) <;> rfl
  simp only [document_units, h]

/-- Searching one member stream under an action whose `perform` returns. -/
theorem search_member_cases (cfg : Config)
    (hperf : ∀ t f c, ∃ b c1, cfg.act.perform t f c = .ret b c1)
    (m : Except std_string ZipFile) (hm : m ≠ .ok (.root .null))
    (filename : std_string) (w : World) :
    (readable m = true ∧
      ((∃ w1, search_member cfg m filename w = .ret () w1 ∧
          (w1.status = w.status ∨ w1.status = .success) ∧
          ((∀ u ∈ member_units cfg.search_deleted m, accepts cfg u = false) → w1 = w) ∧
          ((∃ u ∈ member_units cfg.search_deleted m, accepts cfg u = true) →
            (w.match_count = 0 ∨ w.status = .success) → w1.status = .success)) ∨
       (∃ what w1, search_member cfg m filename w = .throw (.runtime_error what) w1 ∧
          ∃ u ∈ member_units cfg.search_deleted m, decodes u = false))) ∨
    (readable m = false ∧ ∃ what, search_member cfg m filename w = .throw (.zip_exception what) w) := by
  rcases m with what | (what | r)
  · exact Or.inr ⟨rfl, what, rfl⟩
  · exact Or.inr ⟨rfl, what, rfl⟩
  · left
    refine ⟨rfl, ?_⟩
    have hr : r ≠ .null := fun h => hm (by rw [h])
    simp only [search_member, member_units, grep_content_root cfg filename r w hr]
    rcases offer_all_cases cfg hperf filename (stream_units cfg.search_deleted r) w with
      ⟨b, w1, h1, hst, hno, hyes⟩ | ⟨what, w1, h1, hdec⟩
    · left
      exact ⟨w1, by simp [h1, Ctl.bind], hst, fun h => (hno h).2, hyes⟩
    · right
      exact ⟨what, w1, by simp [h1, Ctl.bind], hdec⟩

/-- The ways the `try` block of `grep_document` ends for a document whose
streams have a root element, under an action whose `perform` returns: it
returns (the document opens), a `Zip::Exception` leaves it (the document does
not open), or the encoding error of an undecodable unit leaves it. -/
theorem grep_document_try_cases (cfg : Config)
    (hperf : ∀ t f c, ∃ b c1, cfg.act.perform t f c = .ret b c1)
    (d : Document) (hparse : parses cfg d) (w : World) :
    (∃ w1, grep_document_try cfg d w = .ret () w1 ∧ opens cfg d = true ∧
        (w1.status = w.status ∨ w1.status = .success) ∧
        (none_accepted cfg d → w1.status = w.status) ∧
        ((∃ zip u, d.zip = .ok zip ∧ u ∈ document_units cfg zip ∧ accepts cfg u = true) →
          w1.status = .success)) ∨
    (∃ what w1, grep_document_try cfg d w = .throw (.zip_exception what) w1 ∧
        opens cfg d = false ∧ (w1.status = w.status ∨ w1.status = .success)) ∨
    (∃ what w1, grep_document_try cfg d w = .throw (.runtime_error what) w1 ∧
        ¬ units_decode cfg d) := by
  cases hz : d.zip with
  | error what =>
    right; left
    exact ⟨what, w, by simp [grep_document_try, hz], by simp [opens, hz], Or.inl rfl⟩
  | ok zip =>
    obtain ⟨hpm, hpc⟩ := hparse zip hz
    rw [grep_document_try_ok cfg d zip w hz]
    have hunits := document_units_eq cfg zip
    by_cases hsm : cfg.search_meta = true
    · simp only [hsm, if_true] at hunits ⊢
      rcases search_member_cases cfg hperf (zip.member "meta.xml") (hpm hsm)
          (if cfg.print_filename.to_bool then d.path else emptystr)
          { w with match_count := 0 } with
        ⟨hrm, (⟨w1, h1, hst1, hno1, hyes1⟩ | ⟨what, w1, h1, hdec1⟩)⟩ | ⟨hrm, what, h1⟩
      · rw [h1]
        simp only [Ctl.bind]
        rcases search_member_cases cfg hperf (zip.member "content.xml") hpc
            (if cfg.print_filename.to_bool then d.path else emptystr) w1 with
          ⟨hrc, (⟨w2, h2, hst2, hno2, hyes2⟩ | ⟨what, w2, h2, hdec2⟩)⟩ | ⟨hrc, what, h2⟩
        · left
          have hst : w2.status = w.status ∨ w2.status = .success := by
            rcases hst2 with h | h
            · rw [h]; exact hst1
            · exact Or.inr h
          refine ⟨w2, h2, by simp [opens, hz, hsm, hrm, hrc], hst, ?_, ?_⟩
          · intro hnone
            have hall := hnone zip hz
            rw [hunits] at hall
            have e1 := hno1 (fun u hu => hall u (List.mem_append_left _ hu))
            have e2 := hno2 (fun u hu => hall u (List.mem_append_right _ hu))
            rw [e2, e1]
          · rintro ⟨zip1, u, hz1, hu, hacc⟩
            cases hz1
            rw [hunits] at hu
            by_cases hex : ∃ v ∈ member_units cfg.search_deleted (zip.member "meta.xml"),
                accepts cfg v = true
            · have hs1 := hyes1 hex (Or.inl rfl)
              rcases hst2 with h | h
              · rw [h, hs1]
              · exact h
            · have hallm : ∀ v ∈ member_units cfg.search_deleted (zip.member "meta.xml"),
                  accepts cfg v = false := by
                intro v hv
                cases hv1 : accepts cfg v with
                | false => rfl
                | true => exact absurd ⟨v, hv, hv1⟩ hex
              have e1 := hno1 hallm
              rcases List.mem_append.mp hu with hu | hu
              · rw [hallm u hu] at hacc; simp at hacc
              · exact hyes2 ⟨u, hu, hacc⟩ (Or.inl (by rw [e1]))
        · right; right
          refine ⟨what, w2, h2, ?_⟩
          intro hdec
          obtain ⟨u, hu, hud⟩ := hdec2
          have := hdec zip hz u (by rw [hunits]; exact List.mem_append_right _ hu)
          rw [hud] at this; simp at this
        · right; left
          exact ⟨what, w1, h2, by simp [opens, hz, hrc], hst1⟩
      · right; right
        rw [h1]
        refine ⟨what, w1, rfl, ?_⟩
        intro hdec
        obtain ⟨u, hu, hud⟩ := hdec1
        have := hdec zip hz u (by rw [hunits]; exact List.mem_append_left _ hu)
        rw [hud] at this; simp at this
      · right; left
        rw [h1]
        exact ⟨what, _, rfl, by simp [opens, hz, hsm, hrm], Or.inl rfl⟩
    · simp only [hsm, List.nil_append] at hunits ⊢
      simp only [Ctl.bind]
      rcases search_member_cases cfg hperf (zip.member "content.xml") hpc
          (if cfg.print_filename.to_bool then d.path else emptystr)
          { w with match_count := 0 } with
        ⟨hrc, (⟨w2, h2, hst2, hno2, hyes2⟩ | ⟨what, w2, h2, hdec2⟩)⟩ | ⟨hrc, what, h2⟩
      · left
        refine ⟨w2, h2, by simp [opens, hz, hsm, hrc], hst2, ?_, ?_⟩
        · intro hnone
          have hall := hnone zip hz
          rw [hunits] at hall
          rw [hno2 hall]
        · rintro ⟨zip1, u, hz1, hu, hacc⟩
          cases hz1
          rw [hunits] at hu
          exact hyes2 ⟨u, hu, hacc⟩ (Or.inl rfl)
      · right; right
        refine ⟨what, w2, h2, ?_⟩
        intro hdec
        obtain ⟨u, hu, hud⟩ := hdec2
        have := hdec zip hz u (by rw [hunits]; exact hu)
        rw [hud] at this; simp at this
      · right; left
        exact ⟨what, _, h2, by simp [opens, hz, hrc], Or.inl rfl⟩

/-- The ways `grep_document` ends for a document whose streams have a root
element, under an action whose per-document operations return: it returns,
with the status `io_error` when the document does not open, or the encoding
error of an undecodable unit leaves it. -/
theorem grep_document_cases (cfg : Config) (hact : cfg.act.returns)
    (d : Document) (hparse : parses cfg d) (w : World) :
    (∃ w1, grep_document cfg d w = .ret () w1 ∧
        ((opens cfg d = true ∧ (w1.status = w.status ∨ w1.status = .success) ∧
            (none_accepted cfg d → w1.status = w.status) ∧
            ((∃ zip u, d.zip = .ok zip ∧ u ∈ document_units cfg zip ∧ accepts cfg u = true) →
              w1.status = .success)) ∨
         (opens cfg d = false ∧ w1.status = .io_error))) ∨
    (∃ what w1, grep_document cfg d w = .throw (.runtime_error what) w1 ∧
        ¬ units_decode cfg d) := by
  obtain ⟨hinit, hperf, hfin⟩ := hact
  obtain ⟨ci, hci⟩ := hinit w.console
  simp only [grep_document, hci, World.with_console, Ctl.lift, Ctl.bind]
  rcases grep_document_try_cases cfg hperf d hparse { w with console := ci } with
    ⟨w1, h1, hopen, hst, hno, hyes⟩ | ⟨what, w1, h1, hopen, _⟩ | ⟨what, w1, h1, hdec⟩
  · left
    obtain ⟨c2, hc2⟩ := hfin d.path w1.match_count w1.console
    rw [h1]
    simp only [hc2]
    exact ⟨_, rfl, Or.inl ⟨hopen, hst, hno, hyes⟩⟩
  · left
    obtain ⟨c2, hc2⟩ := hfin d.path w1.match_count
      { w1.console with cerr := w1.console.cerr ++ what ++ lit "\n" }
    rw [h1]
    simp only [hc2]
    exact ⟨_, rfl, Or.inr ⟨hopen, rfl⟩⟩
  · right
    rw [h1]
    exact ⟨what, w1, rfl, hdec⟩

/-! ### The loop over the documents -/

theorem for_each_append (cfg : Config) (a b : List Document) (w : World) :
    for_each_grep_document cfg (a ++ b) w =
      (for_each_grep_document cfg a w).bind fun _ w1 => for_each_grep_document cfg b w1 := by
  induction a generalizing w with
  | nil => rfl
  | cons d ds ih =>
    simp only [List.cons_append, for_each_grep_document]
    rcases grep_document cfg d w with ⟨_, w1⟩ | ⟨e, w1⟩ | ⟨code, w1⟩ | w1 <;>
      simp [Ctl.bind, ih]

/-- The loop over documents that parse and decode, under an action whose
per-document operations return, reaches its end; the status `success` is kept
when every document opens. -/
theorem for_each_returns (cfg : Config) (hact : cfg.act.returns) :
    ∀ (docs : List Document) (w : World),
      (∀ d ∈ docs, parses cfg d) → (∀ d ∈ docs, units_decode cfg d) →
      ∃ w1, for_each_grep_document cfg docs w = .ret () w1 ∧
        ((∀ d ∈ docs, opens cfg d = true) → w.status = .success → w1.status = .success) := by
  intro docs
  induction docs with
  | nil => intro w _ _; exact ⟨w, rfl, fun _ h => h⟩
  | cons d ds ih =>
    intro w hparse hdec
    rcases grep_document_cases cfg hact d (hparse d (List.mem_cons_self _ _)) w with
      ⟨w1, h1, hfacts⟩ | ⟨what, w1, _, hno⟩
    · obtain ⟨w2, h2, hkeep⟩ := ih w1 (fun x hx => hparse x (List.mem_cons_of_mem _ hx))
        (fun x hx => hdec x (List.mem_cons_of_mem _ hx))
      refine ⟨w2, by simp [for_each_grep_document, h1, Ctl.bind, h2], ?_⟩
      intro hopen hw
      apply hkeep (fun x hx => hopen x (List.mem_cons_of_mem _ hx))
      rcases hfacts with ⟨_, hst, _, _⟩ | ⟨hclosed, _⟩
      · rcases hst with h | h
        · rw [h, hw]
        · exact h
      · rw [hopen d (List.mem_cons_self _ _)] at hclosed
        simp at hclosed
    · exact absurd (hdec d (List.mem_cons_self _ _)) hno

theorem echo_text_nonterminating : echo_text.nonterminating :=
  ⟨⟨fun c => ⟨c, rfl⟩, fun _ _ _ => ⟨true, _, rfl⟩, fun _ _ c => ⟨c, rfl⟩⟩, fun c => ⟨c, rfl⟩⟩

/-- The end of a run whose loop over the documents reached its end in `w1`,
under an action whose `finish_all` returns: `main` returns the code of the
status of `w1`. -/
theorem run_of_for_each_ret (cfg : Config) (docs : List Document) (w w1 : World)
    (hall : ∀ c, ∃ c1, cfg.act.finish_all c = .ret () c1)
    (h : for_each_grep_document cfg docs w = .ret () w1) :
    ∃ w2, run cfg docs w = .ret w1.status.code w2 ∧ w2.status = w1.status := by
  obtain ⟨c1, hc1⟩ := hall w1.console
  exact ⟨{ w1 with console := c1 }, by
    simp [run, search_documents, h, Ctl.bind, World.with_console, Ctl.lift, hc1, main_handler],
    rfl⟩

theorem run_of_for_each_throw (cfg : Config) (docs : List Document) (w w1 : World)
    (e : exception) (h : for_each_grep_document cfg docs w = .throw e w1) :
    run cfg docs w =
      .ret 2 { w1 with
        console := { w1.console with cerr := w1.console.cerr ++ e.what ++ lit "\n" },
        status := .io_error } := by
  simp [run, search_documents, h, Ctl.bind, main_handler, exit_status.code]

/-! ### Claims on the run -/

/-- C11 (fails on the code): `grep_document` sets `match_count = 0` only after
the archive has been opened.  In the run over `x.odt` (three matches) and
`bad.odt` (cannot be opened), `finish_file` is called for `bad.odt` with the
count 3 although `perform` was not called for it: the observing action
records `I P P P F3;` for the first document and `I F3;` for the second, and
the action `count` prints `bad.odt: 3`. -/
theorem finish_file_count_stale_after_open_failure :
    run (example_config false 0 probe) [example_document, bad_document] World.initial =
        .ret 2 { match_count := 3, status := .io_error,
                 console := { cout := lit "IPPPF3;IF3;A",
                              cerr := lit "bad.odt: not a zip archive\n" } } ∧
      run (example_config false 0 count) [example_document, bad_document] World.initial =
        .ret 2 { match_count := 3, status := .io_error,
                 console := { cout := lit "x.odt: 3\nbad.odt: 3\n",
                              cerr := lit "bad.odt: not a zip archive\n" } } := by
  decide

/-- C12 as stated fails: in the run over `x.odt` (three units accepted and
echoed) and then `bad.odt` (cannot be opened) the status ends as `io_error`
and the exit code is 2. -/
theorem status_regresses_on_later_open_failure :
    run (example_config false 0 echo_text) [example_document, bad_document] World.initial =
        .ret 2 { match_count := 3, status := .io_error,
                 console := { cout := lit "a1\na2\na3\n",
                              cerr := lit "bad.odt: not a zip archive\n" } } ∧
      exit_code (run (example_config false 0 echo_text) [example_document, bad_document]
        World.initial) ≠ some 0 := by
  decide

/-- C12 (amended): under a non-terminating action, once the status is
`success` it stays `success` through every later document that opens (and
parses and decodes), and the exit code is then 0; a document that does not
open, coming last, sets the status to `io_error` and the exit code to 2. -/
theorem status_kept_while_documents_open (cfg : Config) (docs : List Document) (w : World)
    (hact : cfg.act.nonterminating) (hw : w.status = .success)
    (hparse : ∀ d ∈ docs, parses cfg d) (hdec : ∀ d ∈ docs, units_decode cfg d)
    (hopen : ∀ d ∈ docs, opens cfg d = true) :
    (∃ w1, run cfg docs w = .ret 0 w1 ∧ w1.status = .success) ∧
    (∀ bad, opens cfg bad = false → parses cfg bad → units_decode cfg bad →
      ∃ w1, run cfg (docs ++ [bad]) w = .ret 2 w1 ∧ w1.status = .io_error) := by
  obtain ⟨w1, h1, hkeep⟩ := for_each_returns cfg hact.1 docs w hparse hdec
  have hs1 := hkeep hopen hw
  constructor
  · obtain ⟨w2, h2, hs2⟩ := run_of_for_each_ret cfg docs w w1 hact.2 h1
    rw [hs1] at h2 hs2
    exact ⟨w2, h2, hs2⟩
  · intro bad hbo hbp hbd
    rcases grep_document_cases cfg hact.1 bad hbp w1 with
      ⟨w2, h2, hfacts⟩ | ⟨what, w2, _, hno⟩
    · have hio : w2.status = .io_error := by
        rcases hfacts with ⟨ho, _⟩ | ⟨_, hio⟩
        · rw [hbo] at ho; simp at ho
        · exact hio
      have hfe : for_each_grep_document cfg (docs ++ [bad]) w = .ret () w2 := by
        simp [for_each_append, h1, Ctl.bind, for_each_grep_document, h2]
      obtain ⟨w3, h3, hs3⟩ := run_of_for_each_ret cfg (docs ++ [bad]) w w2 hact.2 hfe
      rw [hio] at h3 hs3
      exact ⟨w3, h3, hs3⟩
    · exact absurd hbd hno

theorem status_kept_while_documents_open_witness :
    ∃ w1, run (example_config false 0 echo_text) [nomatch_document, example_document]
        { World.initial with status := .success } = .ret 0 w1 ∧ w1.status = .success :=
  (status_kept_while_documents_open (example_config false 0 echo_text)
    [nomatch_document, example_document] { World.initial with status := .success }
    echo_text_nonterminating rfl (by decide) (by decide) (by decide)).1

/-- C13: under a non-terminating action, in a run that reaches a document
that does not open (`bad`, after which the status is `io_error`), goes on to
a later document that opens, parses, decodes and has an accepted unit
(`good`), and then only meets documents that open, parse and decode, the
final status is `success` and the exit code is 0. -/
theorem match_after_open_failure_exits_0 (cfg : Config)
    (before between after : List Document) (bad good : Document) (w w1 w2 w3 : World)
    (hact : cfg.act.nonterminating)
    (hbefore : for_each_grep_document cfg before w = .ret () w1)
    (hbad : opens cfg bad = false) (hbadp : parses cfg bad)
    (hbadrun : grep_document cfg bad w1 = .ret () w2)
    (hbetween : for_each_grep_document cfg between w2 = .ret () w3)
    (hgo : opens cfg good = true) (hgp : parses cfg good) (hgd : units_decode cfg good)
    (hacc : ∃ zip u, good.zip = .ok zip ∧ u ∈ document_units cfg zip ∧ accepts cfg u = true)
    (hap : ∀ d ∈ after, parses cfg d) (had : ∀ d ∈ after, units_decode cfg d)
    (hao : ∀ d ∈ after, opens cfg d = true) :
    w2.status = .io_error ∧
    ∃ w4, run cfg (before ++ bad :: (between ++ good :: after)) w = .ret 0 w4 ∧
      w4.status = .success := by
  constructor
  · rcases grep_document_cases cfg hact.1 bad hbadp w1 with
      ⟨w2a, h2, hfacts⟩ | ⟨what, w2a, h2, _⟩
    · rw [hbadrun] at h2
      cases h2
      rcases hfacts with ⟨ho, _⟩ | ⟨_, hio⟩
      · rw [hbad] at ho; simp at ho
      · exact hio
    · rw [hbadrun] at h2
      cases h2
  · rcases grep_document_cases cfg hact.1 good hgp w3 with
      ⟨w4, h4, hfacts⟩ | ⟨what, w4, _, hno⟩
    · have hs4 : w4.status = .success := by
        rcases hfacts with ⟨_, _, _, hyes⟩ | ⟨hc, _⟩
        · exact hyes hacc
        · rw [hgo] at hc; simp at hc
      obtain ⟨w5, h5, hkeep⟩ := for_each_returns cfg hact.1 after w4 hap had
      have hs5 := hkeep hao hs4
      have hfe : for_each_grep_document cfg (before ++ bad :: (between ++ good :: after)) w =
          .ret () w5 := by
        simp [for_each_append, hbefore, Ctl.bind, for_each_grep_document, hbadrun, hbetween,
          h4, h5]
      obtain ⟨w6, h6, hs6⟩ := run_of_for_each_ret cfg _ w w5 hact.2 hfe
      rw [hs5] at h6 hs6
      exact ⟨w6, h6, hs6⟩
    · exact absurd hgd hno

theorem match_after_open_failure_exits_0_witness :
    ({ match_count := 0, status := .io_error,
       console := { cout := [], cerr := lit "bad.odt: not a zip archive\n" } } : World).status =
        .io_error ∧
      ∃ w4, run (example_config false 0 echo_text)
          ([] ++ bad_document :: ([] ++ example_document :: [nomatch_document]))
          World.initial = .ret 0 w4 ∧ w4.status = .success :=
  match_after_open_failure_exits_0 (example_config false 0 echo_text) [] [] [nomatch_document]
    bad_document example_document World.initial World.initial
    { match_count := 0, status := .io_error,
      console := { cout := [], cerr := lit "bad.odt: not a zip archive\n" } }
    { match_count := 0, status := .io_error,
      console := { cout := [], cerr := lit "bad.odt: not a zip archive\n" } }
    echo_text_nonterminating rfl (by decide) (by decide) (by decide) rfl (by decide) (by decide)
    (by decide) ⟨example_archive, lit "a1", rfl, by decide, by decide⟩ (by decide) (by decide)
    (by decide)

theorem readable_root (m : Except std_string ZipFile) (h : readable m = true) :
    ∃ r, m = .ok (.root r) := by
  rcases m with what | (what | r)
  · simp [readable] at h
  · simp [readable] at h
  · exact ⟨r, rfl⟩

/-- An exception that ends the offering of the units of a document that opens
and parses leaves the `try` block of `grep_document`. -/
theorem grep_document_try_throws (cfg : Config) (d : Document) (zip : ZipArchive)
    (w w2 : World) (e : exception)
    (hz : d.zip = .ok zip) (hopen : opens cfg d = true) (hparse : parses cfg d)
    (h : offer_all (match_ cfg) (if cfg.print_filename.to_bool then d.path else emptystr)
      (document_units cfg zip) { w with match_count := 0 } = .throw e w2) :
    grep_document_try cfg d w = .throw e w2 := by
  obtain ⟨hpm, hpc⟩ := hparse zip hz
  rw [grep_document_try_ok cfg d zip w hz]
  rw [document_units_eq] at h
  simp only [opens, hz, Bool.and_eq_true, Bool.or_eq_true, Bool.not_eq_true'] at hopen
  obtain ⟨hom, hoc⟩ := hopen
  obtain ⟨rc, hrc⟩ := readable_root _ hoc
  have hrc0 : rc ≠ .null := fun h0 => hpc (by rw [hrc, h0])
  rw [hrc] at h ⊢
  simp only [search_member, member_units, grep_content_root cfg _ rc _ hrc0] at h ⊢
  by_cases hsm : cfg.search_meta = true
  · have hrm : readable (zip.member "meta.xml") = true := by
      rcases hom with h0 | h0
      · rw [hsm] at h0; simp at h0
      · exact h0
    obtain ⟨rm, hrm1⟩ := readable_root _ hrm
    have hrm0 : rm ≠ .null := fun h0 => hpm hsm (by rw [hrm1, h0])
    rw [hrm1] at h ⊢
    simp only [hsm, if_true, grep_content_root cfg _ rm _ hrm0] at h ⊢
    rw [offer_all_append] at h
    rcases hmu : offer_all (match_ cfg) (if cfg.print_filename.to_bool then d.path else emptystr)
        (stream_units cfg.search_deleted rm) { w with match_count := 0 } with
      ⟨_ | _, s1⟩ | ⟨e1, s1⟩ | ⟨code, s1⟩ | s1
    · rw [hmu] at h
      simp at h
    · rw [hmu] at h
      simp only at h
      simp [Ctl.bind, h]
    · rw [hmu] at h
      simp only at h
      cases h
      simp [Ctl.bind]
    · rw [hmu] at h
      simp at h
    · rw [hmu] at h
      simp at h
  · simp only [hsm, Bool.false_eq_true, if_false, List.nil_append] at h ⊢
    simp [Ctl.bind, h]

/-- The path of the encoding error through `grep_document` and `main`: if the
search of a document that opens and parses reached a text unit `u` that does
not decode (the units before it, `pre`, having been offered with result
`true`), the error would leave `grep_document`, which handles
`Zip::Exception` only and throws anything else again, end the loop over the
documents and be handled in `main`: message to `std::cerr`, status `io_error`,
exit code 2, no `finish_file`, no later document, no `finish_all`.  The text
units of a run come out of `xmlParseDoc`, which gives no tree for a stream
whose text is not UTF-8, so this path is not taken on a document read from a
file. -/
theorem decode_error_aborts_run (cfg : Config) (before after : List Document) (d : Document)
    (zip : ZipArchive) (w w1 w2 : World) (ci : Console) (pre post : List std_string)
    (u : std_string)
    (hbefore : for_each_grep_document cfg before w = .ret () w1)
    (hinit : cfg.act.initialise w1.console = .ret () ci)
    (hz : d.zip = .ok zip) (hopen : opens cfg d = true) (hparse : parses cfg d)
    (hunits : document_units cfg zip = pre ++ u :: post)
    (hpre : offer_all (match_ cfg) (if cfg.print_filename.to_bool then d.path else emptystr) pre
      { w1 with console := ci, match_count := 0 } = .ret true w2)
    (hu : decodes u = false) :
    run cfg (before ++ d :: after) w =
      .ret 2 { w2 with
        console := { w2.console with
          cerr := w2.console.cerr ++ lit "invalid utf-8 encoding" ++ lit "\n" },
        status := .io_error } := by
  have hoff : offer_all (match_ cfg) (if cfg.print_filename.to_bool then d.path else emptystr)
      (document_units cfg zip) { w1 with console := ci, match_count := 0 } =
      .throw (.runtime_error "invalid utf-8 encoding") w2 := by
    rw [hunits, offer_all_append, hpre]
    simp [offer_all, match_of_undecodable cfg u _ w2 hu]
  have htry := grep_document_try_throws cfg d zip { w1 with console := ci } w2 _ hz hopen hparse
    hoff
  have hdoc : grep_document cfg d w1 = .throw (.runtime_error "invalid utf-8 encoding") w2 := by
    simp only [grep_document, hinit, World.with_console, Ctl.lift, Ctl.bind, htry]
  have hfe : for_each_grep_document cfg (before ++ d :: after) w =
      .throw (.runtime_error "invalid utf-8 encoding") w2 := by
    simp [for_each_append, hbefore, Ctl.bind, for_each_grep_document, hdoc]
  rw [run_of_for_each_throw cfg _ w w2 _ hfe]
  rfl

/-- C16 as stated fails: with the pattern `(`, which the pattern engine
rejects, and with the pattern text `0x80`, which does not decode, `main`
returns 2 (the code of `io_error`), not the usage-error code 3; nothing of the
document is searched. -/
theorem bad_pattern_exit_code_is_2 :
    main example_env (example_globals none (lit "(") [lit "x.odt"]) World.initial =
        .ret 2 { match_count := 0, status := .io_error,
                 console := { cout := [], cerr := lit "unmatched parenthesis\n" } } ∧
      main example_env (example_globals none [0x80] [lit "x.odt"]) World.initial =
        .ret 2 { match_count := 0, status := .io_error,
                 console := { cout := [], cerr := lit "invalid utf-8 encoding\n" } } ∧
      exit_code (main example_env (example_globals none (lit "(") [lit "x.odt"])
        World.initial) ≠ some exit_status.cmdline_error.code := by
  decide

/-- C16 (amended): if the pattern text does not decode or the pattern engine
rejects the decoded pattern, with message `what`, `main` ends before any
document is processed: the exception is handled in `main`, which writes the
message to `std::cerr`, sets the status to `io_error` and returns 2; the
state is otherwise untouched, whatever the documents are. -/
theorem bad_pattern_ends_run_with_2 (env : Env) (g : Globals) (w : World) (what : String)
    (hp : g.have_pattern = true)
    (hbad : utf8_to_utf32 g.pattern_text = .runtime_error what ∨
      ∃ wide, utf8_to_utf32 g.pattern_text = .ok wide ∧
        env.regex_assign wide g.flavor g.icase = .error what) :
    main env g w =
      .ret 2 { w with
        console := { w.console with cerr := w.console.cerr ++ lit what ++ lit "\n" },
        status := .io_error } := by
  rcases hbad with h | ⟨wide, h1, h2⟩
  · simp [main, main_try, hp, h, main_handler, exception.what, exit_status.code]
  · simp [main, main_try, hp, h1, h2, main_handler, exception.what, exit_status.code]

theorem bad_pattern_ends_run_with_2_witness :
    main example_env (example_globals (some count) (lit "(") [lit "x.odt", lit "n.odt"])
        World.initial =
      .ret 2 { match_count := 0, status := .io_error,
               console := { cout := [], cerr := lit "unmatched parenthesis\n" } } :=
  (bad_pattern_ends_run_with_2 example_env
    (example_globals (some count) (lit "(") [lit "x.odt", lit "n.odt"]) World.initial
    "unmatched parenthesis" rfl (Or.inr ⟨lit "(", by decide, rfl⟩)).trans (by decide)

/-- The run over `x.odt` (three matches), `bad.odt` (cannot be opened) and
`n.odt` (no match) under the observing action: `finish_all` writes its `A`
once, after the `finish_file` of the last document. -/
theorem finish_all_once_example :
    run (example_config false 0 probe) [example_document, bad_document, nomatch_document]
        World.initial =
      .ret 2 { match_count := 0, status := .io_error,
               console := { cout := lit "IPPPF3;IF3;IF0;A",
                            cerr := lit "bad.odt: not a zip archive\n" } } := by
  decide

/-- C18 (fails on the code): with the meta stream searched, `grep_document`
gives `meta.xml` to `grep_content`, which looks for a `body` element, and not
to `grep_meta`.  For `odfgrep -M -H a m.odt`, whose `title` field is `a title`,
nothing is offered from the meta stream: no output, status `nomatch`, exit
code 1; `grep_meta` on the same stream offers the field and it is echoed with
the label `m.odt<title>`. -/
theorem meta_stream_searched_as_content :
    main example_env meta_globals World.initial = .ret 1 World.initial ∧
      grep_document meta_config meta_document World.initial = .ret () World.initial ∧
      grep_meta meta_config (.root meta_root) (lit "m.odt") World.initial =
        .ret true { match_count := 1, status := .success,
                    console := { cout := lit "m.odt<title>: a title\n", cerr := [] } } := by
  decide

/-- C19 (fails on the code): `grep_document` passes `document` to
`finish_file`, not the label it passes to `match`.  For `odfgrep -c a x.odt`,
one document and no file name option (so that `print_filename` becomes
`never`), the line written is `x.odt: 3` and not `3`; with two documents each
line has its label, also when the option `-h` has set `print_filename` to
`never`. -/
theorem count_prints_label_for_single_document :
    resolved_print_filename (example_globals (some count) (lit "a") [lit "x.odt"]) = .never ∧
      main example_env (example_globals (some count) (lit "a") [lit "x.odt"]) World.initial =
        .ret 0 { match_count := 3, status := .success,
                 console := { cout := lit "x.odt: 3\n", cerr := [] } } ∧
      main example_env (example_globals (some count) (lit "a") [lit "x.odt", lit "n.odt"])
          World.initial =
        .ret 0 { match_count := 0, status := .success,
                 console := { cout := lit "x.odt: 3\nn.odt: 0\n", cerr := [] } } ∧
      main example_env
          { example_globals (some count) (lit "a") [lit "x.odt", lit "n.odt"] with
            print_filename := .never }
          World.initial =
        .ret 0 { match_count := 0, status := .success,
                 console := { cout := lit "x.odt: 3\nn.odt: 0\n", cerr := [] } } := by
  decide

/-! ### Claims on the actions -/

/-- Under `echo_file`, offering a list of units leaves the state as it was (no
unit acted on) or as one call of `perform` leaves it. -/
theorem offer_all_echo_file (cfg : Config) (hact : cfg.act = echo_file) (filename : std_string) :
    ∀ (units : List std_string) (w : World),
      (offer_all (match_ cfg) filename units w).state = w ∨
      (offer_all (match_ cfg) filename units w).state =
        { match_count := w.match_count + 1, status := .success,
          console := w.console.put (filename ++ lit "\n") } := by
  intro units
  induction units with
  | nil => intro w; exact Or.inl rfl
  | cons u us ih =>
    intro w
    rcases decodes_or_not u with ⟨wide, hwide, _⟩ | hno
    · simp only [offer_all, match_of_decoded cfg u filename w wide hwide]
      by_cases hA : is_accepted cfg wide = true
      · by_cases hcap : cfg.max_count = 0 ∨ w.match_count ≠ cfg.max_count
        · right
          simp [hA, hcap, hact, echo_file, World.with_console, Ctl.lift, Ctl.bind, Ctl.state]
        · simp only [hA, if_true, if_neg hcap]
          exact ih w
      · simp only [hA, Bool.false_eq_true, if_false]
        exact ih w
    · left
      simp [offer_all, match_of_undecodable cfg u filename w hno, Ctl.state]

/-- C20: `echo_file::perform` writes the label and a newline and returns
`false`; so the walk of a content tree under `echo_file` calls `perform` at
most once: whatever the tree, it leaves the state as it was or as exactly one
call of `perform` (one line written, the match count one higher, the status
`success`) leaves it. -/
theorem echo_file_performs_at_most_once (cfg : Config) (sd : Bool) (parent : xmlNode)
    (label : std_string) (w : World) (hparent : parent ≠ .null) :
    (∀ text lbl c, echo_file.perform text lbl c = .ret false (c.put (lbl ++ lit "\n"))) ∧
    ((grep_node (match_ { cfg with act := echo_file }) sd parent label w).state = w ∨
     (grep_node (match_ { cfg with act := echo_file }) sd parent label w).state =
        { match_count := w.match_count + 1, status := .success,
          console := w.console.put (label ++ lit "\n") }) := by
  refine ⟨fun _ _ _ => rfl, ?_⟩
  rcases parent with _ | ⟨name, content, children, next⟩
  · exact absurd rfl hparent
  · simp only [grep_node, grep_node_loop_eq_offer_all]
    exact offer_all_echo_file _ rfl label _ w

theorem echo_file_performs_at_most_once_witness :
    grep_node (match_ { example_config false 0 count with act := echo_file }) false
        (.node (lit "text") [] (paragraphs [lit "a1", lit "b", lit "a2"]) .null) (lit "x.odt")
        World.initial =
      .ret false { match_count := 1, status := .success,
                   console := { cout := lit "x.odt\n", cerr := [] } } ∧
    ((grep_node (match_ { example_config false 0 count with act := echo_file }) false
        (.node (lit "text") [] (paragraphs [lit "a1", lit "b", lit "a2"]) .null) (lit "x.odt")
        World.initial).state = World.initial ∨
     (grep_node (match_ { example_config false 0 count with act := echo_file }) false
        (.node (lit "text") [] (paragraphs [lit "a1", lit "b", lit "a2"]) .null) (lit "x.odt")
        World.initial).state =
        { match_count := World.initial.match_count + 1, status := .success,
          console := World.initial.console.put (lit "x.odt" ++ lit "\n") }) :=
  ⟨by decide,
   (echo_file_performs_at_most_once (example_config false 0 count) false
    (.node (lit "text") [] (paragraphs [lit "a1", lit "b", lit "a2"]) .null) (lit "x.odt")
    World.initial (by decide)).2⟩

/-- C21 (fails on the code): `echo_file::perform` writes the label `match`
passes on, which is `emptystr` when file names are not printed.  For
`odfgrep -l a x.odt`, one document and no file name option, the line written
for the matching document is empty and not `x.odt`; with two documents named
the name is written. -/
theorem files_with_match_prints_empty_line_for_single_document :
    main example_env (example_globals (some echo_file) (lit "a") [lit "x.odt"]) World.initial =
        .ret 0 { match_count := 1, status := .success,
                 console := { cout := lit "\n", cerr := [] } } ∧
      main example_env (example_globals (some echo_file) (lit "a") [lit "x.odt", lit "n.odt"])
          World.initial =
        .ret 0 { match_count := 0, status := .success,
                 console := { cout := lit "x.odt\n", cerr := [] } } := by
  decide

/-- C22: `echo_nomatch::perform` writes nothing and returns `false`;
`echo_nomatch::finish_file` writes the label and a newline exactly when the
count is 0, and nothing otherwise. -/
theorem echo_nomatch_writes_label_iff_count_zero :
    (∀ (text label : std_string) (c : Console),
      echo_nomatch.perform text label c = .ret false c) ∧
    (∀ (label : std_string) (n : Int) (c : Console),
      echo_nomatch.finish_file label n c =
        .ret () (if n = 0 then { c with cout := c.cout ++ label ++ lit "\n" } else c)) := by
  refine ⟨fun _ _ _ => rfl, ?_⟩
  intro label n c
  by_cases h : n = 0
  · simp [echo_nomatch, h, Console.put]
  · simp [echo_nomatch, h]

/-- C23: `echo_text::perform` returns `true` and writes the label, `: `, the
text and a newline; with an empty label it writes the text and a newline
only. -/
theorem echo_text_writes_label_and_text (text label : std_string) (c : Console) :
    echo_text.perform text label c =
      .ret true
        { c with
          cout := c.cout ++ (if label = [] then [] else label ++ lit ": ") ++ text ++ lit "\n" } := by
  by_cases h : label = []
  · simp [echo_text, h, Console.put]
  · simp [echo_text, h, Console.put]

/-- C28: when `a` decodes to `x`, `a ++ b` decodes to `x ++ y` if `b` decodes
to `y`, and fails with the encoding error if `b` does; so `a ++ b` decodes
only if `b` does. -/
theorem utf8_to_utf32_distributes_over_append (a b : std_string) (x : std_wstring)
    (ha : utf8_to_utf32 a = .ok x) :
    (∀ y, utf8_to_utf32 b = .ok y → utf8_to_utf32 (a ++ b) = .ok (x ++ y)) ∧
    (utf8_to_utf32 b = invalid_utf8 → utf8_to_utf32 (a ++ b) = invalid_utf8) ∧
    ((∀ y, utf8_to_utf32 b ≠ .ok y) → ∀ z, utf8_to_utf32 (a ++ b) ≠ .ok z) := by
  have h := utf8_to_utf32_append_ok a b x ha
  refine ⟨?_, ?_, ?_⟩
  · intro y hy
    rw [h, hy]
    rfl
  · intro hb
    rw [h, hb]
    rfl
  · intro hb z hz
    rcases utf8_to_utf32_ok_or_invalid b with ⟨y, hy⟩ | hinv
    · exact hb y hy
    · rw [h, hinv] at hz
      simp [invalid_utf8, Decode.prepend] at hz

theorem utf8_to_utf32_distributes_over_append_witness :
    utf8_to_utf32 ([0x41, 0xC3, 0xA9] ++ [0xE2, 0x82, 0xAC]) = .ok ([0x41, 0xE9] ++ [0x20AC]) ∧
      utf8_to_utf32 ([0x41, 0xC3, 0xA9] ++ [0xE2, 0x82]) = invalid_utf8 :=
  ⟨(utf8_to_utf32_distributes_over_append [0x41, 0xC3, 0xA9] [0xE2, 0x82, 0xAC] [0x41, 0xE9]
      (by decide)).1 [0x20AC] (by decide),
   (utf8_to_utf32_distributes_over_append [0x41, 0xC3, 0xA9] [0xE2, 0x82] [0x41, 0xE9]
      (by decide)).2.1 (by decide)⟩

/-! ### Complete units and the standard encoding -/

theorem one_byte_bits (b : Nat) (h : b ≤ 0x7F) : b &&& 0x80 = 0 := by
  have key : ∀ c, c < 128 → c &&& 0x80 = 0 := by
    set_option maxRecDepth 100000 in decide
  exact key b (by omega)

theorem lead_c0_df_bits (b : Nat) (h1 : 0xC0 ≤ b) (h2 : b ≤ 0xDF) : b &&& 0xe0 = 0xc0 := by
  have key : ∀ c, c < 32 → (c + 0xC0) &&& 0xe0 = 0xc0 := by decide
  have := key (b - 0xC0) (by omega)
  rwa [Nat.sub_add_cancel h1] at this

theorem lead_e0_ef_bits (b : Nat) (h1 : 0xE0 ≤ b) (h2 : b ≤ 0xEF) : b &&& 0xf0 = 0xe0 := by
  have key : ∀ c, c < 16 → (c + 0xE0) &&& 0xf0 = 0xe0 := by decide
  have := key (b - 0xE0) (by omega)
  rwa [Nat.sub_add_cancel h1] at this

theorem lead_f0_ff_bits (b : Nat) (h1 : 0xF0 ≤ b) (h2 : b ≤ 0xFF) : b &&& 0xf0 = 0xf0 := by
  have key : ∀ c, c < 16 → (c + 0xF0) &&& 0xf0 = 0xf0 := by decide
  have := key (b - 0xF0) (by omega)
  rwa [Nat.sub_add_cancel h1] at this

theorem is_continuation_bits (b : Nat) (h : is_continuation b = true) : b &&& 0xc0 = 0x80 := by
  simp only [is_continuation, decide_eq_true_eq] at h
  exact (continuation_byte_bits b h.1 h.2).2

/-- A complete unit in front of a buffer is decoded to one code point, and
decoding goes on behind it. -/
theorem complete_unit_step (bs : List Nat) (h : is_complete_unit bs = true) :
    ∃ c, ∀ rest, utf8_to_utf32 (bs ++ rest) = (utf8_to_utf32 rest).prepend [c] := by
  rcases bs with _ | ⟨b0, _ | ⟨b1, _ | ⟨b2, _ | ⟨b3, _ | ⟨b4, r⟩⟩⟩⟩⟩
  · simp [is_complete_unit] at h
  · simp only [is_complete_unit, decide_eq_true_eq] at h
    exact ⟨b0, fun rest => utf8_head_one b0 rest (one_byte_bits b0 h)⟩
  · simp only [is_complete_unit, Bool.and_eq_true, decide_eq_true_eq] at h
    obtain ⟨⟨h1, h2⟩, c1⟩ := h
    have hl := lead_c0_df_bits b0 h1 h2
    obtain ⟨a1, a2⟩ := lead_two_bits b0 hl
    refine ⟨((b0 &&& 0x1f) <<< 6) ||| (b1 &&& 0x3f), fun rest => ?_⟩
    rw [List.cons_append, utf8_head_two b0 _ a1 a2 hl]
    simp only [List.cons_append, List.nil_append, is_continuation_bits b1 c1, if_true]
  · simp only [is_complete_unit, Bool.and_eq_true, decide_eq_true_eq] at h
    obtain ⟨⟨⟨h1, h2⟩, c1⟩, c2⟩ := h
    have hl := lead_e0_ef_bits b0 h1 h2
    obtain ⟨a1, a2, a3⟩ := lead_three_bits b0 hl
    refine ⟨((b0 &&& 0x0f) <<< 12) ||| ((b1 &&& 0x3f) <<< 6) ||| (b2 &&& 0x3f),
      fun rest => ?_⟩
    rw [List.cons_append, utf8_head_three b0 _ a1 a2 a3 hl]
    simp only [List.cons_append, List.nil_append, is_continuation_bits b1 c1,
      is_continuation_bits b2 c2, and_self, if_true]
  · simp only [is_complete_unit, Bool.and_eq_true, decide_eq_true_eq] at h
    obtain ⟨⟨⟨⟨h1, h2⟩, c1⟩, c2⟩, c3⟩ := h
    have hl := lead_f0_ff_bits b0 h1 (by omega)
    obtain ⟨a1, a2, a3, _⟩ := lead_four_bits b0 hl
    refine ⟨((b0 &&& 0x07) <<< 16) ||| ((b1 &&& 0x3f) <<< 12) ||| ((b2 &&& 0x3f) <<< 6)
      ||| (b3 &&& 0x3f), fun rest => ?_⟩
    rw [List.cons_append, utf8_head_four b0 _ a1 a2 a3 hl]
    simp only [List.cons_append, List.nil_append, is_continuation_bits b1 c1,
      is_continuation_bits b2 c2, is_continuation_bits b3 c3, and_self, if_true]
  · simp [is_complete_unit] at h

/-- C26: a buffer made of complete units decodes, to one code point per unit,
each unit giving the code point it gives alone, with no check for overlong
encodings or surrogates: `C0 80` decodes to `[0]` and `ED A0 80` to
`[0xD800]`. -/
theorem utf8_structural_check_only (units : List (List Nat))
    (h : ∀ bs ∈ units, is_complete_unit bs = true) :
    (∃ cs, utf8_to_utf32 (concat_units units) = .ok cs ∧ cs.length = units.length ∧
      List.Forall₂ (fun bs c => utf8_to_utf32 bs = .ok [c]) units cs) ∧
    utf8_to_utf32 [0xC0, 0x80] = .ok [0] ∧
    utf8_to_utf32 [0xED, 0xA0, 0x80] = .ok [0xD800] := by
  refine ⟨?_, by decide, by decide⟩
  induction units with
  | nil => exact ⟨[], utf8_to_utf32_nil, rfl, List.Forall₂.nil⟩
  | cons u us ih =>
    obtain ⟨cs, hcs, hlen, hall⟩ := ih (fun bs hbs => h bs (List.mem_cons_of_mem _ hbs))
    obtain ⟨c, hc⟩ := complete_unit_step u (h u (List.mem_cons_self _ _))
    refine ⟨c :: cs, ?_, by simp [hlen], List.Forall₂.cons ?_ hall⟩
    · simp only [concat_units, hc, hcs]
      rfl
    · have := hc []
      rw [List.append_nil, utf8_to_utf32_nil] at this
      exact this

theorem utf8_structural_check_only_witness :
    ∃ cs, utf8_to_utf32 (concat_units [[0xC0, 0x80], [0x41], [0xED, 0xA0, 0x80],
        [0xF0, 0x9F, 0x98, 0x80]]) = .ok cs ∧
      cs.length = [[0xC0, 0x80], [0x41], [0xED, 0xA0, 0x80], [0xF0, 0x9F, 0x98, 0x80]].length ∧
      List.Forall₂ (fun bs c => utf8_to_utf32 bs = .ok [c])
        [[0xC0, 0x80], [0x41], [0xED, 0xA0, 0x80], [0xF0, 0x9F, 0x98, 0x80]] cs :=
  (utf8_structural_check_only [[0xC0, 0x80], [0x41], [0xED, 0xA0, 0x80],
    [0xF0, 0x9F, 0x98, 0x80]] (by decide)).1

theorem and_63 (c : Nat) : c &&& 0x3F = c % 64 :=
  Nat.and_pow_two_sub_one_eq_mod c 6

theorem two_byte_value (c : Nat) : ((c >>> 6) <<< 6) ||| (c &&& 0x3F) = c := by
  have h := Nat.mul_add_lt_is_or (i := 6) (b := c % 64) (Nat.mod_lt _ (by decide)) (c / 64)
  rw [and_63, Nat.shiftRight_eq_div_pow, Nat.shiftLeft_eq, Nat.mul_comm, ← h]
  have : (2 : Nat) ^ 6 = 64 := by decide
  omega

theorem three_byte_value (c : Nat) :
    ((c >>> 12) <<< 12) ||| (((c >>> 6) &&& 0x3F) <<< 6) ||| (c &&& 0x3F) = c := by
  have e6 : (2 : Nat) ^ 6 = 64 := by decide
  have e12 : (2 : Nat) ^ 12 = 4096 := by decide
  have h1 := Nat.mul_add_lt_is_or (i := 12) (b := (c / 64) % 64 * 64)
    (by rw [e12]; omega) (c / 4096)
  have h2 := Nat.mul_add_lt_is_or (i := 6) (b := c % 64) (Nat.mod_lt _ (by decide))
    (64 * (c / 4096) + (c / 64) % 64)
  have h3 : 2 ^ 12 * (c / 4096) + (c / 64) % 64 * 64 =
      2 ^ 6 * (64 * (c / 4096) + (c / 64) % 64) := by
    rw [e6, e12]; omega
  rw [and_63, and_63, Nat.shiftRight_eq_div_pow, Nat.shiftRight_eq_div_pow, Nat.shiftLeft_eq,
    Nat.shiftLeft_eq, e6, e12, Nat.mul_comm (c / 4096) 4096]
  rw [e12] at h1 h3
  rw [← h1, h3, ← h2, e6]
  omega

theorem lead_two_value (a : Nat) (h : a < 32) :
    (0xC0 ||| a) &&& 0xe0 = 0xc0 ∧ (0xC0 ||| a) &&& 0x1f = a := by
  revert a
  decide

theorem lead_three_value (a : Nat) (h : a < 16) :
    (0xE0 ||| a) &&& 0xf0 = 0xe0 ∧ (0xE0 ||| a) &&& 0x0f = a := by
  revert a
  decide

theorem continuation_value (d : Nat) (h : d < 64) :
    (0x80 ||| d) &&& 0xc0 = 0x80 ∧ (0x80 ||| d) &&& 0x3f = d := by
  revert d
  decide

/-- The standard encoding of a code point below U+10000 in front of a buffer
is decoded to that code point, and decoding goes on behind it. -/
theorem encode_scalar_step (c : Nat) (h : c < 0x10000) (rest : std_string) :
    utf8_to_utf32 (utf8_encode_scalar c ++ rest) = (utf8_to_utf32 rest).prepend [c] := by
  unfold utf8_encode_scalar
  by_cases h1 : c < 0x80
  · rw [if_pos h1]
    exact utf8_head_one c rest (one_byte_bits c (by omega))
  · rw [if_neg h1]
    by_cases h2 : c < 0x800
    · rw [if_pos h2]
      have ha : c >>> 6 < 32 := by rw [Nat.shiftRight_eq_div_pow]; omega
      have hd : c &&& 0x3F < 64 := by rw [and_63]; omega
      obtain ⟨l1, l2⟩ := lead_two_value (c >>> 6) ha
      obtain ⟨k1, k2⟩ := continuation_value (c &&& 0x3F) hd
      obtain ⟨a1, a2⟩ := lead_two_bits _ l1
      rw [List.cons_append, utf8_head_two _ _ a1 a2 l1]
      simp only [List.cons_append, List.nil_append, k1, if_true, l2, k2, two_byte_value]
    · rw [if_neg h2, if_pos h]
      have ha : c >>> 12 < 16 := by rw [Nat.shiftRight_eq_div_pow]; omega
      have hb : (c >>> 6) &&& 0x3F < 64 := by rw [and_63]; omega
      have hd : c &&& 0x3F < 64 := by rw [and_63]; omega
      obtain ⟨l1, l2⟩ := lead_three_value (c >>> 12) ha
      obtain ⟨j1, j2⟩ := continuation_value ((c >>> 6) &&& 0x3F) hb
      obtain ⟨k1, k2⟩ := continuation_value (c &&& 0x3F) hd
      obtain ⟨a1, a2, a3⟩ := lead_three_bits _ l1
      rw [List.cons_append, utf8_head_three _ _ a1 a2 a3 l1]
      simp only [List.cons_append, List.nil_append, j1, k1, and_self, if_true, l2, j2, k2,
        three_byte_value]

/-- C25: the standard UTF-8 encoding of a sequence of code points below
U+10000 decodes to that sequence; a one-byte unit gives the byte value, a
two-byte unit `((b0 & 0x1F) << 6) | (b1 & 0x3F)` and a three-byte unit
`((b0 & 0x0F) << 12) | ((b1 & 0x3F) << 6) | (b2 & 0x3F)`. -/
theorem utf8_roundtrip_below_10000 (cs : List Nat) (h : ∀ c ∈ cs, c < 0x10000) :
    utf8_to_utf32 (utf8_encode cs) = .ok cs ∧
    (∀ b0, b0 ≤ 0x7F → utf8_to_utf32 [b0] = .ok [b0]) ∧
    (∀ b0 b1, 0xC0 ≤ b0 ∧ b0 ≤ 0xDF → 0x80 ≤ b1 ∧ b1 ≤ 0xBF →
      utf8_to_utf32 [b0, b1] = .ok [((b0 &&& 0x1F) <<< 6) ||| (b1 &&& 0x3F)]) ∧
    (∀ b0 b1 b2, 0xE0 ≤ b0 ∧ b0 ≤ 0xEF → 0x80 ≤ b1 ∧ b1 ≤ 0xBF → 0x80 ≤ b2 ∧ b2 ≤ 0xBF →
      utf8_to_utf32 [b0, b1, b2] =
        .ok [((b0 &&& 0x0F) <<< 12) ||| ((b1 &&& 0x3F) <<< 6) ||| (b2 &&& 0x3F)]) := by
  refine ⟨?_, ?_, ?_, ?_⟩
  · induction cs with
    | nil => exact utf8_to_utf32_nil
    | cons c cs ih =>
      rw [utf8_encode, encode_scalar_step c (h c (List.mem_cons_self _ _)),
        ih (fun x hx => h x (List.mem_cons_of_mem _ hx))]
      rfl
  · intro b0 h0
    rw [utf8_head_one b0 [] (one_byte_bits b0 h0), utf8_to_utf32_nil]
    rfl
  · intro b0 b1 h0 h1
    have hl := lead_c0_df_bits b0 h0.1 h0.2
    obtain ⟨a1, a2⟩ := lead_two_bits b0 hl
    rw [utf8_head_two b0 _ a1 a2 hl]
    simp only [(continuation_byte_bits b1 h1.1 h1.2).2, if_true, utf8_to_utf32_nil]
    rfl
  · intro b0 b1 b2 h0 h1 h2
    have hl := lead_e0_ef_bits b0 h0.1 h0.2
    obtain ⟨a1, a2, a3⟩ := lead_three_bits b0 hl
    rw [utf8_head_three b0 _ a1 a2 a3 hl]
    simp only [(continuation_byte_bits b1 h1.1 h1.2).2, (continuation_byte_bits b2 h2.1 h2.2).2,
      and_self, if_true, utf8_to_utf32_nil]
    rfl

theorem utf8_roundtrip_below_10000_witness :
    utf8_to_utf32 (utf8_encode [0x41, 0xE9, 0x20AC, 0xD800, 0xFFFF]) =
      .ok [0x41, 0xE9, 0x20AC, 0xD800, 0xFFFF] :=
  (utf8_roundtrip_below_10000 [0x41, 0xE9, 0x20AC, 0xD800, 0xFFFF] (by decide)).1

/-! ### Deleted text -/

/-- With an engine that records and always answers `true`, every text of the
list is offered. -/
theorem offer_all_recorder_true (filename : std_string) (ts offered : List std_string) :
    offer_all (recorder fun _ => true) filename ts offered = .ret true (offered ++ ts) := by
  induction ts generalizing offered with
  | nil => simp [offer_all]
  | cons t ts ih => simp [offer_all, recorder, ih]

/-- The nodes listed without deleted text are a sublist of those listed with
deleted text. -/
theorem unit_nodes_sublist (first : xmlNode) :
    (unit_nodes false first).Sublist (unit_nodes true first) := by
  induction first with
  | null => simp [unit_nodes]
  | node name content children next ihc ihn =>
    simp only [unit_nodes]
    refine List.Sublist.append ?_ ihn
    by_cases hp : name = lit "p" ∨ name = lit "h"
    · simp only [if_pos hp]
      exact List.Sublist.refl _
    · simp only [if_neg hp]
      by_cases hd : name = lit "deletion"
      · simp [hd]
      · simpa [hd] using ihc

/-- Without a `deletion` node outside `p` and `h`, the same nodes are listed
with and without deleted text. -/
theorem unit_nodes_eq_of_no_deletion (first : xmlNode)
    (h : has_deletion_outside first = false) :
    unit_nodes false first = unit_nodes true first := by
  induction first with
  | null => simp [unit_nodes]
  | node name content children next ihc ihn =>
    simp only [unit_nodes]
    by_cases hp : name = lit "p" ∨ name = lit "h"
    · simp only [has_deletion_outside, if_pos hp] at h
      simp only [if_pos hp, ihn h]
    · simp only [has_deletion_outside, if_neg hp, Bool.or_eq_false_iff,
        decide_eq_false_iff_not] at h
      obtain ⟨⟨hd, hc⟩, hn⟩ := h
      simp only [if_neg hp, hd, false_and, if_false, ihc hc, ihn hn]

/-- C30: for every content tree, when every offer returns `true` (continue),
the sequence of text units `grep_node` offers with search-deleted off is a
subsequence of the one it offers with search-deleted on, and the two are equal
when the tree has no node named `deletion` outside `p` and `h` nodes. -/
theorem grep_node_deleted_off_subsequence_of_on (parent : xmlNode) (filename : std_string)
    (hparent : parent ≠ .null) :
    ∃ without with_deleted : List std_string,
      grep_node (recorder fun _ => true) false parent filename [] = .ret true without ∧
      grep_node (recorder fun _ => true) true parent filename [] = .ret true with_deleted ∧
      without.Sublist with_deleted ∧
      (has_deletion_outside parent.children = false → without = with_deleted) := by
  cases parent with
  | null => exact absurd rfl hparent
  | node name content children next =>
    refine ⟨text_units false children, text_units true children, ?_, ?_, ?_, ?_⟩
    · simp [grep_node, grep_node_loop_eq_offer_all, offer_all_recorder_true]
    · simp [grep_node, grep_node_loop_eq_offer_all, offer_all_recorder_true]
    · exact (unit_nodes_sublist children).map get_content
    · intro h
      simp only [text_units, xmlNode.children] at h ⊢
      rw [unit_nodes_eq_of_no_deletion children h]

theorem grep_node_deleted_off_subsequence_of_on_witness :
    ∃ without with_deleted : List std_string,
      grep_node (recorder fun _ => true) false example_text (lit "a.odt") [] = .ret true without ∧
      grep_node (recorder fun _ => true) true example_text (lit "a.odt") [] = .ret true with_deleted ∧
      without.Sublist with_deleted ∧
      (has_deletion_outside example_text.children = false → without = with_deleted) :=
  grep_node_deleted_off_subsequence_of_on example_text (lit "a.odt") (by decide)

/-! ### The command line -/

/-- C27 (fails on the code): `case 'm'` of `parse_func` has no `break`.  For
every argument that `strtol` converts to its end, processing `-m COUNT` sets
`max_count` to the number and also sets `search_meta` to `true`, whatever it
was before; nothing else changes and 0 is returned. -/
theorem max_count_option_sets_search_meta (penv : ParseEnv) (arg : std_string) (st : Parse)
    (h : (strtol arg).2 = []) :
    parse_func penv (.option 'm') arg st =
      .ret 0 { st with
        globals := { st.globals with max_count := (strtol arg).1, search_meta := true } } := by
  simp [parse_func, h]

theorem max_count_option_sets_search_meta_witness :
    strtol (lit "2") = (2, []) ∧ Parse.initial.globals.search_meta = false ∧
      parse_func example_parse_env (.option 'm') (lit "2") Parse.initial =
        .ret 0 { Parse.initial with
          globals := { Parse.initial.globals with
            max_count := (strtol (lit "2")).1, search_meta := true } } :=
  ⟨by decide, rfl,
    max_count_option_sets_search_meta example_parse_env (lit "2") Parse.initial (by decide)⟩

/-- The command line `odfgrep -m 2 a x.odt` against `odfgrep a x.odt`, for a
document without a `meta.xml`: with the option the meta stream is asked for,
the document is not searched and the exit code is 2; without it the three
matching paragraphs are printed and the exit code is 0. -/
theorem max_count_option_run_example :
    (∃ st, parse_calls example_parse_env
        [(.option 'm', lit "2"), (.ARGP_KEY_ARG, lit "a"), (.ARGP_KEY_ARG, lit "x.odt")]
        Parse.initial = .ret 0 st ∧
      st.globals.search_meta = true ∧
      main example_env st.globals World.initial =
        .ret 2 { match_count := 0, status := .io_error,
                 console := { cout := [], cerr := lit "x.odt: no such file\n" } }) ∧
    (∃ st, parse_calls example_parse_env
        [(.ARGP_KEY_ARG, lit "a"), (.ARGP_KEY_ARG, lit "x.odt")] Parse.initial = .ret 0 st ∧
      st.globals.search_meta = false ∧
      main example_env st.globals World.initial =
        .ret 0 { match_count := 3, status := .success,
                 console := { cout := lit "a1\na2\na3\n", cerr := [] } }) := by
  refine ⟨⟨_, rfl, rfl, ?_⟩, ⟨_, rfl, rfl, ?_⟩⟩
  · decide
  · decide

/-! ### The match count -/

theorem with_console_state {α : Type} (w : World) (r : Ctl Console α) :
    (w.with_console r).state = { w with console := r.state } := by
  cases r <;> rfl

theorem reachable_with_console {α : Type} (cfg : Config) (w : World) (r : Ctl Console α)
    (h : Reachable cfg w) : Reachable cfg (w.with_console r).state := by
  rw [with_console_state]
  exact Reachable.other w w.status r.state h

theorem reachable_bind {α β : Type} (cfg : Config) (r : Ctl World α)
    (k : α → World → Ctl World β) (hr : Reachable cfg r.state)
    (hk : ∀ a s, Reachable cfg s → Reachable cfg (k a s).state) :
    Reachable cfg (r.bind k).state := by
  cases r with
  | ret a s => exact hk a s hr
  | throw e s => exact hr
  | exit code s => exact hr
  | abort s => exact hr

theorem reachable_offer_all (cfg : Config) (filename : std_string) (ts : List std_string)
    (w : World) (h : Reachable cfg w) :
    Reachable cfg (offer_all (match_ cfg) filename ts w).state := by
  induction ts generalizing w with
  | nil => exact h
  | cons t ts ih =>
    have hm := Reachable.call_match w t filename h
    simp only [offer_all]
    rcases hr : match_ cfg t filename w with ⟨_ | _, s1⟩ | ⟨e, s1⟩ | ⟨code, s1⟩ | s1
    all_goals rw [hr] at hm
    · exact hm
    · exact ih s1 hm
    all_goals exact hm

theorem reachable_grep_node (cfg : Config) (parent : xmlNode) (filename : std_string)
    (w : World) (h : Reachable cfg w) :
    Reachable cfg (grep_node (match_ cfg) cfg.search_deleted parent filename w).state := by
  cases parent with
  | null => exact h
  | node name content children next =>
    simp only [grep_node, grep_node_loop_eq_offer_all]
    exact reachable_offer_all cfg filename _ w h

theorem reachable_grep_body_loop (cfg : Config) (filename : std_string) (node : xmlNode)
    (w : World) (h : Reachable cfg w) :
    Reachable cfg (grep_body_loop cfg filename node w).state := by
  induction node with
  | null => exact h
  | node name content children next _ ihn =>
    simp only [grep_body_loop]
    split
    · exact reachable_bind cfg _ _ (reachable_grep_node cfg _ filename w h) (fun _ s hs => hs)
    · exact ihn

theorem reachable_grep_body (cfg : Config) (parent : xmlNode) (filename : std_string)
    (w : World) (h : Reachable cfg w) :
    Reachable cfg (grep_body cfg parent filename w).state := by
  cases parent with
  | null => exact h
  | node name content children next => exact reachable_grep_body_loop cfg filename children w h

theorem reachable_grep_content_loop (cfg : Config) (filename : std_string) (node : xmlNode)
    (w : World) (h : Reachable cfg w) :
    Reachable cfg (grep_content_loop cfg filename node w).state := by
  induction node with
  | null => exact h
  | node name content children next _ ihn =>
    simp only [grep_content_loop]
    split
    · exact reachable_grep_body cfg _ filename w h
    · exact ihn

theorem reachable_grep_content (cfg : Config) (file : ZipFile) (filename : std_string)
    (w : World) (h : Reachable cfg w) :
    Reachable cfg (grep_content cfg file filename w).state := by
  rcases file with what | _ | ⟨name, content, children, next⟩
  · exact h
  · exact h
  · exact reachable_grep_content_loop cfg filename children w h

theorem reachable_grep_document_try (cfg : Config) (d : Document) (w : World)
    (h : Reachable cfg w) : Reachable cfg (grep_document_try cfg d w).state := by
  unfold grep_document_try
  cases d.zip with
  | error what => exact h
  | ok zip =>
    have h0 : Reachable cfg { w with match_count := 0 } := Reachable.reset w h
    refine reachable_bind cfg _ _ ?_ ?_
    · by_cases hm : cfg.search_meta = true
      · simp only [hm, if_true]
        cases zip.member "meta.xml" with
        | error what => exact h0
        | ok meta_xml => exact reachable_grep_content cfg meta_xml _ _ h0
      · simp only [hm]
        exact h0
    · intro _ s hs
      cases zip.member "content.xml" with
      | error what => exact hs
      | ok content => exact reachable_grep_content cfg content _ s hs

theorem reachable_grep_document (cfg : Config) (d : Document) (w : World)
    (h : Reachable cfg w) : Reachable cfg (grep_document cfg d w).state := by
  unfold grep_document
  refine reachable_bind cfg _ _ (reachable_with_console cfg w _ h) ?_
  intro _ wi hi
  have ht := reachable_grep_document_try cfg d wi hi
  rcases hr : grep_document_try cfg d wi with ⟨_, w1⟩ | ⟨e, w1⟩ | ⟨code, w1⟩ | w1
  all_goals rw [hr] at ht
  · exact reachable_with_console cfg w1 _ ht
  · cases e with
    | runtime_error what => exact ht
    | zip_exception what =>
      exact reachable_with_console cfg _ _ (Reachable.other w1 .io_error _ ht)
  · exact ht
  · exact ht

theorem reachable_for_each (cfg : Config) (docs : List Document) (w : World)
    (h : Reachable cfg w) : Reachable cfg (for_each_grep_document cfg docs w).state := by
  induction docs generalizing w with
  | nil => exact h
  | cons d ds ih =>
    exact reachable_bind cfg _ _ (reachable_grep_document cfg d w h) (fun _ s hs => ih s hs)

theorem reachable_run (cfg : Config) (docs : List Document) (w : World)
    (h : Reachable cfg w) : Reachable cfg (run cfg docs w).state := by
  have hs : Reachable cfg (search_documents cfg docs w).state :=
    reachable_bind cfg _ _ (reachable_for_each cfg docs w h)
      (fun _ s hs => reachable_with_console cfg s _ hs)
  unfold run
  rcases hr : search_documents cfg docs w with ⟨_, w1⟩ | ⟨e, w1⟩ | ⟨code, w1⟩ | w1
  all_goals rw [hr] at hs
  · exact hs
  · exact Reachable.other w1 .io_error _ hs
  · exact hs
  · exact hs

/-- A call of `match` never decreases the count and increases it by at most
one. -/
theorem match_count_step (cfg : Config) (text filename : std_string) (w : World) :
    w.match_count ≤ (match_ cfg text filename w).state.match_count ∧
      (match_ cfg text filename w).state.match_count ≤ w.match_count + 1 ∧
      ((match_ cfg text filename w).state.match_count = w.match_count + 1 →
        cfg.max_count = 0 ∨ w.match_count ≠ cfg.max_count) := by
  unfold match_
  cases utf8_to_utf32 text with
  | runtime_error what => simp [Ctl.state]
  | assertion_failed => simp [Ctl.state]
  | out_of_bounds => simp [Ctl.state]
  | ok wide =>
    simp only
    split
    · split
      · rename_i hcap
        rcases hp : cfg.act.perform text filename w.console with
          ⟨r, c⟩ | ⟨e, c⟩ | ⟨code, c⟩ | c
        all_goals simp [World.with_console, Ctl.lift, Ctl.bind, Ctl.state, hcap]
      · simp [Ctl.state]
    · simp [Ctl.state]

/-- With a bound, the count of a reachable state is between 0 and the bound. -/
theorem reachable_bounds (cfg : Config) (w : World) (h : Reachable cfg w)
    (hmax : 0 < cfg.max_count) : 0 ≤ w.match_count ∧ w.match_count ≤ cfg.max_count := by
  induction h with
  | start status console => exact ⟨le_refl _, le_of_lt hmax⟩
  | call_match w text filename _ ih =>
    obtain ⟨h1, h2, h3⟩ := match_count_step cfg text filename w
    refine ⟨le_trans ih.1 h1, ?_⟩
    by_cases heq : (match_ cfg text filename w).state.match_count = w.match_count + 1
    · rcases h3 heq with h0 | hne
      · omega
      · have := ih.2
        omega
    · have := ih.2
      omega
  | reset w _ _ => exact ⟨le_refl _, le_of_lt hmax⟩
  | other w status console _ ih => exact ih

/-- C29: in every reachable state of a run (count 0 at program start, changed
only by `match` and by the reset in `grep_document`), with `max_count > 0` the
count is between 0 and `max_count` before and after every call of `match`; for
every `max_count` and every state a call of `match` never decreases the count
and increases it by at most one.  The states a run goes through from a
reachable state are reachable. -/
theorem match_count_within_bound (cfg : Config) (w : World) (h : Reachable cfg w) :
    (0 < cfg.max_count →
      (0 ≤ w.match_count ∧ w.match_count ≤ cfg.max_count) ∧
      ∀ text filename,
        0 ≤ (match_ cfg text filename w).state.match_count ∧
          (match_ cfg text filename w).state.match_count ≤ cfg.max_count) ∧
    (∀ (v : World) (text filename : std_string),
      v.match_count ≤ (match_ cfg text filename v).state.match_count ∧
        (match_ cfg text filename v).state.match_count ≤ v.match_count + 1) ∧
    (∀ docs, Reachable cfg (for_each_grep_document cfg docs w).state ∧
      Reachable cfg (run cfg docs w).state) :=
  ⟨fun hmax => ⟨reachable_bounds cfg w h hmax, fun text filename =>
      reachable_bounds cfg _ (Reachable.call_match w text filename h) hmax⟩,
    fun v text filename =>
      ⟨(match_count_step cfg text filename v).1, (match_count_step cfg text filename v).2.1⟩,
    fun docs => ⟨reachable_for_each cfg docs w h, reachable_run cfg docs w h⟩⟩

theorem match_count_within_bound_witness :
    (run (example_config false 2 echo_text) [example_document] World.initial).state.match_count
        = 2 ∧
      0 ≤ (run (example_config false 2 echo_text) [example_document]
        World.initial).state.match_count ∧
      (run (example_config false 2 echo_text) [example_document]
        World.initial).state.match_count ≤ 2 :=
  ⟨by decide,
    ((match_count_within_bound (example_config false 2 echo_text) _
      (((match_count_within_bound (example_config false 2 echo_text) World.initial
        (Reachable.start .nomatch _)).2.2 [example_document]).2)).1 (by decide)).1⟩

/-! ### The action Quiet -/

theorem exits_of_bind {σ α β : Type} (r : Ctl σ α) (k : α → σ → Ctl σ β)
    (h : (r.bind k).exits = false) : r.exits = false := by
  cases r <;> first | rfl | exact h

theorem bind_congr_unless_exit {σ α β : Type} (r r1 : Ctl σ α) (k k1 : α → σ → Ctl σ β)
    (hr : r.exits = false → r1 = r)
    (hk : ∀ a s, (k a s).exits = false → k1 a s = k a s)
    (h : (r.bind k).exits = false) : r1.bind k1 = r.bind k := by
  rw [hr (exits_of_bind r k h)]
  cases r with
  | ret a s => exact hk a s h
  | throw e s => rfl
  | exit code s => rfl
  | abort s => rfl

/-- A call of `match` under Quiet that does not end the process has not
invoked `perform`. -/
theorem match_quiet_unless_exit (cfg : Config) (hq : cfg.act = quiet)
    (p : std_string → std_string → Console → Ctl Console Bool)
    (text filename : std_string) (w : World)
    (h : (match_ cfg text filename w).exits = false) :
    match_ { cfg with act := quiet_with p } text filename w = match_ cfg text filename w := by
  rcases decodes_or_not text with ⟨wide, hwide, _⟩ | hno
  · rw [match_of_decoded cfg text filename w wide hwide] at h ⊢
    rw [match_of_decoded _ text filename w wide hwide]
    by_cases ha : is_accepted cfg wide = true
    · by_cases hcap : cfg.max_count = 0 ∨ w.match_count ≠ cfg.max_count
      · simp [ha, hcap, hq, quiet, World.with_console, Ctl.lift, Ctl.bind, Ctl.exits] at h
      · have ha1 : is_accepted { cfg with act := quiet_with p } wide = true := ha
        simp only [ha, ha1, hcap, if_true, if_false]
    · have ha1 : ¬ is_accepted { cfg with act := quiet_with p } wide = true := ha
      simp only [ha, ha1, if_false, Bool.false_eq_true]
  · rw [match_of_undecodable cfg text filename w hno,
      match_of_undecodable _ text filename w hno]

theorem offer_all_quiet_unless_exit (cfg : Config) (hq : cfg.act = quiet)
    (p : std_string → std_string → Console → Ctl Console Bool) (filename : std_string)
    (ts : List std_string) (w : World)
    (h : (offer_all (match_ cfg) filename ts w).exits = false) :
    offer_all (match_ { cfg with act := quiet_with p }) filename ts w =
      offer_all (match_ cfg) filename ts w := by
  induction ts generalizing w with
  | nil => rfl
  | cons t ts ih =>
    simp only [offer_all] at h ⊢
    rcases hm : match_ cfg t filename w with ⟨_ | _, s1⟩ | ⟨e, s1⟩ | ⟨code, s1⟩ | s1
    all_goals rw [hm] at h
    all_goals simp only at h
    · rw [match_quiet_unless_exit cfg hq p t filename w (by rw [hm]; rfl), hm]
    · rw [match_quiet_unless_exit cfg hq p t filename w (by rw [hm]; rfl), hm]
      exact ih s1 h
    · rw [match_quiet_unless_exit cfg hq p t filename w (by rw [hm]; rfl), hm]
    · exact absurd h (by simp [Ctl.exits])
    · rw [match_quiet_unless_exit cfg hq p t filename w (by rw [hm]; rfl), hm]

theorem grep_content_quiet_unless_exit (cfg : Config) (hq : cfg.act = quiet)
    (p : std_string → std_string → Console → Ctl Console Bool) (file : ZipFile)
    (filename : std_string) (w : World)
    (h : (grep_content cfg file filename w).exits = false) :
    grep_content { cfg with act := quiet_with p } file filename w =
      grep_content cfg file filename w := by
  rcases file with what | _ | ⟨name, content, children, next⟩
  · rfl
  · rfl
  · have hr : xmlNode.node name content children next ≠ .null := by simp
    rw [grep_content_root cfg filename _ w hr] at h ⊢
    rw [grep_content_root { cfg with act := quiet_with p } filename _ w hr]
    exact bind_congr_unless_exit _ _ _ _
      (offer_all_quiet_unless_exit cfg hq p filename _ w) (fun _ _ _ => rfl) h

theorem grep_document_try_quiet_unless_exit (cfg : Config) (hq : cfg.act = quiet)
    (p : std_string → std_string → Console → Ctl Console Bool) (d : Document) (w : World)
    (h : (grep_document_try cfg d w).exits = false) :
    grep_document_try { cfg with act := quiet_with p } d w = grep_document_try cfg d w := by
  cases hz : d.zip with
  | error what => simp [grep_document_try, hz]
  | ok zip =>
    rw [grep_document_try_ok cfg d zip w hz] at h ⊢
    rw [grep_document_try_ok { cfg with act := quiet_with p } d zip w hz]
    have hmember : ∀ (m : Except std_string ZipFile) (filename : std_string) (s : World),
        (search_member cfg m filename s).exits = false →
        search_member { cfg with act := quiet_with p } m filename s =
          search_member cfg m filename s := by
      intro m filename s hs
      cases m with
      | error what => rfl
      | ok file => exact grep_content_quiet_unless_exit cfg hq p file filename s hs
    refine bind_congr_unless_exit _ _ _ _ ?_ (fun _ s hs => hmember _ _ s hs) h
    intro h1
    have hm1 : ({ cfg with act := quiet_with p } : Config).search_meta = cfg.search_meta := rfl
    rw [hm1]
    by_cases hm : cfg.search_meta = true
    · rw [if_pos hm] at h1
      simp only [if_pos hm]
      exact hmember _ _ _ h1
    · simp only [if_neg hm]

/-- The function `grep_document` under an action with the default `initialize`
and `finish_file`. -/
theorem grep_document_base (cfg : Config) (d : Document) (w : World)
    (hi : cfg.act.initialise = action.base_initialise)
    (hf : cfg.act.finish_file = action.base_finish_file) :
    grep_document cfg d w =
      match grep_document_try cfg d w with
      | .ret _ w1 => .ret () w1
      | .throw (.zip_exception what) w1 =>
        .ret () { w1 with
          console := { w1.console with cerr := w1.console.cerr ++ what ++ lit "\n" },
          status := .io_error }
      | .throw e w1 => .throw e w1
      | .exit code w1 => .exit code w1
      | .abort w1 => .abort w1 := by
  unfold grep_document
  rw [hi, hf]
  rfl

theorem grep_document_quiet_unless_exit (cfg : Config) (hq : cfg.act = quiet)
    (p : std_string → std_string → Console → Ctl Console Bool) (d : Document) (w : World)
    (h : (grep_document cfg d w).exits = false) :
    grep_document { cfg with act := quiet_with p } d w = grep_document cfg d w := by
  rw [grep_document_base cfg d w (by rw [hq]; rfl) (by rw [hq]; rfl)] at h ⊢
  rw [grep_document_base { cfg with act := quiet_with p } d w rfl rfl]
  rcases ht : grep_document_try cfg d w with ⟨_, w1⟩ | ⟨e, w1⟩ | ⟨code, w1⟩ | w1
  all_goals rw [ht] at h
  · rw [grep_document_try_quiet_unless_exit cfg hq p d w (by rw [ht]; rfl), ht]
  · rw [grep_document_try_quiet_unless_exit cfg hq p d w (by rw [ht]; rfl), ht]
  · exact absurd h (by simp [Ctl.exits])
  · rw [grep_document_try_quiet_unless_exit cfg hq p d w (by rw [ht]; rfl), ht]

theorem for_each_quiet_unless_exit (cfg : Config) (hq : cfg.act = quiet)
    (p : std_string → std_string → Console → Ctl Console Bool) (docs : List Document)
    (w : World) (h : (for_each_grep_document cfg docs w).exits = false) :
    for_each_grep_document { cfg with act := quiet_with p } docs w =
      for_each_grep_document cfg docs w := by
  induction docs generalizing w with
  | nil => rfl
  | cons d ds ih =>
    simp only [for_each_grep_document] at h ⊢
    exact bind_congr_unless_exit _ _ _ _ (grep_document_quiet_unless_exit cfg hq p d w)
      (fun _ s hs => ih s hs) h

/-- Offering decodable units none of which is accepted changes nothing,
whatever the action is. -/
theorem offer_all_not_accepted (cfg : Config) (filename : std_string) (ts : List std_string)
    (w : World) (h : ∀ v ∈ ts, decodes v = true ∧ accepts cfg v = false) :
    offer_all (match_ cfg) filename ts w = .ret true w := by
  induction ts with
  | nil => rfl
  | cons t ts ih =>
    obtain ⟨hd, ha⟩ := h t (List.mem_cons_self _ _)
    obtain ⟨wide, hwide⟩ := decodes_ok t hd
    rw [accepts_of_decoded cfg t wide hwide] at ha
    simp only [offer_all, match_of_decoded cfg t filename w wide hwide, ha]
    exact ih (fun v hv => h v (List.mem_cons_of_mem _ hv))

/-- An exit that ends the offering of the units of a document that opens and
parses ends the `try` block of `grep_document`. -/
theorem grep_document_try_exits (cfg : Config) (d : Document) (zip : ZipArchive)
    (w w2 : World) (code : Nat)
    (hz : d.zip = .ok zip) (hopen : opens cfg d = true) (hparse : parses cfg d)
    (h : offer_all (match_ cfg) (if cfg.print_filename.to_bool then d.path else emptystr)
      (document_units cfg zip) { w with match_count := 0 } = .exit code w2) :
    grep_document_try cfg d w = .exit code w2 := by
  obtain ⟨hpm, hpc⟩ := hparse zip hz
  rw [grep_document_try_ok cfg d zip w hz]
  rw [document_units_eq] at h
  simp only [opens, hz, Bool.and_eq_true, Bool.or_eq_true, Bool.not_eq_true'] at hopen
  obtain ⟨hom, hoc⟩ := hopen
  obtain ⟨rc, hrc⟩ := readable_root _ hoc
  have hrc0 : rc ≠ .null := fun h0 => hpc (by rw [hrc, h0])
  rw [hrc] at h ⊢
  simp only [search_member, member_units, grep_content_root cfg _ rc _ hrc0] at h ⊢
  by_cases hsm : cfg.search_meta = true
  · have hrm : readable (zip.member "meta.xml") = true := by
      rcases hom with h0 | h0
      · rw [hsm] at h0; simp at h0
      · exact h0
    obtain ⟨rm, hrm1⟩ := readable_root _ hrm
    have hrm0 : rm ≠ .null := fun h0 => hpm hsm (by rw [hrm1, h0])
    rw [hrm1] at h ⊢
    simp only [hsm, if_true, grep_content_root cfg _ rm _ hrm0] at h ⊢
    rw [offer_all_append] at h
    rcases hmu : offer_all (match_ cfg) (if cfg.print_filename.to_bool then d.path else emptystr)
        (stream_units cfg.search_deleted rm) { w with match_count := 0 } with
      ⟨_ | _, s1⟩ | ⟨e1, s1⟩ | ⟨code1, s1⟩ | s1
    · rw [hmu] at h
      simp at h
    · rw [hmu] at h
      simp only at h
      simp [Ctl.bind, h]
    · rw [hmu] at h
      simp at h
    · rw [hmu] at h
      simp only at h
      cases h
      simp [Ctl.bind]
    · rw [hmu] at h
      simp at h
  · simp only [hsm, Bool.false_eq_true, if_false, List.nil_append] at h ⊢
    simp [Ctl.bind, h]

/-- C24: with the action Quiet, `perform` never returns: it ends the process
with code 0.  When the search of a document that opens and parses reaches its
first accepted unit `u` (the units before, `pre`, decode and are not
accepted), the run ends there with exit code 0 and the state as it was when
the document was reached, whatever the later units (`post`) and documents
(`after`) are.  `finish_all` ends the process with `EXIT_FAILURE`, which is
not 0; when the loop over the documents reaches its end, so that `finish_all`
is called, the loop comes out the same with any other `perform` in the place
of Quiet's: `perform` was not invoked. -/
theorem quiet_exits_at_first_accepted_unit (cfg : Config) (hq : cfg.act = quiet)
    (before after : List Document) (d : Document) (zip : ZipArchive) (w w1 : World)
    (pre post : List std_string) (u : std_string)
    (hbefore : for_each_grep_document cfg before w = .ret () w1)
    (hz : d.zip = .ok zip) (hopen : opens cfg d = true) (hparse : parses cfg d)
    (hunits : document_units cfg zip = pre ++ u :: post)
    (hpre : ∀ v ∈ pre, decodes v = true ∧ accepts cfg v = false)
    (hu : accepts cfg u = true) :
    (∀ t f c, quiet.perform t f c = .exit 0 c) ∧
    run cfg (before ++ d :: after) w = .exit 0 { w1 with match_count := 0 } ∧
    (∀ c, quiet.finish_all c = .exit EXIT_FAILURE c) ∧ EXIT_FAILURE ≠ 0 ∧
    (∀ docs v v1, for_each_grep_document cfg docs v = .ret () v1 →
      run cfg docs v = .exit EXIT_FAILURE v1 ∧
      ∀ p, for_each_grep_document { cfg with act := quiet_with p } docs v = .ret () v1) := by
  refine ⟨fun _ _ _ => rfl, ?_, fun _ => rfl, by decide, ?_⟩
  · have hud : ∃ wide, utf8_to_utf32 u = .ok wide ∧ is_accepted cfg wide = true := by
      rcases decodes_or_not u with ⟨wide, hwide, _⟩ | hno
      · exact ⟨wide, hwide, by rw [← accepts_of_decoded cfg u wide hwide]; exact hu⟩
      · have : accepts cfg u = false := by
          unfold accepts
          unfold decodes at hno
          cases hx : utf8_to_utf32 u with
          | ok x => rw [hx] at hno; simp at hno
          | runtime_error what => rfl
          | assertion_failed => rfl
          | out_of_bounds => rfl
        rw [this] at hu
        exact absurd hu (by simp)
    obtain ⟨wide, hwide, hacc⟩ := hud
    have hoff : offer_all (match_ cfg) (if cfg.print_filename.to_bool then d.path else emptystr)
        (document_units cfg zip) { w1 with match_count := 0 } =
        .exit 0 { w1 with match_count := 0 } := by
      rw [hunits, offer_all_append, offer_all_not_accepted cfg _ pre _ hpre]
      have hcap : cfg.max_count = 0 ∨ (0 : Int) ≠ cfg.max_count := by
        by_cases h0 : cfg.max_count = 0
        · exact Or.inl h0
        · exact Or.inr (fun h => h0 h.symm)
      simp [offer_all, match_of_decoded cfg u _ _ wide hwide, hacc, hcap, hq, quiet,
        World.with_console, Ctl.lift, Ctl.bind, EXIT_SUCCESS]
    have htry := grep_document_try_exits cfg d zip w1 _ 0 hz hopen hparse hoff
    have hdoc : grep_document cfg d w1 = .exit 0 { w1 with match_count := 0 } := by
      rw [grep_document_base cfg d w1 (by rw [hq]; rfl) (by rw [hq]; rfl), htry]
    simp [run, search_documents, for_each_append, hbefore, Ctl.bind, for_each_grep_document,
      hdoc, main_handler]
  · intro docs v v1 hfe
    refine ⟨?_, fun p => ?_⟩
    · simp [run, search_documents, hfe, Ctl.bind, hq, quiet, World.with_console, Ctl.lift,
        main_handler]
    · rw [for_each_quiet_unless_exit cfg hq p docs v (by rw [hfe]; rfl), hfe]

theorem quiet_exits_at_first_accepted_unit_witness :
    run (example_config true 0 quiet)
        ([bad_document] ++ example_document :: [undecodable_document]) World.initial =
      .exit 0 { match_count := 0, status := .io_error,
                console := { cout := [], cerr := lit "bad.odt: not a zip archive\n" } } :=
  (quiet_exits_at_first_accepted_unit (example_config true 0 quiet) rfl [bad_document]
    [undecodable_document] example_document example_archive World.initial
    { match_count := 0, status := .io_error,
      console := { cout := [], cerr := lit "bad.odt: not a zip archive\n" } }
    [lit "a1", lit "a2"] [lit "a3"] (lit "b") (by decide) rfl (by decide) (by decide)
    (by decide) (by decide) (by decide)).2.1

end Odfgrep
